import Mathlib

/-!
# vlog: a shallow embedding of the formatting engine, the sink adapter, the
# asynchronous pipeline, the file writers and the dispatcher

Go strings are byte sequences; they are modelled as lists of byte values.
Functions that can return an error or raise a run-time panic return `Res`.
The file writers run against a `FileSystem`, the answers of the operating
system during one call.
-/

namespace Vlog

/-- A Go `string` / `[]byte`: the list of its bytes (each below 256). -/
abbrev GoString := List Nat

/-- Bytes of a string literal made of ASCII characters. -/
def lit (s : String) : GoString := s.toList.map Char.toNat

/-- Outcome of a Go call that may return an error value or panic. `timeout`
is the out-of-fuel answer of a bounded loop model; `newFormatter_total` shows it
is never produced. -/
inductive Res (α : Type) where
  | ok : α → Res α
  | error : GoString → Res α
  | fault : Res α
  | timeout : Res α
deriving DecidableEq, Repr

/-- The call returned an error value. -/
def Res.isError {α : Type} : Res α → Bool
  | .error _ => true
  | _ => false

/-- The call returned normally without an error. -/
def Res.isOk {α : Type} : Res α → Bool
  | .ok _ => true
  | _ => false

/-- The call panicked. -/
def Res.isFault {α : Type} : Res α → Bool
  | .fault => true
  | _ => false

/-! ## Standard-library helpers (unicode/utf8, unicode, strings, strconv) -/

/-- The constant `utf8.RuneError`. -/
def RuneError : Nat := 0xFFFD

/-- The function `utf8.DecodeRune` after a lead byte `p0` of a two-byte sequence
(`0xC2..0xDF`); `rest` are the bytes after `p0`. -/
def decodeTwo (p0 : Nat) : GoString → Nat × Nat
  | b1 :: _ =>
    if 0x80 ≤ b1 ∧ b1 ≤ 0xBF then ((p0 % 32) * 64 + b1 % 64, 2) else (RuneError, 1)
  | [] => (RuneError, 1)

/-- The function `utf8.DecodeRune` after a lead byte of a three-byte sequence (`0xE0..0xEF`);
the accepted range of the second byte excludes overlong forms (`0xE0`) and
surrogates (`0xED`). -/
def decodeThree (p0 : Nat) : GoString → Nat × Nat
  | b1 :: b2 :: _ =>
    if b1 < (if p0 = 0xE0 then 0xA0 else 0x80) ∨ (if p0 = 0xED then 0x9F else 0xBF) < b1 then
      (RuneError, 1)
    else if ¬ (0x80 ≤ b2 ∧ b2 ≤ 0xBF) then (RuneError, 1)
    else ((p0 % 16) * 4096 + (b1 % 64) * 64 + b2 % 64, 3)
  | _ => (RuneError, 1)

/-- The function `utf8.DecodeRune` after a lead byte of a four-byte sequence (`0xF0..0xF4`). -/
def decodeFour (p0 : Nat) : GoString → Nat × Nat
  | b1 :: b2 :: b3 :: _ =>
    if b1 < (if p0 = 0xF0 then 0x90 else 0x80) ∨ (if p0 = 0xF4 then 0x8F else 0xBF) < b1 then
      (RuneError, 1)
    else if ¬ (0x80 ≤ b2 ∧ b2 ≤ 0xBF) then (RuneError, 1)
    else if ¬ (0x80 ≤ b3 ∧ b3 ≤ 0xBF) then (RuneError, 1)
    else ((p0 % 8) * 262144 + (b1 % 64) * 4096 + (b2 % 64) * 64 + b3 % 64, 4)
  | _ => (RuneError, 1)

/-- The function `utf8.DecodeRune`: the first rune of `p` and its width in bytes. Invalid or
short encodings give `(RuneError, 1)`, the empty input `(RuneError, 0)`. -/
def decodeRune : GoString → Nat × Nat
  | [] => (RuneError, 0)
  | p0 :: rest =>
    if p0 < 0x80 then (p0, 1)
    else if p0 < 0xC2 then (RuneError, 1)
    else if p0 < 0xE0 then decodeTwo p0 rest
    else if p0 < 0xF0 then decodeThree p0 rest
    else if p0 < 0xF5 then decodeFour p0 rest
    else (RuneError, 1)

/-- The function `utf8.RuneCount`: number of runes, every invalid byte counting as one.
The fuel is the byte length, an upper bound on the count. -/
def runeCountAux : Nat → GoString → Nat
  | 0, _ => 0
  | _ + 1, [] => 0
  | fuel + 1, p => 1 + runeCountAux fuel (p.drop (decodeRune p).2)

/-- The function `utf8.RuneCount`. -/
def runeCount (p : GoString) : Nat := runeCountAux p.length p

/-- The conversion `string(r)` for a rune `r`: its UTF-8 encoding, `U+FFFD` for an invalid
code point. -/
def encodeRune (r : Nat) : GoString :=
  if r < 0x80 then [r]
  else if r < 0x800 then [0xC0 + r / 64, 0x80 + r % 64]
  else if (0xD800 ≤ r && r ≤ 0xDFFF) || 0x10FFFF < r then [0xEF, 0xBF, 0xBD]
  else if r < 0x10000 then [0xE0 + r / 4096, 0x80 + (r / 64) % 64, 0x80 + r % 64]
  else [0xF0 + r / 262144, 0x80 + (r / 4096) % 64, 0x80 + (r / 64) % 64, 0x80 + r % 64]

/-- ASCII letters. -/
def isAsciiLetter (r : Nat) : Bool := (65 ≤ r && r ≤ 90) || (97 ≤ r && r ≤ 122)

/-- Letters of the Latin-1 block `0x80..0xFF` (the `properties` table of package
`unicode`). -/
def isLatin1Letter (r : Nat) : Bool :=
  r = 0xAA || r = 0xB5 || r = 0xBA || (0xC0 ≤ r && r ≤ 0xD6) || (0xD8 ≤ r && r ≤ 0xF6) ||
    (0xF8 ≤ r && r ≤ 0xFF)

/-- The function `unicode.IsLetter`. ASCII and Latin-1 are decided here, `U+FFFD` is a
symbol; the letter table for the other code points is the parameter `L`. -/
def isLetter (L : Nat → Bool) (r : Nat) : Bool :=
  if r < 0x80 then isAsciiLetter r
  else if r ≤ 0xFF then isLatin1Letter r
  else if r = RuneError then false
  else L r

/-- A letter table with no letter beyond Latin-1, used to evaluate examples. -/
def asciiLetters : Nat → Bool := fun _ => false

/-- The function `strings.Index(s, sep)` for a one-byte separator: first position or -1. -/
def indexByte (sep : Nat) : GoString → Int
  | [] => -1
  | b :: rest => if b = sep then 0 else
      match indexByte sep rest with
      | Int.negSucc _ => -1
      | Int.ofNat k => Int.ofNat (k + 1)

/-- The slice expression `s[lo:hi]`; `none` is the run-time panic raised when
the bounds are not `0 <= lo <= hi <= len(s)`. -/
def slice (s : GoString) (lo hi : Int) : Option GoString :=
  if 0 ≤ lo ∧ lo ≤ hi ∧ hi ≤ (s.length : Int) then
    some ((s.drop lo.toNat).take (hi.toNat - lo.toNat))
  else none

/-- The function `strconv.Itoa` on a natural number. -/
def itoa (n : Nat) : GoString := (Nat.toDigits 10 n).map Char.toNat

/-- Decimal text of a signed integer. -/
def itoaInt : Int → GoString
  | Int.ofNat n => itoa n
  | Int.negSucc n => 45 :: itoa (n + 1)

/-- The function `strings.ToLower` on one byte of ASCII text. -/
def toLowerByte (b : Nat) : Nat := if 65 ≤ b ∧ b ≤ 90 then b + 32 else b

/-! ## Levels, contexts and tag values -/

/-- The type `LogLevel` (an `int8`). -/
abbrev LogLevel := Int

def LvTrace : LogLevel := 0
def LvDebug : LogLevel := 1
def LvInfo : LogLevel := 2
def LvWarn : LogLevel := 3
def LvError : LogLevel := 4
def LvCritical : LogLevel := 5

/-- The map `lv2StringMap`. -/
def lv2StringMap (level : LogLevel) : Option GoString :=
  if level = LvTrace then some (lit "trace")
  else if level = LvDebug then some (lit "debug")
  else if level = LvInfo then some (lit "info")
  else if level = LvWarn then some (lit "warn")
  else if level = LvError then some (lit "error")
  else if level = LvCritical then some (lit "critical")
  else none

/-- The map `lv2StrMap`. -/
def lv2StrMap (level : LogLevel) : Option GoString :=
  if level = LvTrace then some (lit "TRA")
  else if level = LvDebug then some (lit "DEB")
  else if level = LvInfo then some (lit "INF")
  else if level = LvWarn then some (lit "WAR")
  else if level = LvError then some (lit "ERR")
  else if level = LvCritical then some (lit "CRI")
  else none

/-- A `time.Time` value, seen through the two methods the formatter calls. -/
structure GoTime where
  Format : GoString → GoString
  UnixNano : Int

/-- Modelled from the spec: the type `runtimeContextInterface` is declared
outside the given sources; the capture context carries the call time, the
source file name and path, the function name and the line number. -/
structure RuntimeContext where
  FileName : GoString
  FullPath : GoString
  Func : GoString
  Line : Int
  CallTime : GoTime

/-- The dynamic values (`interface{}`) that tag functions return. -/
inductive Value where
  | str : GoString → Value
  | int : Int → Value
  | int64 : Int → Value
deriving DecidableEq, Repr

def DateFormat : GoString := lit "2006-01-02"
def TimeFormat : GoString := lit "15:04:05"
def wrongLogLevel : GoString := lit "WRONG_LOGLEVEL_TAG"
def wrongEscapeCode : GoString := lit "WRONG_CONSLE_ESCAPE"

/-- The tag functions: the thirteen named functions of the table `tagFuncs`
and the closures built by the two creators, each with its captured string. -/
inductive TagFunc where
  | tagLevel | tagLv | tagLV | tagMsg | tagFile | tagRelFile | tagFunction
  | tagFunctionShort | tagLine | tagTime | tagNs | tagN | tagT
  | dateTimeClosure (format : GoString)
  | ansiEscapeClosure (escapeCodeString : GoString)
deriving DecidableEq, Repr

/-- The last element of `strings.Split(f, ".")`: the text after the last dot. -/
def lastDotted (f : GoString) : GoString :=
  (f.reverse.takeWhile (fun b => b != 46)).reverse

/-- Calling a tag function on `(message, level, context)`; `now` is the value
of `time.Now()` at the call. -/
def TagFunc.call (now : GoTime) (message : GoString) (level : LogLevel)
    (context : RuntimeContext) : TagFunc → Value
  | .tagLevel => .str ((lv2StringMap level).getD wrongLogLevel)
  | .tagLv => .str (((lv2StrMap level).getD wrongLogLevel).map toLowerByte)
  | .tagLV => .str ((lv2StrMap level).getD wrongLogLevel)
  | .tagMsg => .str message
  | .tagFile => .str context.FileName
  | .tagRelFile => .str context.FullPath
  | .tagFunction => .str context.Func
  | .tagFunctionShort => .str (lastDotted context.Func)
  | .tagLine => .int context.Line
  | .tagTime => .str (context.CallTime.Format TimeFormat)
  | .tagNs => .int64 context.CallTime.UnixNano
  | .tagN => .str [10]
  | .tagT => .str [9]
  | .dateTimeClosure format => .str (now.Format format)
  | .ansiEscapeClosure code =>
      .str (if code.length = 0 then wrongEscapeCode else [0x1B, 91] ++ code ++ [109])

/-- The creator `createDateTimeTagFunc`. -/
def createDateTimeTagFunc (dateTimeFormat : GoString) : TagFunc :=
  .dateTimeClosure (if dateTimeFormat = [] then DateFormat else dateTimeFormat)

/-- The creator `createANSIEscapeFunc`. -/
def createANSIEscapeFunc (escapeCodeString : GoString) : TagFunc :=
  .ansiEscapeClosure escapeCodeString

/-- The entries of the map `tagFuncs`. -/
def tagFuncsTable : List (GoString × TagFunc) :=
  [ (lit "level", .tagLevel), (lit "lv", .tagLv), (lit "LV", .tagLV),
    (lit "msg", .tagMsg), (lit "file", .tagFile), (lit "relfile", .tagRelFile),
    (lit "func", .tagFunction), (lit "fn", .tagFunctionShort), (lit "line", .tagLine),
    (lit "time", .tagTime), (lit "ns", .tagNs), (lit "n", .tagN), (lit "t", .tagT) ]

/-- Lookup in the map `tagFuncs`. -/
def tagFuncs (name : GoString) : Option TagFunc :=
  (tagFuncsTable.find? (fun e => e.1 = name)).map Prod.snd

/-- The entries of the map `tagWithParamFuncCreator`. -/
def tagWithParamTable : List (GoString × (GoString → TagFunc)) :=
  [ (lit "date", createDateTimeTagFunc), (lit "escm", createANSIEscapeFunc) ]

/-- Lookup in the map `tagWithParamFuncCreator`. -/
def tagWithParamFuncCreator (name : GoString) : Option (GoString → TagFunc) :=
  (tagWithParamTable.find? (fun e => e.1 = name)).map Prod.snd

/-! ## formatter.go -/

def TagSymbol : Nat := 37
def tagSymbolString : GoString := [37]
def tagParamStart : Nat := 40
def tagParamEnd : Nat := 41

/-- The struct `formatter`. A nil `allowedTags` is the empty list. -/
structure formatter where
  fmtStringOriginal : GoString
  fmtString : GoString
  allowedTags : List GoString
  tagFuncs : List TagFunc
deriving DecidableEq, Repr

/-- The loop of `extractLetterSequence`: `n` iterations are left. -/
def extractLetterLoop (L : Nat → Bool) : Nat → GoString → GoString → GoString
  | 0, _, letters => letters
  | n + 1, bytesToParse, letters =>
    if isLetter L (decodeRune bytesToParse).1 then
      extractLetterLoop L n (bytesToParse.drop (decodeRune bytesToParse).2)
        (letters ++ encodeRune (decodeRune bytesToParse).1)
    else letters

/-- The method `extractLetterSequence`. -/
def extractLetterSequence (L : Nat → Bool) (f : formatter) (index : Nat) : GoString :=
  extractLetterLoop L (runeCount (f.fmtStringOriginal.drop index))
    (f.fmtStringOriginal.drop index) []

/-- The loop of `findTagFunc`: `n` iterations are left. -/
def findTagLoop : Nat → GoString → Option (TagFunc × Nat)
  | 0, _ => none
  | n + 1, currentTag =>
    match tagFuncs currentTag with
    | some function => some (function, currentTag.length)
    | none => findTagLoop n (currentTag.take (currentTag.length - 1))

/-- The method `findTagFunc`. -/
def findTagFunc (letters : GoString) : Option (TagFunc × Nat) :=
  findTagLoop letters.length letters

/-- The method `findparameter`; `fault` is the slice-bounds panic. -/
def findparameter (f : formatter) (startIndex : Nat) : Res (GoString × Nat × Bool) :=
  if f.fmtStringOriginal.length = startIndex then .ok ([], 0, false)
  else
    match f.fmtStringOriginal[startIndex]? with
    | none => .fault
    | some c =>
      if c ≠ tagParamStart then .ok ([], 0, false)
      else
        let endIndex : Int :=
          indexByte tagParamEnd (f.fmtStringOriginal.drop startIndex) + (startIndex : Int)
        if endIndex = -1 then .ok ([], 0, false)
        else
          match slice f.fmtStringOriginal ((startIndex : Int) + 1) endIndex with
          | none => .fault
          | some userParamter => .ok (userParamter, (endIndex - (startIndex : Int) + 1).toNat, true)

/-- The loop of `findTagFuncParametrized`: `n` iterations are left and `i` is
the loop counter. -/
def findTagParamLoop (f : formatter) (lettersStartIndex : Nat) :
    Nat → Nat → GoString → Res (Option (TagFunc × Nat))
  | 0, _, _ => .ok none
  | n + 1, i, currentTag =>
    match tagWithParamFuncCreator currentTag with
    | some functionCreator =>
      if i = 0 then
        match findparameter f (lettersStartIndex + currentTag.length) with
        | .ok (userParamter, parameterLen, ok) =>
          .ok (some (functionCreator (if ok then userParamter else []),
            currentTag.length + parameterLen))
        | .error e => .error e
        | .fault => .fault
        | .timeout => .timeout
      else .ok (some (functionCreator [], currentTag.length))
    | none => findTagParamLoop f lettersStartIndex n (i + 1) (currentTag.take (currentTag.length - 1))

/-- The method `findTagFuncParametrized`. -/
def findTagFuncParametrized (f : formatter) (letters : GoString) (lettersStartIndex : Nat) :
    Res (Option (TagFunc × Nat)) :=
  findTagParamLoop f lettersStartIndex letters.length 0 letters

/-- The method `extractTagFunc`: the tag function and the index of the last
byte the tag consumed. -/
def extractTagFunc (L : Nat → Bool) (f : formatter) (index : Nat) : Res (TagFunc × Nat) :=
  let letterSequence := extractLetterSequence L f index
  if letterSequence.length = 0 then
    .error (lit "Format error: lack of tag after %. At " ++ itoa index)
  else if f.allowedTags.length ≠ 0 ∧ letterSequence ∉ f.allowedTags then
    .error (lit "Format error: unallowed tag at " ++ itoa index ++ lit ": " ++ letterSequence)
  else
    match findTagFunc letterSequence with
    | some (function, tagLength) => .ok (function, index + tagLength - 1)
    | none =>
      match findTagFuncParametrized f letterSequence index with
      | .ok (some (function, tagLength)) => .ok (function, index + tagLength - 1)
      | .ok none =>
        .error (lit "Format error: unrecognized tag at " ++ itoa index ++ lit ": " ++ letterSequence)
      | .error e => .error e
      | .fault => .fault
      | .timeout => .timeout

/-- The loop of `buildTagFuncs` from index `i` with the format string and the
tag functions built so far. -/
def buildLoop (L : Nat → Bool) (f : formatter) :
    Nat → Nat → GoString → List TagFunc → Res (GoString × List TagFunc)
  | 0, _, _, _ => .timeout
  | fuel + 1, i, fmtString, funcs =>
    if ¬ i < f.fmtStringOriginal.length then .ok (fmtString, funcs)
    else
      match f.fmtStringOriginal[i]? with
      | none => .fault
      | some char =>
        if char ≠ TagSymbol then buildLoop L f fuel (i + 1) (fmtString ++ encodeRune char) funcs
        else if i = f.fmtStringOriginal.length - 1 then
          .error (lit "Format error: % - last symbol")
        else
          match f.fmtStringOriginal[i + 1]? with
          | none => .fault
          | some next =>
            if next = TagSymbol then
              buildLoop L f fuel (i + 1 + 1) (fmtString ++ tagSymbolString) funcs
            else
              match extractTagFunc L f (i + 1) with
              | .ok (function, nextI) =>
                buildLoop L f fuel (nextI + 1) (fmtString ++ lit "%v") (funcs ++ [function])
              | .error e => .error e
              | .fault => .fault
              | .timeout => .timeout

/-- The method `buildTagFuncs`. -/
def buildTagFuncs (L : Nat → Bool) (f : formatter) : Res formatter :=
  match buildLoop L f (f.fmtStringOriginal.length + 1) 0 [] [] with
  | .ok (fmtString, funcs) => .ok { f with fmtString := fmtString, tagFuncs := funcs }
  | .error e => .error e
  | .fault => .fault
  | .timeout => .timeout

/-- The constructor `newFormatter`. -/
def newFormatter (L : Nat → Bool) (formatString : GoString) (allowedTags : List GoString) :
    Res formatter :=
  buildTagFuncs L
    { fmtStringOriginal := formatString, fmtString := [], allowedTags := allowedTags,
      tagFuncs := [] }

/-! ## fmt.Sprintf, on the fragment the formatter uses -/

/-- Flag characters of a format verb: `#`, `0`, `+`, `-` and space. -/
def isFlagChar (c : Nat) : Bool := c = 35 || c = 48 || c = 43 || c = 45 || c = 32

/-- The operand printed under a plain `%v`. -/
def Value.show : Value → GoString
  | .str s => s
  | .int n => itoaInt n
  | .int64 n => itoaInt n

/-- The type name printed for a surplus operand. -/
def Value.typeName : Value → GoString
  | .str _ => lit "string"
  | .int _ => lit "int"
  | .int64 _ => lit "int64"

/-- Operands of the `%!(EXTRA ...)` report, joined by a comma and a space. -/
def extraItems : List Value → GoString
  | [] => []
  | [a] => a.typeName ++ [61] ++ a.show
  | a :: rest => a.typeName ++ [61] ++ a.show ++ lit ", " ++ extraItems rest

/-- What `doPrintf` appends once the format is exhausted. -/
def extraReport (a : List Value) : GoString :=
  if a = [] then [] else lit "%!(EXTRA " ++ extraItems a ++ [41]

/-- The scan of `doPrintf`. `inVerb` says a `%` has been read and the verb is
awaited, `flagged` that a flag character followed it. The result is `none`
where the format leaves the modelled fragment: a width, a precision, an
argument index, a flag before an operand verb, or an operand verb other than
`v`. -/
def doPrintf : Bool → Bool → GoString → List Value → Option GoString
  | false, _, [], a => some (extraReport a)
  | true, _, [], a => some (lit "%!(NOVERB)" ++ extraReport a)
  | false, _, c :: rest, a =>
    if c = 37 then doPrintf true false rest a
    else (doPrintf false false rest a).map (fun out => c :: out)
  | true, flagged, c :: rest, a =>
    if isFlagChar c then doPrintf true true rest a
    else if c = 37 then (doPrintf false false rest a).map (fun out => 37 :: out)
    else
      match a with
      | [] =>
        if c = 91 ∨ c = 42 ∨ c = 46 ∨ (49 ≤ c ∧ c ≤ 57) ∨ 0x80 ≤ c then none
        else (doPrintf false false rest []).map (fun out => lit "%!" ++ [c] ++ lit "(MISSING)" ++ out)
      | arg :: more =>
        if c = 118 ∧ flagged = false then
          (doPrintf false false rest more).map (fun out => arg.show ++ out)
        else none

/-- The call `fmt.Sprintf(format, a...)`. -/
def Sprintf (format : GoString) (a : List Value) : Option GoString :=
  doPrintf false false format a

/-- The method `Format`; `now` is the value of `time.Now()` during the call. -/
def formatter.Format (f : formatter) (now : GoTime) (message : GoString) (level : LogLevel)
    (context : RuntimeContext) : Option GoString :=
  if f.tagFuncs.length = 0 then some f.fmtString
  else Sprintf f.fmtString (f.tagFuncs.map (fun function => function.call now message level context))

/-- Compile a template and render one record; `none` when compilation does
not return a formatter. -/
def render (L : Nat → Bool) (template : GoString) (allowedTags : List GoString) (now : GoTime)
    (message : GoString) (level : LogLevel) (context : RuntimeContext) : Option GoString :=
  match newFormatter L template allowedTags with
  | .ok f => f.Format now message level context
  | _ => none

/-- A fixed clock and context for evaluating examples. -/
def sampleTime : GoTime := { Format := fun layout => layout, UnixNano := 1700000000000000000 }

def sampleContext : RuntimeContext :=
  { FileName := lit "main.go", FullPath := lit "/src/app/main.go", Func := lit "main.run",
    Line := 42, CallTime := sampleTime }

/-- The conversion `string(char)` applied to every byte of a string, as the
literal branch of `buildTagFuncs` does. -/
def convertBytes : GoString → GoString
  | [] => []
  | b :: rest => encodeRune b ++ convertBytes rest

/-! ## The template as the spec reads it -/

/-- One element of the compiled sequence of a template: a literal byte, an
escaped `%%`, or a resolved tag. -/
inductive Item where
  | literal : Nat → Item
  | escape : Item
  | tag : TagFunc → Item
deriving DecidableEq, Repr

/-- The parsing algorithm of the spec, from index `i`: a byte other than `%` is
literal text, `%%` is an escape and advances two bytes, any other `%` starts a
tag that is resolved by `extractTagFunc`; `none` when the template does not
compile. -/
def templateItemsFrom (L : Nat → Bool) (f : formatter) : Nat → Nat → Option (List Item)
  | 0, _ => none
  | fuel + 1, i =>
    if ¬ i < f.fmtStringOriginal.length then some []
    else
      match f.fmtStringOriginal[i]? with
      | none => none
      | some char =>
        if char ≠ TagSymbol then
          (templateItemsFrom L f fuel (i + 1)).map (fun items => Item.literal char :: items)
        else
          match f.fmtStringOriginal[i + 1]? with
          | none => none
          | some next =>
            if next = TagSymbol then
              (templateItemsFrom L f fuel (i + 1 + 1)).map (fun items => Item.escape :: items)
            else
              match extractTagFunc L f (i + 1) with
              | .ok (function, nextI) =>
                (templateItemsFrom L f fuel (nextI + 1)).map (fun items => Item.tag function :: items)
              | _ => none

/-- The sequence of literal bytes, escapes and tags of a template. -/
def templateItems (L : Nat → Bool) (template : GoString) (allowedTags : List GoString) :
    Option (List Item) :=
  templateItemsFrom L
    { fmtStringOriginal := template, fmtString := [], allowedTags := allowedTags, tagFuncs := [] }
    (template.length + 1) 0

/-- Rendering as the spec states it: literal text as written, one `%` for an
escape, and the value of each tag in its place. -/
def renderItems (now : GoTime) (message : GoString) (level : LogLevel)
    (context : RuntimeContext) : List Item → GoString
  | [] => []
  | .literal b :: rest => b :: renderItems now message level context rest
  | .escape :: rest => 37 :: renderItems now message level context rest
  | .tag function :: rest =>
    (function.call now message level context).show ++ renderItems now message level context rest

/-- The format string that `buildTagFuncs` assembles for a sequence of items. -/
def fmtOf : List Item → GoString
  | [] => []
  | .literal b :: rest => encodeRune b ++ fmtOf rest
  | .escape :: rest => 37 :: fmtOf rest
  | .tag _ :: rest => lit "%v" ++ fmtOf rest

/-- The tag functions of a sequence of items, in order. -/
def funcsOf : List Item → List TagFunc
  | [] => []
  | .tag function :: rest => function :: funcsOf rest
  | _ :: rest => funcsOf rest

/-- What the code renders for an escape-free sequence: as `renderItems`, but
every literal byte is converted by `string(char)`. -/
def renderConverted (now : GoTime) (message : GoString) (level : LogLevel)
    (context : RuntimeContext) : List Item → GoString
  | [] => []
  | .literal b :: rest => encodeRune b ++ renderConverted now message level context rest
  | .escape :: rest => 37 :: renderConverted now message level context rest
  | .tag function :: rest =>
    (function.call now message level context).show ++ renderConverted now message level context rest


/-- The allowed-tag guard of `extractTagFunc` lets the letter run `R` pass. -/
def passesAllowed (f : formatter) (R : GoString) : Prop :=
  f.allowedTags = [] ∨ R ∈ f.allowedTags

/-- The key under which a tag function is registered in `tagFuncs` or its
creator in `tagWithParamFuncCreator`. -/
def TagFunc.name : TagFunc → GoString
  | .tagLevel => lit "level"
  | .tagLv => lit "lv"
  | .tagLV => lit "LV"
  | .tagMsg => lit "msg"
  | .tagFile => lit "file"
  | .tagRelFile => lit "relfile"
  | .tagFunction => lit "func"
  | .tagFunctionShort => lit "fn"
  | .tagLine => lit "line"
  | .tagTime => lit "time"
  | .tagNs => lit "ns"
  | .tagN => lit "n"
  | .tagT => lit "t"
  | .dateTimeClosure _ => lit "date"
  | .ansiEscapeClosure _ => lit "escm"

/-- A recognised tag name: a key of one of the two tag tables. -/
def isTagName (name : GoString) : Bool :=
  (tagFuncs name).isSome || (tagWithParamFuncCreator name).isSome

/-- The maximal run of letters at the start of `s`, as `extractLetterSequence`
collects it from `fmtStringOriginal[index:]`. -/
def letterRun (L : Nat → Bool) (s : GoString) : GoString :=
  extractLetterLoop L (runeCount s) s []

/-! ## vlog.go: the queue and its consumer -/

/-- The struct `logMessage`. -/
structure logMessage where
  level : LogLevel
  message : GoString
  context : RuntimeContext

/-- The fields of the struct `logger` that the queue reads. -/
structure logger where
  maxLevel : LogLevel
  minLevel : LogLevel

/-- Capacity of the channel `logMessages` made by `InitLoggerWithFile`. -/
def logMessagesCap : Nat := 100

/-- The pipeline of an initialised logger: the buffer of the channel
`logMessages`, oldest record first, with the records passed so far to
`pushLogMessageToChannel` and to `dispatcher.Dispatch`, each in call order. -/
structure Pipeline where
  logMessages : List logMessage
  submitted : List logMessage
  dispatched : List logMessage

/-- The pipeline right after `InitLoggerWithFile`. -/
def Pipeline.init : Pipeline := { logMessages := [], submitted := [], dispatched := [] }

/-- The level test of `pushLogMessageToChannel`. -/
def levelInRange (log : logger) (lm : logMessage) : Bool :=
  decide (lm.level ≥ log.minLevel) && decide (lm.level ≤ log.maxLevel)

/-- The function `pushLogMessageToChannel` with `vloggerInstance` set: a record
in the level range is sent on the channel, any other is dropped. The send blocks
while the buffer is full: `none` says the call cannot complete in this state. -/
def pushLogMessageToChannel (log : logger) (st : Pipeline) (lm : logMessage) : Option Pipeline :=
  if lm.level ≥ log.minLevel ∧ lm.level ≤ log.maxLevel then
    if st.logMessages.length < logMessagesCap then
      some { st with logMessages := st.logMessages ++ [lm], submitted := st.submitted ++ [lm] }
    else none
  else some { st with submitted := st.submitted ++ [lm] }

/-- The function `dispatch`: one call of `dispatcher.Dispatch` on the record. -/
def dispatch (st : Pipeline) (lm : logMessage) : Pipeline :=
  { st with dispatched := st.dispatched ++ [lm] }

/-- One iteration of the loop of `dispatchLogMessage`: the oldest record is
received and dispatched. The receive blocks on an empty open channel: `none`. -/
def receiveAndDispatch (st : Pipeline) : Option Pipeline :=
  match st.logMessages with
  | [] => none
  | lm :: rest => some (dispatch { st with logMessages := rest } lm)

/-- A completed channel operation: a call of `pushLogMessageToChannel` by a
producer, or a receive by the consumer. -/
inductive PipelineEvent where
  | submit : logMessage → PipelineEvent
  | receive : PipelineEvent

/-- The records of the submissions among a sequence of operations, in order. -/
def submittedOf : List PipelineEvent → List logMessage
  | [] => []
  | .submit lm :: events => lm :: submittedOf events
  | .receive :: events => submittedOf events

/-- The pipeline after a sequence of completed operations; `none` when one of
them cannot complete where it stands. -/
def Pipeline.run (log : logger) : Pipeline → List PipelineEvent → Option Pipeline
  | st, [] => some st
  | st, .submit lm :: events =>
    match pushLogMessageToChannel log st lm with
    | none => none
    | some st2 => Pipeline.run log st2 events
  | st, .receive :: events =>
    match receiveAndDispatch st with
    | none => none
    | some st2 => Pipeline.run log st2 events

/-- The loop of `dispatchLogMessage` on a closed channel: the buffered records
are received and dispatched until the buffer is empty. -/
def drain : List logMessage → Pipeline → Pipeline
  | [], st => { st with logMessages := [] }
  | lm :: rest, st => drain rest (dispatch st lm)

/-- The consumer `dispatchLogMessage` run to the end of its loop. -/
def dispatchLogMessage (st : Pipeline) : Pipeline := drain st.logMessages st

/-! ## writers_formattedwriter.go -/

/-- What one call `writer.Write(bytes)` on a sink does: it returns `(n, err)`, or
panics with an error value, or panics with a value that is not an error. -/
inductive SinkResult where
  | returned : Int → Option GoString → SinkResult
  | panicError : GoString → SinkResult
  | panicOther : SinkResult

/-- What one call `writer.Close()` on a sink does: it returns an error or nil,
or panics. -/
inductive CloseResult where
  | returned : Option GoString → CloseResult
  | panics : CloseResult

/-- An `io.WriteCloser` behind a formatted writer: whether its dynamic type is
`*ruleFileWriter`, what its `Write` does on the given bytes, and what its
`Close` does (it returns nil where nothing else is said). -/
structure Sink where
  isRuleFileWriter : Bool
  Write : GoString → SinkResult
  Close : CloseResult := .returned none

/-- A call received by the sink. -/
inductive SinkCall where
  | formatFileName : LogLevel → RuntimeContext → SinkCall
  | write : GoString → SinkCall

/-- The byte strings of the `Write` calls among the calls received. -/
def writeCalls : List SinkCall → List GoString
  | [] => []
  | .write bytes :: rest => bytes :: writeCalls rest
  | .formatFileName _ _ :: rest => writeCalls rest

/-- The struct `formattedWriter`; `writer` is nil after `Close`, and
`allowedLevelList` is the map lookup. -/
structure formattedWriter where
  writer : Option Sink
  formatter : formatter
  allowedLevelList : LogLevel → Option Bool

/-- The result of `formattedWriter.Write`: the returned error, the calls the
sink received, and the errors handed to `writeRuntimeError`. -/
structure WriteOutcome where
  err : Option GoString
  sinkCalls : List SinkCall
  runtimeErrors : List GoString

/-- The run-time error raised by a method call on a nil interface. -/
def nilDereference : GoString :=
  lit "runtime error: invalid memory address or nil pointer dereference"

/-- The method `formattedWriter.Write` with its deferred `recover`; `none` only
where `Format` leaves the modelled fragment of `fmt.Sprintf`. -/
def formattedWriter.Write (fw : formattedWriter) (now : GoTime) (message : GoString)
    (level : LogLevel) (context : RuntimeContext) : Option WriteOutcome :=
  if fw.allowedLevelList level = some true then
    match fw.formatter.Format now message level context with
    | none => none
    | some str =>
      match fw.writer with
      | none =>
        some { err := some nilDereference, sinkCalls := [], runtimeErrors := [nilDereference] }
      | some writer =>
        let prepared :=
          if writer.isRuleFileWriter then [SinkCall.formatFileName level context] else []
        match writer.Write str with
        | .returned _ err =>
          some { err := err, sinkCalls := prepared ++ [SinkCall.write str], runtimeErrors := [] }
        | .panicError e =>
          some { err := some e, sinkCalls := prepared ++ [SinkCall.write str],
                 runtimeErrors := [e] }
        | .panicOther =>
          some { err := none, sinkCalls := prepared ++ [SinkCall.write str],
                 runtimeErrors := [] }
  else some { err := none, sinkCalls := [], runtimeErrors := [] }

/-! ## Standard-library helpers for the file writers (strings, strconv, path/filepath, regexp, os) -/

/-- The function `strings.HasPrefix`. -/
def HasPrefix (s pre : GoString) : Bool := pre.isPrefixOf s

/-- The function `strings.TrimSuffix`. -/
def TrimSuffix (s suffix : GoString) : GoString :=
  if suffix.isSuffixOf s then s.take (s.length - suffix.length) else s

/-- A decimal digit. -/
def isDigit (c : Nat) : Bool := 48 ≤ c && c ≤ 57

/-- The number written by a string of decimal digits. -/
def decimalValue (s : GoString) : Nat := s.foldl (fun acc c => acc * 10 + (c - 48)) 0

/-- The text after an optional leading sign `+` or `-`. -/
def stripSign : GoString → GoString
  | [] => []
  | c :: rest => if c = 43 ∨ c = 45 then rest else c :: rest

/-- The function `strconv.Atoi` on a 64-bit platform: an optional sign, then one
or more decimal digits, the value within the range of `int`; `none` is a syntax
or range error. -/
def Atoi (s : GoString) : Option Int :=
  if stripSign s = [] ∨ (stripSign s).all isDigit = false then none
  else
    let v : Int :=
      if s.head? = some 45 then -(decimalValue (stripSign s) : Int)
      else decimalValue (stripSign s)
    if v < -(2 ^ 63) ∨ 2 ^ 63 - 1 < v then none else some v

/-- The constant `os.PathSeparator` (Unix). -/
def PathSeparator : Nat := 47

/-- The loop of `filepath.Ext`, from the last byte backwards: `rev` holds the
bytes not yet visited, last first, and `tail` the bytes already passed. -/
def extLoop : GoString → GoString → GoString
  | [], _ => []
  | c :: rev, tail =>
    if c = PathSeparator then []
    else if c = 46 then c :: tail
    else extLoop rev (c :: tail)

/-- The function `filepath.Ext`: the text from the last dot of the last path
element, empty without a dot. -/
def Ext (path : GoString) : GoString := extLoop path.reverse []

/-- The text after the last path separator. -/
def lastElement (path : GoString) : GoString :=
  (path.reverse.takeWhile (fun c => c != PathSeparator)).reverse

/-- The function `filepath.Base`: trailing separators are stripped, then the last
element is taken; `.` for the empty path and `/` for a path of separators. -/
def Base (path : GoString) : GoString :=
  if path = [] then [46]
  else
    let stripped := (path.reverse.dropWhile (fun c => c == PathSeparator)).reverse
    if lastElement stripped = [] then [PathSeparator] else lastElement stripped

/-- The directory part returned by `filepath.Split`: the path up to and
including its last separator. -/
def splitDir (path : GoString) : GoString :=
  path.take (path.length - (lastElement path).length)

/-- The function `filepath.IsAbs` (Unix). -/
def IsAbs (path : GoString) : Bool := HasPrefix path [PathSeparator]

/-- The call `autoIncrementReg.FindIndex` for the expression `[#]+`: the bounds
of the first run of `#`, `none` without a `#`. -/
def findAutoIncrementSymbols (s : GoString) : Option (Nat × Nat) :=
  let start := (s.takeWhile (fun c => c != 35)).length
  if start = s.length then none
  else some (start, start + ((s.drop start).takeWhile (fun c => c == 35)).length)

/-- The outcome of `os.Stat`: the size of the file, an error for which
`os.IsNotExist` holds, or another error. -/
inductive StatResult where
  | info : Int → StatResult
  | notExist : GoString → StatResult
  | failed : GoString → StatResult

/-- What the operating system answers during one call of a writer method.
The helper `getDirFilePaths` and the variable `workingDir` are declared outside
the given sources and are taken as they are given here; `getDirFilePaths path`
stands for `getDirFilePaths(path, nil, true)`. `FileWrite` and `FileClose` are
the methods of the `*os.File` opened at a path, and `now` is `time.Now()` in
nanoseconds. -/
structure FileSystem where
  workingDir : GoString
  now : Int
  Stat : GoString → StatResult
  MkdirAll : GoString → Option GoString
  getDirFilePaths : GoString → List GoString × Option GoString
  OpenFile : GoString → Option GoString
  FileWrite : GoString → GoString → Int × Option GoString
  FileClose : GoString → Option GoString

/-- The error `os.ErrInvalid`, returned by the methods of a nil `*os.File`. -/
def ErrInvalid : GoString := lit "invalid argument"

/-! ## writers_filewriter.go -/

/-- The value that a 64-bit signed integer holds after an arithmetic operation
whose exact result is `x`: the arithmetic of Go on `int` and `int64` wraps
around. -/
def wrapInt64 (x : Int) : Int := (x + 2 ^ 63) % 2 ^ 64 - 2 ^ 63

def DefaultAutoIncrementNumDigit : Int := 3
def DefaultAllowedFileMaxSize : Int := 2 * 1024 * 1024

/-- The constant `DefaultOpenedFileMaxIdleTime`, five minutes in nanoseconds. -/
def DefaultOpenedFileMaxIdleTime : Int := 5 * 60 * 1000000000

/-- The field `innerWriter`, an `io.WriteCloser`: the nil interface, an open
`*os.File` (named by the path it was opened at), or the interface holding the
nil `*os.File` that a failed `os.OpenFile` returns. -/
inductive InnerWriter where
  | nil : InnerWriter
  | file : GoString → InnerWriter
  | nilFile : InnerWriter
deriving DecidableEq, Repr

/-- The struct `fileWriter`. Values of type `int` and `int64` are integers, kept
within 64 bits by `wrapInt64` where the code computes them; times are
nanoseconds, and a timer is the instant it was armed. -/
structure fileWriter where
  innerWriter : InnerWriter
  fileName : GoString
  filePrefixName : GoString
  fileSuffixName : GoString
  autoIncrementNumDigit : Int
  allowedMaxFileSize : Int
  currentAbsPath : GoString
  currentStorageFileName : GoString
  currentFileSize : Int
  currentCountNumber : Int
  lastWriteTime : Int
  isNeedAutoFreeOpenedFile : Bool
  lastAutoFreeOpenedFileTimer : Option Int
deriving DecidableEq, Repr

/-- The constructor `newFileWriter`. -/
def newFileWriter (fileName : GoString) (allowedMaxSize : Int) (isNeedAutoFreeOpenedFile : Bool) :
    Res fileWriter :=
  let writer : fileWriter :=
    { innerWriter := .nil, fileName := fileName, filePrefixName := [], fileSuffixName := [],
      autoIncrementNumDigit := 0,
      allowedMaxFileSize := if allowedMaxSize > 0 then allowedMaxSize else DefaultAllowedFileMaxSize,
      currentAbsPath := [], currentStorageFileName := [], currentFileSize := 0,
      currentCountNumber := 0, lastWriteTime := 0,
      isNeedAutoFreeOpenedFile := isNeedAutoFreeOpenedFile, lastAutoFreeOpenedFileTimer := none }
  let fileExtName := Ext writer.fileName
  let writer : fileWriter :=
    match findAutoIncrementSymbols writer.fileName with
    | none =>
      { writer with
        autoIncrementNumDigit := DefaultAutoIncrementNumDigit,
        filePrefixName := TrimSuffix writer.fileName fileExtName,
        fileSuffixName := fileExtName }
    | some (i0, i1) =>
      { writer with
        autoIncrementNumDigit := (i1 : Int) - (i0 : Int),
        filePrefixName := writer.fileName.take i0,
        fileSuffixName := writer.fileName.drop i1 }
  if PathSeparator ∈ writer.fileSuffixName then
    .error (lit "folder can not be auto increment")
  else .ok { writer with filePrefixName := Base writer.filePrefixName }

/-- The method `fileWriter.Close`: the writer afterwards and the returned error. -/
def fileWriter.Close (writer : fileWriter) (os : FileSystem) : fileWriter × Option GoString :=
  match writer.innerWriter with
  | .nil => (writer, none)
  | .file path => ({ writer with innerWriter := .nil }, os.FileClose path)
  | .nilFile => ({ writer with innerWriter := .nil }, some ErrInvalid)

/-- The method `getCountNumberSign`. -/
def getCountNumberSign (writer : fileWriter) : GoString :=
  List.replicate
      (writer.autoIncrementNumDigit - ((itoaInt writer.currentCountNumber).length : Int)).toNat 48 ++
    itoaInt writer.currentCountNumber

/-- The number that the loop of `getStorageFileName` reads from a listed name:
`none` when the name lacks the prefix or `strconv.Atoi` fails. -/
def candidateNumber (writer : fileWriter) (logFile : GoString) : Option Int :=
  if HasPrefix logFile writer.filePrefixName then
    Atoi (TrimSuffix (logFile.drop writer.filePrefixName.length) writer.fileSuffixName)
  else none

/-- The loop of `getStorageFileName` over the listed names, with the current
value of `currentCountNumber` and of `storageFileName`. -/
def scanLogFiles (writer : fileWriter) : List GoString → Int → GoString → Int × GoString
  | [], currentCountNumber, storageFileName => (currentCountNumber, storageFileName)
  | logFile :: rest, currentCountNumber, storageFileName =>
    match candidateNumber writer logFile with
    | none => scanLogFiles writer rest currentCountNumber storageFileName
    | some countNumber =>
      if countNumber ≥ currentCountNumber then scanLogFiles writer rest countNumber logFile
      else scanLogFiles writer rest currentCountNumber storageFileName

/-- The method `getStorageFileName`: the writer afterwards, the returned name
and the returned error. The error of `getDirFilePaths` is overwritten by the
final `return ..., nil`. -/
def getStorageFileName (writer : fileWriter) (os : FileSystem) :
    fileWriter × GoString × Option GoString :=
  let logFiles := (os.getDirFilePaths writer.currentAbsPath).1
  let scanned := scanLogFiles writer logFiles writer.currentCountNumber []
  let writer := { writer with currentCountNumber := scanned.1 }
  let storageFileName := scanned.2
  if storageFileName ≠ [] then
    match os.Stat (writer.currentAbsPath ++ storageFileName) with
    | .notExist err => (writer, [], some err)
    | .failed err => (writer, [], some err)
    | .info maxNumberFileSize =>
      if maxNumberFileSize < writer.allowedMaxFileSize then
        let writer := { writer with currentFileSize := maxNumberFileSize }
        (writer, writer.currentAbsPath ++ storageFileName, none)
      else
        let writer :=
          { writer with currentCountNumber := wrapInt64 (writer.currentCountNumber + 1) }
        (writer,
          writer.currentAbsPath ++
            (writer.filePrefixName ++ getCountNumberSign writer ++ writer.fileSuffixName),
          none)
  else
    (writer,
      writer.currentAbsPath ++
        (writer.filePrefixName ++ getCountNumberSign writer ++ writer.fileSuffixName),
      none)

/-- The method `loadOrCreateStorageFileAndInitSomeAttributes`. -/
def loadOrCreateStorageFileAndInitSomeAttributes (writer : fileWriter) (os : FileSystem) :
    fileWriter × Option GoString :=
  let folder := splitDir writer.fileName
  let folder := if folder.length = 0 ∨ IsAbs folder = false then os.workingDir ++ folder else folder
  let resolve (writer : fileWriter) : fileWriter × Option GoString :=
    let writer := { writer with currentAbsPath := folder }
    let r := getStorageFileName writer os
    ({ r.1 with currentStorageFileName := r.2.1 }, r.2.2)
  match os.Stat folder with
  | .info _ => resolve writer
  | .notExist _ =>
    match os.MkdirAll folder with
    | some err => (writer, some err)
    | none => resolve writer
  | .failed err => (writer, some err)

/-- The method `newInnerWriter`: the writer afterwards, the returned
`io.WriteCloser` and the returned error. -/
def newInnerWriter (writer : fileWriter) (os : FileSystem) :
    fileWriter × InnerWriter × Option GoString :=
  match os.OpenFile writer.currentStorageFileName with
  | none =>
    let writer := { writer with lastWriteTime := os.now }
    let writer :=
      if writer.isNeedAutoFreeOpenedFile then
        if writer.lastAutoFreeOpenedFileTimer ≠ none then
          { writer with lastAutoFreeOpenedFileTimer := some os.now }
        else writer
      else writer
    (writer, .file writer.currentStorageFileName, none)
  | some err => (writer, .nilFile, some err)

/-- The method `nextStorageFileName`. -/
def nextStorageFileName (writer : fileWriter) : fileWriter × GoString :=
  let writer := { writer with currentCountNumber := wrapInt64 (writer.currentCountNumber + 1) }
  let writer := { writer with currentFileSize := 0 }
  (writer,
    writer.currentAbsPath ++ writer.filePrefixName ++ getCountNumberSign writer ++
      writer.fileSuffixName)

/-- The call `writer.innerWriter.Write(bytes)` on a non-nil inner writer and the
accounting after it, the last statements of `fileWriter.Write`. -/
def writeToInnerWriter (writer : fileWriter) (os : FileSystem) (bytes : GoString) :
    fileWriter × Int × Option GoString :=
  let r : Int × Option GoString :=
    match writer.innerWriter with
    | .file path => os.FileWrite path bytes
    | _ => (0, some ErrInvalid)
  match r.2 with
  | none =>
    ({ writer with
        currentFileSize := wrapInt64 (writer.currentFileSize + r.1), lastWriteTime := os.now },
      r.1, none)
  | some err => (writer, r.1, some err)

/-- The rollover step of `fileWriter.Write`: when the size has reached the cap,
the handle is closed and the next file becomes the target. -/
def rollover (writer : fileWriter) (os : FileSystem) : fileWriter :=
  if writer.currentFileSize ≥ writer.allowedMaxFileSize then
    let closed := (writer.Close os).1
    let next := nextStorageFileName closed
    { next.1 with currentStorageFileName := next.2 }
  else writer

/-- The method `fileWriter.Write`: the writer afterwards and the returned
`(n, err)`. -/
def fileWriter.Write (writer : fileWriter) (os : FileSystem) (bytes : GoString) :
    fileWriter × Int × Option GoString :=
  let writer := { writer with lastWriteTime := os.now }
  let loaded : fileWriter × Option GoString :=
    if writer.currentStorageFileName = [] then
      loadOrCreateStorageFileAndInitSomeAttributes writer os
    else (writer, none)
  match loaded.2 with
  | some err => (loaded.1, 0, some err)
  | none =>
    let writer := rollover loaded.1 os
    match writer.innerWriter with
    | .nil =>
      let opened := newInnerWriter writer os
      let writer := { opened.1 with innerWriter := opened.2.1 }
      match opened.2.2 with
      | some _ => (writer, 0, none)
      | none => writeToInnerWriter writer os bytes
    | _ => writeToInnerWriter writer os bytes

/-! ## writers_rulefilewriter.go -/

/-- The struct `ruleFileWriter`. The map `fileWriters` is the list of its
entries, in the order a `range` visits them, and `none` is the nil map. -/
structure ruleFileWriter where
  fileNameFormatter : formatter
  fileName : GoString
  allowedMaxFileSize : Int
  fileWriters : Option (List (GoString × fileWriter))
  isNeedAutoFreeOpenedFileWriters : Bool
  lastAutoFreeOpenedFileWritersTimer : Option Int
deriving DecidableEq, Repr

/-- The map index expression `m[key]` with its `ok` flag. -/
def mapLookup (entries : List (GoString × fileWriter)) (key : GoString) : Option fileWriter :=
  (entries.find? (fun e => e.1 = key)).map Prod.snd

/-- The statement `delete(m, key)`. -/
def mapDelete (entries : List (GoString × fileWriter)) (key : GoString) :
    List (GoString × fileWriter) :=
  entries.filter (fun e => e.1 ≠ key)

/-- The entries after the file writer stored under `key` has been changed
through its pointer. -/
def mapUpdate (entries : List (GoString × fileWriter)) (key : GoString) (fWriter : fileWriter) :
    List (GoString × fileWriter) :=
  entries.map (fun e => if e.1 = key then (e.1, fWriter) else e)

/-- The constructor `newRuleFileWriter`. -/
def newRuleFileWriter (L : Nat → Bool) (fileNameOriginal : GoString) (maxSize : Int) :
    Res ruleFileWriter :=
  match newFormatter L fileNameOriginal [lit "date", lit "level", lit "LV", lit "lv"] with
  | .ok f =>
    .ok { fileNameFormatter := f, fileName := [], allowedMaxFileSize := maxSize,
          fileWriters := some [], isNeedAutoFreeOpenedFileWriters := true,
          lastAutoFreeOpenedFileWritersTimer := none }
  | .error e => .error e
  | .fault => .fault
  | .timeout => .timeout

/-- The method `formatFileName`; `none` only where `Format` leaves the modelled
fragment of `fmt.Sprintf`. -/
def ruleFileWriter.formatFileName (writer : ruleFileWriter) (now : GoTime) (level : LogLevel)
    (context : RuntimeContext) : Option ruleFileWriter :=
  (writer.fileNameFormatter.Format now [] level context).map
    (fun name => { writer with fileName := name })

/-- The method `ruleFileWriter.Write`: the writer afterwards and the returned
`(n, err)`; `fault` is the panic of an assignment to an entry of a nil map. -/
def ruleFileWriter.Write (writer : ruleFileWriter) (os : FileSystem) (bytes : GoString) :
    Res (ruleFileWriter × Int × Option GoString) :=
  let innerFileWriterCount := (writer.fileWriters.getD []).length
  match mapLookup (writer.fileWriters.getD []) writer.fileName with
  | some fWriter =>
    let r := fWriter.Write os bytes
    .ok ({ writer with
            fileWriters := some (mapUpdate (writer.fileWriters.getD []) writer.fileName r.1) },
      r.2.1, r.2.2)
  | none =>
    match newFileWriter writer.fileName writer.allowedMaxFileSize false with
    | .ok fWriter =>
      match writer.fileWriters with
      | none => .fault
      | some entries =>
        let timer :=
          if writer.isNeedAutoFreeOpenedFileWriters = true ∧ innerFileWriterCount = 0 then
            some os.now
          else writer.lastAutoFreeOpenedFileWritersTimer
        let r := fWriter.Write os bytes
        .ok ({ writer with
                fileWriters := some (entries ++ [(writer.fileName, r.1)]),
                lastAutoFreeOpenedFileWritersTimer := timer },
          r.2.1, r.2.2)
    | .error err => .ok (writer, 0, some err)
    | .fault => .fault
    | .timeout => .timeout

/-- The call `innerWriter.Close()` on a non-nil inner writer. -/
def closeInnerWriter (os : FileSystem) : InnerWriter → Option GoString
  | .file path => os.FileClose path
  | _ => some ErrInvalid

/-- The method `closeFileWriter`: the entries afterwards, the inner writers on
which `Close` was called, and the returned error. -/
def closeFileWriter (os : FileSystem) (entries : List (GoString × fileWriter))
    (fileName : GoString) (fWriter : fileWriter) :
    List (GoString × fileWriter) × List InnerWriter × Option GoString :=
  if fWriter.innerWriter ≠ .nil then
    (mapDelete entries fileName, [fWriter.innerWriter], closeInnerWriter os fWriter.innerWriter)
  else (mapDelete entries fileName, [], none)

/-- The loop of `autoFreeOpenedFileWriters` over the entries still to visit,
with the entries of the map and the inner writers closed so far. -/
def sweepLoop (os : FileSystem) :
    List (GoString × fileWriter) → List (GoString × fileWriter) → List InnerWriter →
    List (GoString × fileWriter) × List InnerWriter
  | [], entries, closed => (entries, closed)
  | (fileName, fWriter) :: rest, entries, closed =>
    if fWriter.innerWriter = .nil then sweepLoop os rest entries closed
    else if os.now > fWriter.lastWriteTime + DefaultOpenedFileMaxIdleTime then
      let r := closeFileWriter os entries fileName fWriter
      sweepLoop os rest r.1 (closed ++ r.2.1)
    else sweepLoop os rest entries closed

/-- The method `autoFreeOpenedFileWriters`, run at `os.now`: the writer
afterwards and the inner writers on which `Close` was called. -/
def autoFreeOpenedFileWriters (writer : ruleFileWriter) (os : FileSystem) :
    ruleFileWriter × List InnerWriter :=
  match writer.fileWriters with
  | none => (writer, [])
  | some entries =>
    let r := sweepLoop os entries entries []
    ({ writer with
        fileWriters := some r.1,
        lastAutoFreeOpenedFileWritersTimer :=
          if r.1.length ≠ 0 then some os.now else writer.lastAutoFreeOpenedFileWritersTimer },
      r.2)

/-- The loop of `ruleFileWriter.Close`: the text of `errMsg` and the inner
writers on which `Close` was called; `none` is the panic of a method call on a
nil inner writer. -/
def closeLoop (os : FileSystem) :
    List (GoString × fileWriter) → GoString → List InnerWriter →
    Option (GoString × List InnerWriter)
  | [], errMsg, closed => some (errMsg, closed)
  | (fileName, fWriter) :: rest, errMsg, closed =>
    match fWriter.innerWriter with
    | .nil => none
    | inner =>
      match closeInnerWriter os inner with
      | some err =>
        closeLoop os rest (errMsg ++ (fileName ++ lit " closed error: " ++ err ++ lit ","))
          (closed ++ [inner])
      | none => closeLoop os rest errMsg (closed ++ [inner])

/-- The method `ruleFileWriter.Close`: the writer afterwards, the returned error
and the inner writers on which `Close` was called. -/
def ruleFileWriter.Close (writer : ruleFileWriter) (os : FileSystem) :
    Res (ruleFileWriter × Option GoString × List InnerWriter) :=
  match closeLoop os (writer.fileWriters.getD []) [] [] with
  | none => .fault
  | some (errMsg, closed) =>
    .ok ({ writer with fileWriters := none },
      if errMsg ≠ [] then
        some (lit "some fileWriter closed error: [" ++ errMsg.take (errMsg.length - 1) ++ lit "]")
      else none,
      closed)

/-! ## dispatcher.go -/

/-- The struct `dispatcher`. -/
structure dispatcher where
  writers : List formattedWriter

/-- A call made by `Dispatch`: `Write` on the adapter at a position of the list,
or `errorFunc` on an error. -/
inductive DispatchCall where
  | write : Nat → DispatchCall
  | errorFunc : GoString → DispatchCall
deriving DecidableEq, Repr

/-- The loop of `Dispatch` from position `i` of the list: the calls it makes, in
order; `none` only where a `Write` leaves the modelled fragment of
`fmt.Sprintf`. -/
def dispatchLoop (now : GoTime) (message : GoString) (level : LogLevel)
    (context : RuntimeContext) : Nat → List formattedWriter → Option (List DispatchCall)
  | _, [] => some []
  | i, writer :: rest =>
    match writer.Write now message level context with
    | none => none
    | some out =>
      match dispatchLoop now message level context (i + 1) rest with
      | none => none
      | some calls =>
        match out.err with
        | some err => some (DispatchCall.write i :: DispatchCall.errorFunc err :: calls)
        | none => some (DispatchCall.write i :: calls)

/-- The method `dispatcher.Dispatch`. -/
def dispatcher.Dispatch (disp : dispatcher) (now : GoTime) (message : GoString)
    (level : LogLevel) (context : RuntimeContext) : Option (List DispatchCall) :=
  dispatchLoop now message level context 0 disp.writers

/-- The positions of the adapters on which `Write` was called, in call order. -/
def writePositions : List DispatchCall → List Nat
  | [] => []
  | .write i :: rest => i :: writePositions rest
  | .errorFunc _ :: rest => writePositions rest

/-- The errors passed to `errorFunc`, in call order. -/
def reportedErrors : List DispatchCall → List GoString
  | [] => []
  | .write _ :: rest => reportedErrors rest
  | .errorFunc err :: rest => err :: reportedErrors rest

/-! ## Sequences of calls and sample values for the file writers -/

/-- A file system for the examples: the working directory is `/w/`, every
directory exists and is empty, and every open, write and close succeeds, a write
taking all its bytes. -/
def sampleFileSystem : FileSystem :=
  { workingDir := lit "/w/", now := 1000, Stat := fun _ => .info 0, MkdirAll := fun _ => none,
    getDirFilePaths := fun _ => ([], none), OpenFile := fun _ => none,
    FileWrite := fun _ bytes => ((bytes.length : Int), none), FileClose := fun _ => none }

/-- The writer after a sequence of calls of `fileWriter.Write`, each with the
answers of the operating system during the call and the bytes written. -/
def fileWriter.writes (writer : fileWriter) : List (FileSystem × GoString) → fileWriter
  | [] => writer
  | (os, bytes) :: rest => fileWriter.writes (writer.Write os bytes).1 rest

/-- The number of calls in a sequence of calls of `fileWriter.Write` that are
entered with `currentFileSize >= allowedMaxFileSize`. -/
def capCrossings (writer : fileWriter) : List (FileSystem × GoString) → Nat
  | [] => 0
  | (os, bytes) :: rest =>
    (if writer.currentFileSize ≥ writer.allowedMaxFileSize then 1 else 0) +
      capCrossings (writer.Write os bytes).1 rest

/-- The writer after a sequence of calls of `ruleFileWriter.Write`; each call
comes with the file name that `formatFileName` has stored in `fileName` before
it, the answers of the operating system and the bytes written. -/
def ruleFileWriter.writeAll (writer : ruleFileWriter) :
    List (GoString × FileSystem × GoString) → Res ruleFileWriter
  | [] => .ok writer
  | (name, os, bytes) :: rest =>
    match ({ writer with fileName := name } : ruleFileWriter).Write os bytes with
    | .ok r => ruleFileWriter.writeAll r.1 rest
    | .error e => .error e
    | .fault => .fault
    | .timeout => .timeout

/-- The keys of a map. -/
def mapKeys (entries : List (GoString × fileWriter)) : List GoString := entries.map Prod.fst

/-- The calls that the claim on `Dispatch` expects for the outcomes of the
adapters from position `i` on: one `Write` per adapter, followed by `errorFunc`
when the outcome holds an error. -/
def expectedCalls : Nat → List WriteOutcome → List DispatchCall
  | _, [] => []
  | i, out :: rest =>
    match out.err with
    | some err => DispatchCall.write i :: DispatchCall.errorFunc err :: expectedCalls (i + 1) rest
    | none => DispatchCall.write i :: expectedCalls (i + 1) rest

/-- A resolved file writer for the examples: the name `app.log` in `/w/`, the
cap 100, the target `/w/app000.log` open and filled up to the cap. -/
def sampleFileWriter : fileWriter :=
  { innerWriter := .file (lit "/w/app000.log"), fileName := lit "app.log",
    filePrefixName := lit "app", fileSuffixName := lit ".log", autoIncrementNumDigit := 3,
    allowedMaxFileSize := 100, currentAbsPath := lit "/w/",
    currentStorageFileName := lit "/w/app000.log", currentFileSize := 100,
    currentCountNumber := 0, lastWriteTime := 0, isNeedAutoFreeOpenedFile := false,
    lastAutoFreeOpenedFileTimer := none }

/-- A file system for the examples in which the directory lists `app001.log`,
`app003.log`, `app002.log` and `notes.txt`, each file of 10 bytes. -/
def sampleDirectory : FileSystem :=
  { sampleFileSystem with
    getDirFilePaths := fun _ =>
      ([lit "app001.log", lit "app003.log", lit "app002.log", lit "notes.txt"], none),
    Stat := fun _ => .info 10 }

/-- A fresh file writer for the examples, as `newFileWriter` returns it for
`app.log` with the cap 100, after the directory `/w/` has been stored. -/
def freshFileWriter : fileWriter :=
  { innerWriter := .nil, fileName := lit "app.log",
    filePrefixName := lit "app", fileSuffixName := lit ".log", autoIncrementNumDigit := 3,
    allowedMaxFileSize := 100, currentAbsPath := lit "/w/",
    currentStorageFileName := [], currentFileSize := 0,
    currentCountNumber := 0, lastWriteTime := 0, isNeedAutoFreeOpenedFile := false,
    lastAutoFreeOpenedFileTimer := none }

/-- The invariant of the map `fileWriters` that the claim on
`ruleFileWriter.Write` states: no key occurs twice, and the file writer stored
under a key has that key as its `fileName`. -/
def ownsOnePerName (entries : List (GoString × fileWriter)) : Prop :=
  (mapKeys entries).Nodup ∧ ∀ e ∈ entries, e.2.fileName = e.1

/-- Whether the sweep at the instant `now` finds a file writer with an open
handle and idle: its inner writer is not nil and `now` is after `lastWriteTime`
plus `DefaultOpenedFileMaxIdleTime`. -/
def idleWithHandle (now : Int) (fWriter : fileWriter) : Bool :=
  decide (fWriter.innerWriter ≠ .nil) &&
    decide (now > fWriter.lastWriteTime + DefaultOpenedFileMaxIdleTime)

/-- The rule file writer that `newRuleFileWriter` returns for the template
`app.log` and the cap 100. -/
def sampleRuleFileWriter : ruleFileWriter :=
  { fileNameFormatter :=
      { fmtStringOriginal := lit "app.log", fmtString := lit "app.log",
        allowedTags := [lit "date", lit "level", lit "LV", lit "lv"], tagFuncs := [] },
    fileName := [], allowedMaxFileSize := 100, fileWriters := some [],
    isNeedAutoFreeOpenedFileWriters := true, lastAutoFreeOpenedFileWritersTimer := none }

/-- A file system for the examples in which the log directory does not exist
and cannot be created. -/
def noDirectory : FileSystem :=
  { sampleFileSystem with
    Stat := fun _ => .notExist (lit "no such file or directory"),
    MkdirAll := fun _ => some (lit "permission denied") }

/-- A rule file writer for the examples that owns two file writers with open
handles, `a.log` last written at 0 and `b.log` last written at 2000. -/
def sampleOwnedWriters : ruleFileWriter :=
  { sampleRuleFileWriter with
    fileWriters := some
      [(lit "a.log", { sampleFileWriter with fileName := lit "a.log" }),
       (lit "b.log", { sampleFileWriter with fileName := lit "b.log", lastWriteTime := 2000 })] }

/-- The text that `ruleFileWriter.Close` adds to `errMsg` for one entry. -/
def closeErrorText (os : FileSystem) (e : GoString × fileWriter) : GoString :=
  match closeInnerWriter os e.2.innerWriter with
  | some err => e.1 ++ lit " closed error: " ++ err ++ lit ","
  | none => []

/-- An adapter for the examples with the format `%msg` that allows every level
and whose sink reports `disk full`. -/
def failingAdapter : formattedWriter :=
  { writer := some { isRuleFileWriter := false,
                     Write := fun _ => SinkResult.returned 0 (some (lit "disk full")) },
    formatter := { fmtStringOriginal := lit "%msg", fmtString := lit "%v",
                   allowedTags := [], tagFuncs := [TagFunc.tagMsg] },
    allowedLevelList := fun _ => some true }

/-- An adapter for the examples with the format `%msg` that allows every level
and whose sink takes all bytes. -/
def workingAdapter : formattedWriter :=
  { writer := some { isRuleFileWriter := false,
                     Write := fun bytes => SinkResult.returned (bytes.length : Int) none },
    formatter := { fmtStringOriginal := lit "%msg", fmtString := lit "%v",
                   allowedTags := [], tagFuncs := [TagFunc.tagMsg] },
    allowedLevelList := fun _ => some true }

/-! ## Closing the adapters: writers_formattedwriter.go and dispatcher.go -/

/-- The method `formattedWriter.Close`: the adapter afterwards and the returned
error; `fault` is a panic of the sink's `Close`, which nothing recovers. -/
def formattedWriter.Close (fmtWriter : formattedWriter) :
    Res (formattedWriter × Option GoString) :=
  match fmtWriter.writer with
  | some sink =>
    match sink.Close with
    | .returned err => .ok ({ fmtWriter with writer := none }, err)
    | .panics => .fault
  | none => .ok (fmtWriter, none)

/-- The loop of `dispatcher.Close` from position `i` of the list, with the
current text of `errMsg` and the positions of the adapters on which `Close` has
been called: the adapters afterwards, the final `errMsg` and the positions. -/
def closeWriters : Nat → List formattedWriter → GoString → List Nat →
    Res (List formattedWriter × GoString × List Nat)
  | _, [], errMsg, called => .ok ([], errMsg, called)
  | i, fmtWriter :: rest, errMsg, called =>
    match fmtWriter.Close with
    | .ok (closedWriter, err) =>
      let errMsg :=
        match err with
        | some e => errMsg ++ e ++ lit ","
        | none => errMsg
      match closeWriters (i + 1) rest errMsg (called ++ [i]) with
      | .ok (ws, msg, positions) => .ok (closedWriter :: ws, msg, positions)
      | .error e => .error e
      | .fault => .fault
      | .timeout => .timeout
    | .error e => .error e
    | .fault => .fault
    | .timeout => .timeout

/-- The method `dispatcher.Close`: the dispatcher afterwards, the returned error
and the positions of the adapters on which `Close` was called, in call order. -/
def dispatcher.Close (disp : dispatcher) : Res (dispatcher × Option GoString × List Nat) :=
  match closeWriters 0 disp.writers [] [] with
  | .ok (ws, errMsg, positions) =>
    .ok ({ writers := ws },
      if errMsg ≠ [] then
        some (lit "some writer closed error: " ++ errMsg.take (errMsg.length - 1))
      else none,
      positions)
  | .error e => .error e
  | .fault => .fault
  | .timeout => .timeout

/-- An adapter for the examples whose sink fails to close with the given
message. -/
def closeFailingAdapter (message : GoString) : formattedWriter :=
  { writer := some { isRuleFileWriter := false,
                     Write := fun bytes => SinkResult.returned (bytes.length : Int) none,
                     Close := .returned (some message) },
    formatter := { fmtStringOriginal := lit "%msg", fmtString := lit "%v",
                   allowedTags := [], tagFuncs := [TagFunc.tagMsg] },
    allowedLevelList := fun _ => some true }

/-! # Theorems -/

/-! ## Compilation yields the items of the template -/

theorem buildLoop_items (L : Nat → Bool) (f : formatter) :
    ∀ (fuel i : Nat) (fs : GoString) (fns : List TagFunc) (r : GoString × List TagFunc),
      buildLoop L f fuel i fs fns = .ok r →
      ∃ items, templateItemsFrom L f fuel i = some items ∧
        r = (fs ++ fmtOf items, fns ++ funcsOf items) ∧
        (∀ b, Item.literal b ∈ items → b ≠ 37 ∧ b ∈ f.fmtStringOriginal) := by
  intro fuel
  induction fuel with
  | zero => intro i fs fns r h; simp [buildLoop] at h
  | succ fuel ih =>
    intro i fs fns r h
    unfold buildLoop at h
    unfold templateItemsFrom
    split at h
    · rename_i hlen
      simp only [hlen, if_true]
      refine ⟨[], rfl, ?_, by simp⟩
      simp only [Res.ok.injEq] at h
      simp [← h, fmtOf, funcsOf]
    · rename_i hlen
      simp only [hlen, if_false]
      split at h
      · simp at h
      · rename_i char hchar
        split at h
        · rename_i hne
          obtain ⟨items, hit, hr, hl⟩ := ih _ _ _ _ h
          refine ⟨Item.literal char :: items, ?_, ?_, ?_⟩
          · simp [hne, hit]
          · simp [hr, fmtOf, funcsOf]
          · intro b hb
            simp only [List.mem_cons, Item.literal.injEq] at hb
            rcases hb with hb | hb
            · subst hb; exact ⟨hne, List.getElem?_mem hchar⟩
            · exact hl b hb
        · rename_i hne
          simp only [hne, if_false]
          split at h
          · simp at h
          · split at h
            · simp at h
            · rename_i next hnext
              split at h
              · rename_i hn2
                obtain ⟨items, hit, hr, hl⟩ := ih _ _ _ _ h
                refine ⟨Item.escape :: items, ?_, ?_, ?_⟩
                · simp [hn2, hit]
                · simp [hr, fmtOf, funcsOf, tagSymbolString]
                · intro b hb
                  simp only [List.mem_cons] at hb
                  rcases hb with hb | hb
                  · cases hb
                  · exact hl b hb
              · rename_i hn2
                simp only [hn2, if_false]
                split at h
                · rename_i function nextI hex
                  obtain ⟨items, hit, hr, hl⟩ := ih _ _ _ _ h
                  refine ⟨Item.tag function :: items, ?_, ?_, ?_⟩
                  · simp [hex, hit]
                  · simp [hr, fmtOf, funcsOf]
                  · intro b hb
                    simp only [List.mem_cons] at hb
                    rcases hb with hb | hb
                    · cases hb
                    · exact hl b hb
                · simp at h
                · simp at h
                · simp at h

/-! ## fmt.Sprintf on the compiled format string -/

theorem lit_percent_v : lit "%v" = [37, 118] := rfl

theorem encodeRune_no_percent (b : Nat) (hb : b ≠ 37) : ∀ x ∈ encodeRune b, x ≠ 37 := by
  intro x hx
  unfold encodeRune at hx
  split at hx
  · simp at hx; omega
  · split at hx
    · simp at hx; omega
    · split at hx
      · simp at hx; omega
      · split at hx
        · simp at hx; omega
        · simp at hx; omega

theorem encodeRune_ascii (b : Nat) (hb : b < 128) : encodeRune b = [b] := by
  simp [encodeRune, hb]

theorem doPrintf_literal (bs : GoString) (hbs : ∀ x ∈ bs, x ≠ 37) (rest : GoString)
    (a : List Value) (fl : Bool) :
    doPrintf false fl (bs ++ rest) a = (doPrintf false false rest a).map (fun out => bs ++ out) := by
  induction bs generalizing fl with
  | nil =>
    cases fl
    · simp
    · cases rest <;> simp [doPrintf]
  | cons c bs ih =>
    have hc : c ≠ 37 := hbs c (by simp)
    have ih2 := ih (fun x hx => hbs x (by simp [hx])) false
    simp only [List.cons_append, doPrintf, hc, if_false]
    rw [show bs.append rest = bs ++ rest from rfl, ih2]
    simp [Option.map_map, Function.comp_def]

theorem doPrintf_items (now : GoTime) (message : GoString) (level : LogLevel)
    (context : RuntimeContext) :
    ∀ (items : List Item), Item.escape ∉ items → (∀ b, Item.literal b ∈ items → b ≠ 37) →
      ∀ (rest : GoString) (a : List Value),
        doPrintf false false (fmtOf items ++ rest)
            ((funcsOf items).map (fun fn => fn.call now message level context) ++ a) =
          (doPrintf false false rest a).map
            (fun out => renderConverted now message level context items ++ out) := by
  intro items
  induction items with
  | nil => intro _ _ rest a; simp [fmtOf, funcsOf, renderConverted]
  | cons it items ih =>
    intro hesc hlit rest a
    have hesc2 : Item.escape ∉ items := fun h => hesc (by simp [h])
    have hlit2 : ∀ b, Item.literal b ∈ items → b ≠ 37 := fun b h => hlit b (by simp [h])
    have ih2 := ih hesc2 hlit2 rest a
    cases it with
    | literal b =>
      have hb : b ≠ 37 := hlit b (by simp)
      simp only [fmtOf, funcsOf, renderConverted, List.append_assoc]
      rw [doPrintf_literal _ (encodeRune_no_percent b hb), ih2]
      simp [Option.map_map, Function.comp_def]
    | escape => exact absurd (by simp) hesc
    | tag fn =>
      simp only [fmtOf, funcsOf, renderConverted, lit_percent_v, List.map_cons, List.cons_append,
        List.nil_append, List.append_assoc]
      simp only [doPrintf]
      simp only [show ((37 : Nat) = 37) = True from by simp, if_true]
      simp only [doPrintf, isFlagChar]
      simp [ih2, Option.map_map, Function.comp_def]

theorem newFormatter_items (L : Nat → Bool) (t : GoString) (A : List GoString) (f : formatter)
    (h : newFormatter L t A = .ok f) :
    ∃ items, templateItems L t A = some items ∧
      f = { fmtStringOriginal := t, fmtString := fmtOf items, allowedTags := A,
            tagFuncs := funcsOf items } ∧
      (∀ b, Item.literal b ∈ items → b ≠ 37 ∧ b ∈ t) := by
  unfold newFormatter buildTagFuncs at h
  split at h
  · rename_i fs fns hb
    obtain ⟨items, hit, hr, hl⟩ := buildLoop_items L _ _ _ _ _ _ hb
    refine ⟨items, hit, ?_, hl⟩
    simp only [Res.ok.injEq] at h
    simp only [List.nil_append, Prod.mk.injEq] at hr
    rw [← h, hr.1, hr.2]
  · simp at h
  · simp at h
  · simp at h

theorem fmtOf_eq_renderConverted (now : GoTime) (message : GoString) (level : LogLevel)
    (context : RuntimeContext) :
    ∀ items : List Item, funcsOf items = [] →
      fmtOf items = renderConverted now message level context items := by
  intro items
  induction items with
  | nil => intro _; rfl
  | cons it items ih =>
    intro h
    cases it with
    | literal b => simp only [funcsOf] at h; simp [fmtOf, renderConverted, ih h]
    | escape => simp only [funcsOf] at h; simp [fmtOf, renderConverted, ih h]
    | tag fn => simp [funcsOf] at h

theorem renderConverted_ascii (now : GoTime) (message : GoString) (level : LogLevel)
    (context : RuntimeContext) :
    ∀ items : List Item, (∀ b, Item.literal b ∈ items → b < 128) →
      renderConverted now message level context items =
        renderItems now message level context items := by
  intro items
  induction items with
  | nil => intro _; rfl
  | cons it items ih =>
    intro h
    have ih2 := ih (fun b hb => h b (by simp [hb]))
    cases it with
    | literal b => simp [renderConverted, renderItems, ih2, encodeRune_ascii b (h b (by simp))]
    | escape => simp [renderConverted, renderItems, ih2]
    | tag fn => simp [renderConverted, renderItems, ih2]

/-- What `Format` returns for a compiled template without a taken escape, or
without any tag. -/
theorem format_items (L : Nat → Bool) (t : GoString) (A : List GoString) (f : formatter)
    (h : newFormatter L t A = .ok f) :
    ∃ items, templateItems L t A = some items ∧
      (∀ b, Item.literal b ∈ items → b ≠ 37 ∧ b ∈ t) ∧
      (Item.escape ∉ items ∨ funcsOf items = [] →
        ∀ now message level context,
          f.Format now message level context =
            some (renderConverted now message level context items)) := by
  obtain ⟨items, hit, hf, hl⟩ := newFormatter_items L t A f h
  refine ⟨items, hit, hl, ?_⟩
  intro hcase now message level context
  subst hf
  unfold formatter.Format
  by_cases hz : (funcsOf items).length = 0
  · simp only [hz, if_true]
    have hnil : funcsOf items = [] := List.length_eq_zero.mp hz
    rw [fmtOf_eq_renderConverted now message level context items hnil]
  · simp only [hz, if_false]
    rcases hcase with hesc | hnil
    · have := doPrintf_items now message level context items hesc (fun b hb => (hl b hb).1) [] []
      simp only [List.append_nil] at this
      unfold Sprintf
      rw [this]
      simp [doPrintf, extraReport]
    · exact absurd (by simp [hnil]) hz

/-! ## Templates without a tag marker -/

theorem buildLoop_plain (L : Nat → Bool) (f : formatter) :
    ∀ (fuel i : Nat) (fs : GoString) (fns : List TagFunc),
      (∀ b ∈ f.fmtStringOriginal.drop i, b ≠ 37) → f.fmtStringOriginal.length < fuel + i →
      i ≤ f.fmtStringOriginal.length →
      buildLoop L f fuel i fs fns = .ok (fs ++ convertBytes (f.fmtStringOriginal.drop i), fns) := by
  intro fuel
  induction fuel with
  | zero =>
    intro i fs fns _ hlen hle
    omega
  | succ fuel ih =>
    intro i fs fns hno hlen _
    unfold buildLoop
    by_cases hi : i < f.fmtStringOriginal.length
    · have hdrop : f.fmtStringOriginal.drop i =
          f.fmtStringOriginal[i] :: f.fmtStringOriginal.drop (i + 1) :=
        List.drop_eq_getElem_cons hi
      have hget : f.fmtStringOriginal[i]? = some f.fmtStringOriginal[i] :=
        List.getElem?_eq_getElem hi
      have hne : f.fmtStringOriginal[i] ≠ TagSymbol :=
        hno _ (by rw [hdrop]; exact List.mem_cons_self _ _)
      have hno2 : ∀ b ∈ f.fmtStringOriginal.drop (i + 1), b ≠ 37 :=
        fun b hb => hno b (by rw [hdrop]; exact List.mem_cons_of_mem _ hb)
      simp only [hi, not_true_eq_false, if_false, hget, hne, ne_eq, not_false_eq_true, if_true]
      rw [ih (i + 1) _ fns hno2 (by omega) (by omega), hdrop]
      simp [convertBytes]
    · have : f.fmtStringOriginal.drop i = [] := List.drop_eq_nil_of_le (by omega)
      simp [hi, this, convertBytes]

theorem convertBytes_ascii : ∀ t : GoString, (∀ b ∈ t, b < 128) → convertBytes t = t := by
  intro t
  induction t with
  | nil => intro _; rfl
  | cons b t ih =>
    intro h
    simp [convertBytes, encodeRune_ascii b (h b (by simp)), ih (fun x hx => h x (by simp [hx]))]

/-- A template without `%` compiles, and `Format` returns its bytes as converted
by `string(char)`: the template itself when it is ASCII. -/
theorem format_plain (L : Nat → Bool) (t : GoString) (A : List GoString) (hno : ∀ b ∈ t, b ≠ 37)
    (now : GoTime) (message : GoString) (level : LogLevel) (context : RuntimeContext) :
    render L t A now message level context = some (convertBytes t) ∧
      ((∀ b ∈ t, b < 128) → render L t A now message level context = some t) := by
  have h : render L t A now message level context = some (convertBytes t) := by
    unfold render newFormatter buildTagFuncs
    rw [buildLoop_plain L _ _ 0 [] [] (by simpa using hno) (by simp) (by simp)]
    simp [formatter.Format]
  exact ⟨h, fun ha => by rw [h, convertBytes_ascii t ha]⟩

/-! ## Tag lookup: longest prefix first -/

theorem tagFuncs_nil : tagFuncs [] = none := rfl

theorem tagWithParamFuncCreator_nil : tagWithParamFuncCreator [] = none := rfl

theorem tagFuncs_ne_nil {name : GoString} {fn : TagFunc} (h : tagFuncs name = some fn) :
    name ≠ [] := by
  intro hn; rw [hn, tagFuncs_nil] at h; cases h

theorem take_pred_take (cur : GoString) (j : Nat) (hj : j ≤ cur.length - 1) :
    (cur.take (cur.length - 1)).take j = cur.take j := by
  rw [List.take_take, Nat.min_eq_left hj]

/-- A hit of the `findTagFunc` loop is the longest prefix that is a key of
`tagFuncs`. -/
theorem findTagLoop_some :
    ∀ (n : Nat) (cur : GoString) (fn : TagFunc) (k : Nat),
      cur.length = n → findTagLoop n cur = some (fn, k) →
      1 ≤ k ∧ k ≤ cur.length ∧ tagFuncs (cur.take k) = some fn ∧
        ∀ j, k < j → j ≤ cur.length → tagFuncs (cur.take j) = none := by
  intro n
  induction n with
  | zero => intro cur fn k _ h; simp [findTagLoop] at h
  | succ n ih =>
    intro cur fn k hlen h
    unfold findTagLoop at h
    split at h
    · rename_i function hfound
      simp only [Option.some.injEq, Prod.mk.injEq] at h
      obtain ⟨h1, h2⟩ := h
      subst h1; subst h2
      refine ⟨by omega, le_refl _, by rw [List.take_length]; exact hfound, ?_⟩
      intro j hj1 hj2; omega
    · rename_i hnone
      have hl : (cur.take (cur.length - 1)).length = n := by
        rw [List.length_take]; omega
      obtain ⟨h1, h2, h3, h4⟩ := ih _ fn k hl h
      rw [hl] at h2
      refine ⟨h1, by omega, ?_, ?_⟩
      · rw [take_pred_take cur k (by omega)] at h3; exact h3
      · intro j hj1 hj2
        by_cases hj : j = cur.length
        · rw [hj, List.take_length]; exact hnone
        · have := h4 j hj1 (by omega)
          rw [take_pred_take cur j (by omega)] at this; exact this

/-- A miss of the `findTagFunc` loop: no non-empty prefix is a key. -/
theorem findTagLoop_none :
    ∀ (n : Nat) (cur : GoString),
      cur.length = n → findTagLoop n cur = none →
      ∀ j, 1 ≤ j → j ≤ cur.length → tagFuncs (cur.take j) = none := by
  intro n
  induction n with
  | zero => intro cur hlen _ j hj1 hj2; omega
  | succ n ih =>
    intro cur hlen h j hj1 hj2
    unfold findTagLoop at h
    split at h
    · simp at h
    · rename_i hnone
      have hl : (cur.take (cur.length - 1)).length = n := by
        rw [List.length_take]; omega
      by_cases hj : j = cur.length
      · rw [hj, List.take_length]; exact hnone
      · have := ih _ hl h j hj1 (by omega)
        rw [take_pred_take cur j (by omega)] at this; exact this

/-- The loop finds the longest key prefix whenever there is one. -/
theorem findTagLoop_longest :
    ∀ (n : Nat) (cur : GoString) (fn : TagFunc) (k : Nat),
      cur.length = n → 1 ≤ k → k ≤ cur.length → tagFuncs (cur.take k) = some fn →
      (∀ j, k < j → j ≤ cur.length → tagFuncs (cur.take j) = none) →
      findTagLoop n cur = some (fn, k) := by
  intro n
  induction n with
  | zero => intro cur fn k hlen h1 h2; omega
  | succ n ih =>
    intro cur fn k hlen h1 h2 h3 h4
    unfold findTagLoop
    by_cases hk : k = cur.length
    · rw [hk, List.take_length] at h3
      simp [h3, hk]
    · have hnone : tagFuncs cur = none := by
        have := h4 cur.length (by omega) (le_refl _)
        rwa [List.take_length] at this
      have hl : (cur.take (cur.length - 1)).length = n := by
        rw [List.length_take]; omega
      simp only [hnone]
      apply ih _ fn k hl h1 (by omega)
      · rw [take_pred_take cur k (by omega)]; exact h3
      · intro j hj1 hj2
        rw [take_pred_take cur j (by omega)]
        exact h4 j hj1 (by omega)


/-! ## UTF-8 decoding and the letter run -/

theorem isLetter_RuneError (L : Nat → Bool) : isLetter L RuneError = false := by
  simp [isLetter, RuneError]

theorem isLetter_percent (L : Nat → Bool) : isLetter L 37 = false := by
  simp [isLetter, isAsciiLetter]

theorem encodeRune_two (p0 b1 : Nat) (h0 : 194 ≤ p0) (h1 : p0 < 224) (h2 : 128 ≤ b1)
    (h3 : b1 ≤ 191) : encodeRune ((p0 % 32) * 64 + b1 % 64) = [p0, b1] := by
  have ha : ¬ (p0 % 32) * 64 + b1 % 64 < 0x80 := by omega
  have hb : (p0 % 32) * 64 + b1 % 64 < 0x800 := by omega
  have hc : 0xC0 + ((p0 % 32) * 64 + b1 % 64) / 64 = p0 := by omega
  have hd : 0x80 + ((p0 % 32) * 64 + b1 % 64) % 64 = b1 := by omega
  unfold encodeRune
  rw [if_neg ha, if_pos hb, hc, hd]

theorem encodeRune_three (p0 b1 b2 : Nat) (h0 : 224 ≤ p0) (h1 : p0 < 240)
    (hlo : (if p0 = 224 then 160 else 128) ≤ b1) (hhi : b1 ≤ (if p0 = 237 then 159 else 191))
    (h2 : 128 ≤ b2) (h3 : b2 ≤ 191) :
    encodeRune ((p0 % 16) * 4096 + (b1 % 64) * 64 + b2 % 64) = [p0, b1, b2] := by
  have hb1 : 128 ≤ b1 ∧ b1 ≤ 191 := by split_ifs at hlo hhi <;> omega
  have ha : ¬ (p0 % 16) * 4096 + (b1 % 64) * 64 + b2 % 64 < 0x80 := by
    split_ifs at hlo hhi <;> omega
  have hb : ¬ (p0 % 16) * 4096 + (b1 % 64) * 64 + b2 % 64 < 0x800 := by
    split_ifs at hlo hhi <;> omega
  have hc : ¬ (((0xD800 ≤ (p0 % 16) * 4096 + (b1 % 64) * 64 + b2 % 64 &&
      (p0 % 16) * 4096 + (b1 % 64) * 64 + b2 % 64 ≤ 0xDFFF) ||
      0x10FFFF < (p0 % 16) * 4096 + (b1 % 64) * 64 + b2 % 64) = true) := by
    simp only [Bool.or_eq_true, Bool.and_eq_true, decide_eq_true_eq]
    split_ifs at hlo hhi <;> omega
  have hd : (p0 % 16) * 4096 + (b1 % 64) * 64 + b2 % 64 < 0x10000 := by omega
  have he : 0xE0 + ((p0 % 16) * 4096 + (b1 % 64) * 64 + b2 % 64) / 4096 = p0 := by omega
  have hf : 0x80 + (((p0 % 16) * 4096 + (b1 % 64) * 64 + b2 % 64) / 64) % 64 = b1 := by omega
  have hg : 0x80 + ((p0 % 16) * 4096 + (b1 % 64) * 64 + b2 % 64) % 64 = b2 := by omega
  unfold encodeRune
  rw [if_neg ha, if_neg hb, if_neg hc, if_pos hd, he, hf, hg]

theorem encodeRune_four (p0 b1 b2 b3 : Nat) (h0 : 240 ≤ p0) (h1 : p0 < 245)
    (hlo : (if p0 = 240 then 144 else 128) ≤ b1) (hhi : b1 ≤ (if p0 = 244 then 143 else 191))
    (h2 : 128 ≤ b2) (h3 : b2 ≤ 191) (h4 : 128 ≤ b3) (h5 : b3 ≤ 191) :
    encodeRune ((p0 % 8) * 262144 + (b1 % 64) * 4096 + (b2 % 64) * 64 + b3 % 64) =
      [p0, b1, b2, b3] := by
  have hb1 : 128 ≤ b1 ∧ b1 ≤ 191 := by split_ifs at hlo hhi <;> omega
  have ha : ¬ (p0 % 8) * 262144 + (b1 % 64) * 4096 + (b2 % 64) * 64 + b3 % 64 < 0x80 := by
    split_ifs at hlo hhi <;> omega
  have hb : ¬ (p0 % 8) * 262144 + (b1 % 64) * 4096 + (b2 % 64) * 64 + b3 % 64 < 0x800 := by
    split_ifs at hlo hhi <;> omega
  have hc : ¬ (((0xD800 ≤ (p0 % 8) * 262144 + (b1 % 64) * 4096 + (b2 % 64) * 64 + b3 % 64 &&
      (p0 % 8) * 262144 + (b1 % 64) * 4096 + (b2 % 64) * 64 + b3 % 64 ≤ 0xDFFF) ||
      0x10FFFF < (p0 % 8) * 262144 + (b1 % 64) * 4096 + (b2 % 64) * 64 + b3 % 64) = true) := by
    simp only [Bool.or_eq_true, Bool.and_eq_true, decide_eq_true_eq]
    split_ifs at hlo hhi <;> omega
  have hd : ¬ (p0 % 8) * 262144 + (b1 % 64) * 4096 + (b2 % 64) * 64 + b3 % 64 < 0x10000 := by
    split_ifs at hlo hhi <;> omega
  have he : 0xF0 + ((p0 % 8) * 262144 + (b1 % 64) * 4096 + (b2 % 64) * 64 + b3 % 64) / 262144
      = p0 := by omega
  have hf : 0x80 + (((p0 % 8) * 262144 + (b1 % 64) * 4096 + (b2 % 64) * 64 + b3 % 64) / 4096) % 64
      = b1 := by omega
  have hg : 0x80 + (((p0 % 8) * 262144 + (b1 % 64) * 4096 + (b2 % 64) * 64 + b3 % 64) / 64) % 64
      = b2 := by omega
  have hh : 0x80 + ((p0 % 8) * 262144 + (b1 % 64) * 4096 + (b2 % 64) * 64 + b3 % 64) % 64
      = b3 := by omega
  unfold encodeRune
  rw [if_neg ha, if_neg hb, if_neg hc, if_neg hd, he, hf, hg, hh]


theorem decodeTwo_letter (L : Nat → Bool) (p0 : Nat) (rest : GoString) (h0 : 194 ≤ p0)
    (h1 : p0 < 224) (h : isLetter L (decodeTwo p0 rest).1 = true) :
    encodeRune (decodeTwo p0 rest).1 = (p0 :: rest).take (decodeTwo p0 rest).2 ∧
      1 ≤ (decodeTwo p0 rest).2 ∧ (decodeTwo p0 rest).2 ≤ (p0 :: rest).length := by
  have hE := isLetter_RuneError L
  match rest with
  | [] => simp [decodeTwo, hE] at h
  | b1 :: rest =>
    unfold decodeTwo at h ⊢
    by_cases hb : 0x80 ≤ b1 ∧ b1 ≤ 0xBF
    · simp only [hb, and_self, if_true]
      refine ⟨?_, by omega, by simp⟩
      rw [encodeRune_two p0 b1 h0 h1 hb.1 hb.2]
      rfl
    · simp only [hb, if_false] at h
      rw [hE] at h; cases h

theorem decodeThree_letter (L : Nat → Bool) (p0 : Nat) (rest : GoString) (h0 : 224 ≤ p0)
    (h1 : p0 < 240) (h : isLetter L (decodeThree p0 rest).1 = true) :
    encodeRune (decodeThree p0 rest).1 = (p0 :: rest).take (decodeThree p0 rest).2 ∧
      1 ≤ (decodeThree p0 rest).2 ∧ (decodeThree p0 rest).2 ≤ (p0 :: rest).length := by
  have hE := isLetter_RuneError L
  match rest with
  | [] => simp [decodeThree, hE] at h
  | [_] => simp [decodeThree, hE] at h
  | b1 :: b2 :: rest =>
    unfold decodeThree at h ⊢
    by_cases hb : b1 < (if p0 = 0xE0 then 0xA0 else 0x80) ∨ (if p0 = 0xED then 0x9F else 0xBF) < b1
    · simp only [hb, if_true] at h
      rw [hE] at h; cases h
    · by_cases hc : 0x80 ≤ b2 ∧ b2 ≤ 0xBF
      · simp only [hb, hc, and_self, not_true_eq_false, if_false]
        refine ⟨?_, by omega, by simp⟩
        rw [encodeRune_three p0 b1 b2 h0 h1 (by omega) (by omega) hc.1 hc.2]
        rfl
      · simp only [hb, hc, not_false_eq_true, if_true, if_false] at h
        rw [hE] at h; cases h

theorem decodeFour_letter (L : Nat → Bool) (p0 : Nat) (rest : GoString) (h0 : 240 ≤ p0)
    (h1 : p0 < 245) (h : isLetter L (decodeFour p0 rest).1 = true) :
    encodeRune (decodeFour p0 rest).1 = (p0 :: rest).take (decodeFour p0 rest).2 ∧
      1 ≤ (decodeFour p0 rest).2 ∧ (decodeFour p0 rest).2 ≤ (p0 :: rest).length := by
  have hE := isLetter_RuneError L
  match rest with
  | [] => simp [decodeFour, hE] at h
  | [_] => simp [decodeFour, hE] at h
  | [_, _] => simp [decodeFour, hE] at h
  | b1 :: b2 :: b3 :: rest =>
    unfold decodeFour at h ⊢
    by_cases hb : b1 < (if p0 = 0xF0 then 0x90 else 0x80) ∨ (if p0 = 0xF4 then 0x8F else 0xBF) < b1
    · simp only [hb, if_true] at h
      rw [hE] at h; cases h
    · by_cases hc : 0x80 ≤ b2 ∧ b2 ≤ 0xBF
      · by_cases hd : 0x80 ≤ b3 ∧ b3 ≤ 0xBF
        · simp only [hb, hc, hd, and_self, not_true_eq_false, if_false]
          refine ⟨?_, by omega, by simp⟩
          rw [encodeRune_four p0 b1 b2 b3 h0 h1 (by omega) (by omega) hc.1 hc.2 hd.1 hd.2]
          rfl
        · simp only [hb, hc, hd, and_self, not_true_eq_false, not_false_eq_true, if_true,
            if_false] at h
          rw [hE] at h; cases h
      · simp only [hb, hc, not_false_eq_true, if_true, if_false] at h
        rw [hE] at h; cases h

/-- Decoding a letter and encoding it again gives back the bytes read. -/
theorem encode_decode_letter (L : Nat → Bool) (p : GoString)
    (h : isLetter L (decodeRune p).1 = true) :
    encodeRune (decodeRune p).1 = p.take (decodeRune p).2 ∧ 1 ≤ (decodeRune p).2 ∧
      (decodeRune p).2 ≤ p.length := by
  have hE := isLetter_RuneError L
  match p with
  | [] => simp [decodeRune, hE] at h
  | p0 :: rest =>
    unfold decodeRune at h ⊢
    by_cases c1 : p0 < 0x80
    · simp only [c1, if_true]
      exact ⟨by simp [encodeRune, c1], by omega, by simp⟩
    · by_cases c2 : p0 < 0xC2
      · simp only [c1, c2, if_true, if_false] at h
        rw [hE] at h; cases h
      · by_cases c3 : p0 < 0xE0
        · simp only [c1, c2, c3, if_true, if_false] at h ⊢
          exact decodeTwo_letter L p0 rest (by omega) c3 h
        · by_cases c4 : p0 < 0xF0
          · simp only [c1, c2, c3, c4, if_true, if_false] at h ⊢
            exact decodeThree_letter L p0 rest (by omega) c4 h
          · by_cases c5 : p0 < 0xF5
            · simp only [c1, c2, c3, c4, c5, if_true, if_false] at h ⊢
              exact decodeFour_letter L p0 rest (by omega) c5 h
            · simp only [c1, c2, c3, c4, c5, if_false] at h
              rw [hE] at h; cases h

/-- Appending an ASCII byte (and anything after it) to a non-empty input does
not change what `DecodeRune` reads. -/
theorem decodeTwo_append (p0 c : Nat) (hc : c < 128) (rest q : GoString) :
    decodeTwo p0 (rest ++ c :: q) = decodeTwo p0 rest := by
  match rest with
  | [] =>
    have : ¬ (0x80 ≤ c ∧ c ≤ 0xBF) := by omega
    simp [decodeTwo, this]
  | b1 :: rest => simp [decodeTwo]

theorem decodeThree_append (p0 c : Nat) (hc : c < 128) (rest q : GoString) :
    decodeThree p0 (rest ++ c :: q) = decodeThree p0 rest := by
  match rest with
  | [] =>
    cases q with
    | nil => simp [decodeThree]
    | cons b2 q =>
      have : c < (if p0 = 0xE0 then 0xA0 else 0x80) := by split_ifs <;> omega
      simp [decodeThree, this]
  | [b1] =>
    have : ¬ (0x80 ≤ c ∧ c ≤ 0xBF) := by omega
    simp only [List.cons_append, List.nil_append, decodeThree, this, not_false_eq_true, if_true]
    split_ifs <;> rfl
  | b1 :: b2 :: rest => simp [decodeThree]

theorem decodeFour_append (p0 c : Nat) (hc : c < 128) (rest q : GoString) :
    decodeFour p0 (rest ++ c :: q) = decodeFour p0 rest := by
  match rest with
  | [] =>
    match q with
    | [] => simp [decodeFour]
    | [_] => simp [decodeFour]
    | b2 :: b3 :: q =>
      have : c < (if p0 = 0xF0 then 0x90 else 0x80) := by split_ifs <;> omega
      simp [decodeFour, this]
  | [b1] =>
    have : ¬ (0x80 ≤ c ∧ c ≤ 0xBF) := by omega
    cases q with
    | nil => simp [decodeFour]
    | cons b3 q =>
      simp only [List.cons_append, List.nil_append, decodeFour, this, not_false_eq_true, if_true]
      split_ifs <;> rfl
  | [b1, b2] =>
    have : ¬ (0x80 ≤ c ∧ c ≤ 0xBF) := by omega
    simp only [List.cons_append, List.nil_append, decodeFour, this, not_false_eq_true, if_true]
    split_ifs <;> rfl
  | b1 :: b2 :: b3 :: rest => simp [decodeFour]

theorem decodeRune_append (p q : GoString) (c : Nat) (hc : c < 128) (hp : p ≠ []) :
    decodeRune (p ++ c :: q) = decodeRune p := by
  match p, hp with
  | p0 :: rest, _ =>
    simp only [List.cons_append, decodeRune, decodeTwo_append p0 c hc, decodeThree_append p0 c hc,
      decodeFour_append p0 c hc]

theorem decodeTwo_size_pos (p0 : Nat) (rest : GoString) : 1 ≤ (decodeTwo p0 rest).2 := by
  unfold decodeTwo; split
  · split_ifs <;> simp
  · simp

theorem decodeThree_size_pos (p0 : Nat) (rest : GoString) : 1 ≤ (decodeThree p0 rest).2 := by
  unfold decodeThree; split
  · split_ifs <;> simp
  · simp

theorem decodeFour_size_pos (p0 : Nat) (rest : GoString) : 1 ≤ (decodeFour p0 rest).2 := by
  unfold decodeFour; split
  · split_ifs <;> simp
  · simp

theorem decodeRune_size_pos (p : GoString) (hp : p ≠ []) : 1 ≤ (decodeRune p).2 := by
  match p, hp with
  | p0 :: rest, _ =>
    simp only [decodeRune]
    split_ifs
    · simp
    · simp
    · exact decodeTwo_size_pos p0 rest
    · exact decodeThree_size_pos p0 rest
    · exact decodeFour_size_pos p0 rest
    · simp

theorem runeCountAux_succ : ∀ (fuel : Nat) (p : GoString), p.length ≤ fuel →
    runeCountAux (fuel + 1) p = runeCountAux fuel p := by
  intro fuel
  induction fuel with
  | zero =>
    intro p hp
    have : p = [] := List.length_eq_zero.mp (by omega)
    subst this; rfl
  | succ fuel ih =>
    intro p hp
    match p with
    | [] => rfl
    | p0 :: rest =>
      have hs := decodeRune_size_pos (p0 :: rest) (by simp)
      simp only [runeCountAux]
      rw [ih _ (by rw [List.length_drop]; simp only [List.length_cons] at hp ⊢; omega)]

theorem runeCountAux_fuel (p : GoString) : ∀ d : Nat,
    runeCountAux (p.length + d) p = runeCountAux p.length p := by
  intro d
  induction d with
  | zero => rfl
  | succ d ih => rw [← Nat.add_assoc, runeCountAux_succ _ _ (by omega), ih]

theorem runeCount_cons (p : GoString) (hp : p ≠ []) :
    runeCount p = 1 + runeCount (p.drop (decodeRune p).2) := by
  have hs := decodeRune_size_pos p hp
  match p, hp with
  | p0 :: rest, _ =>
    unfold runeCount
    simp only [List.length_cons, runeCountAux]
    have hl : ((p0 :: rest).drop (decodeRune (p0 :: rest)).2).length ≤ rest.length := by
      rw [List.length_drop]; simp only [List.length_cons]; omega
    obtain ⟨d, hd⟩ := Nat.exists_eq_add_of_le hl
    rw [hd, runeCountAux_fuel]

theorem runeCount_nil : runeCount [] = 0 := rfl

/-- The letters collected by the loop are the bytes read: the result extends
the accumulator by a prefix of the input. -/
theorem extractLetterLoop_prefix (L : Nat → Bool) :
    ∀ (n : Nat) (p acc : GoString),
      ∃ k, k ≤ p.length ∧ extractLetterLoop L n p acc = acc ++ p.take k := by
  intro n
  induction n with
  | zero => intro p acc; exact ⟨0, by omega, by simp [extractLetterLoop]⟩
  | succ n ih =>
    intro p acc
    unfold extractLetterLoop
    by_cases hl : isLetter L (decodeRune p).1 = true
    · obtain ⟨henc, h1, h2⟩ := encode_decode_letter L p hl
      obtain ⟨k, hk, heq⟩ := ih (p.drop (decodeRune p).2) (acc ++ encodeRune (decodeRune p).1)
      refine ⟨(decodeRune p).2 + k, ?_, ?_⟩
      · rw [List.length_drop] at hk; omega
      · rw [henc] at heq
        simp only [hl, if_true, henc, heq, List.append_assoc]
        rw [List.take_add]
    · exact ⟨0, by omega, by simp [hl]⟩

theorem extractLetterSequence_prefix (L : Nat → Bool) (f : formatter) (index : Nat) :
    ∃ rest, f.fmtStringOriginal.drop index = extractLetterSequence L f index ++ rest := by
  obtain ⟨k, _, heq⟩ := extractLetterLoop_prefix L (runeCount (f.fmtStringOriginal.drop index))
    (f.fmtStringOriginal.drop index) []
  refine ⟨(f.fmtStringOriginal.drop index).drop k, ?_⟩
  unfold extractLetterSequence
  rw [heq, List.nil_append, List.take_append_drop]

theorem extractLetterSequence_length (L : Nat → Bool) (f : formatter) (index : Nat)
    (hi : index ≤ f.fmtStringOriginal.length) :
    index + (extractLetterSequence L f index).length ≤ f.fmtStringOriginal.length := by
  obtain ⟨rest, h⟩ := extractLetterSequence_prefix L f index
  have := congrArg List.length h
  rw [List.length_drop, List.length_append] at this
  omega

/-! ## The parameter of a parametrized tag -/

theorem indexByte_ge (sep : Nat) : ∀ l : GoString, -1 ≤ indexByte sep l := by
  intro l
  induction l with
  | nil => simp [indexByte]
  | cons b l ih =>
    unfold indexByte
    split_ifs
    · omega
    · split
      · omega
      · rename_i k hk
        have : (0 : Int) ≤ Int.ofNat (k + 1) := Int.ofNat_nonneg _
        omega

theorem indexByte_found (sep : Nat) : ∀ (p post : GoString), sep ∉ p →
    indexByte sep (p ++ sep :: post) = (p.length : Int) := by
  intro p
  induction p with
  | nil => intro post _; simp [indexByte]
  | cons b p ih =>
    intro post hno
    have hb : b ≠ sep := fun h => hno (by simp [h])
    have hp : sep ∉ p := fun h => hno (by simp [h])
    simp only [List.cons_append, indexByte, hb, if_false]
    rw [show p.append (sep :: post) = p ++ sep :: post from rfl, ih post hp]
    simp only [List.length_cons]
    rfl

theorem indexByte_absent (sep : Nat) : ∀ l : GoString, sep ∉ l → indexByte sep l = -1 := by
  intro l
  induction l with
  | nil => intro _; rfl
  | cons b l ih =>
    intro hno
    have hb : b ≠ sep := fun h => hno (by simp [h])
    have hl : sep ∉ l := fun h => hno (by simp [h])
    simp only [indexByte, hb, if_false, ih hl]
    rfl

/-- A byte occurs in a list or it does not: the list splits at its first
occurrence. -/
theorem split_first (sep : Nat) : ∀ l : GoString, sep ∈ l →
    ∃ p post, l = p ++ sep :: post ∧ sep ∉ p := by
  intro l
  induction l with
  | nil => intro h; simp at h
  | cons b l ih =>
    intro h
    by_cases hb : b = sep
    · exact ⟨[], l, by simp [hb], by simp⟩
    · have hl : sep ∈ l := by
        simp only [List.mem_cons] at h
        rcases h with h | h
        · exact absurd h.symm hb
        · exact h
      obtain ⟨p, post, hl2, hp⟩ := ih hl
      refine ⟨b :: p, post, by simp [hl2], ?_⟩
      simp only [List.mem_cons, not_or]
      exact ⟨fun h => hb h.symm, hp⟩

theorem slice_drop_take (s : GoString) (a n : Nat) (h : a + n ≤ s.length) :
    slice s (a : Int) ((a + n : Nat) : Int) = some ((s.drop a).take n) := by
  unfold slice
  have h1 : (0 : Int) ≤ (a : Int) ∧ (a : Int) ≤ ((a + n : Nat) : Int) ∧
      ((a + n : Nat) : Int) ≤ (s.length : Int) := by omega
  rw [if_pos h1]
  have e1 : (a : Int).toNat = a := by omega
  have e2 : ((a + n : Nat) : Int).toNat - a = n := by omega
  rw [e1, e2]

/-- With `(`, a parameter free of `)`, and `)` at `startIndex`, `findparameter`
returns the parameter and the length of the parenthesised text. -/
theorem findparameter_found (f : formatter) (startIndex : Nat) (p post : GoString)
    (hdrop : f.fmtStringOriginal.drop startIndex = 40 :: (p ++ 41 :: post)) (hp : 41 ∉ p) :
    findparameter f startIndex = .ok (p, p.length + 2, true) := by
  have hlen := congrArg List.length hdrop
  simp only [List.length_drop, List.length_cons, List.length_append] at hlen
  have hlt : startIndex < f.fmtStringOriginal.length := by omega
  have hget : f.fmtStringOriginal[startIndex]? = some 40 := by
    have := List.drop_eq_getElem_cons hlt
    rw [hdrop] at this
    rw [List.getElem?_eq_getElem hlt]
    injection this with h1 _
    rw [h1]
  have hidx : indexByte tagParamEnd (f.fmtStringOriginal.drop startIndex) = ((p.length + 1 : Nat) : Int) := by
    rw [hdrop]
    have := indexByte_found 41 (40 :: p) post (by simp [hp])
    simpa [tagParamEnd] using this
  have hdrop1 : f.fmtStringOriginal.drop (startIndex + 1) = p ++ 41 :: post := by
    have := congrArg (List.drop 1) hdrop
    simpa [List.drop_drop, Nat.add_comm] using this
  unfold findparameter
  rw [if_neg (by omega), hget]
  simp only [tagParamStart, ne_eq, not_true_eq_false, if_false, hidx]
  rw [if_neg (by omega)]
  have hs := slice_drop_take f.fmtStringOriginal (startIndex + 1) p.length (by omega)
  have e1 : ((startIndex : Int) + 1) = ((startIndex + 1 : Nat) : Int) := by omega
  have e2 : (((p.length + 1 : Nat) : Int) + (startIndex : Int)) =
      ((startIndex + 1 + p.length : Nat) : Int) := by omega
  rw [e1, e2, hs, hdrop1]
  simp only [List.take_left']
  have e3 : (((startIndex + 1 + p.length : Nat) : Int) - (startIndex : Int) + 1).toNat = p.length + 2 := by
    omega
  rw [e3]

/-- Without `(` at `startIndex`, `findparameter` reports no parameter. -/
theorem findparameter_absent (f : formatter) (startIndex : Nat)
    (hle : startIndex ≤ f.fmtStringOriginal.length)
    (hno : f.fmtStringOriginal[startIndex]? ≠ some 40) :
    findparameter f startIndex = .ok ([], 0, false) := by
  unfold findparameter
  by_cases he : f.fmtStringOriginal.length = startIndex
  · rw [if_pos he]
  · rw [if_neg he]
    have hlt : startIndex < f.fmtStringOriginal.length := by omega
    rw [List.getElem?_eq_getElem hlt] at hno ⊢
    have hc : f.fmtStringOriginal[startIndex] ≠ tagParamStart := by
      intro h; apply hno; rw [h]; rfl
    simp only [hc, ne_eq, not_false_eq_true, if_true]

/-- With `(` at `startIndex` and no `)` after it, `findparameter` panics. -/
theorem findparameter_unclosed (f : formatter) (startIndex : Nat) (hpos : 1 ≤ startIndex)
    (hget : f.fmtStringOriginal[startIndex]? = some 40)
    (hno : 41 ∉ f.fmtStringOriginal.drop startIndex) :
    findparameter f startIndex = .fault := by
  have hlt : startIndex < f.fmtStringOriginal.length := by
    by_contra h
    rw [List.getElem?_eq_none (by omega)] at hget
    cases hget
  unfold findparameter
  rw [if_neg (by omega), hget]
  simp only [tagParamStart, ne_eq, not_true_eq_false, if_false, tagParamEnd,
    indexByte_absent 41 _ hno]
  rw [if_neg (by omega)]
  unfold slice
  rw [if_neg (by omega)]

/-- What a normal return of `findparameter` means. -/
theorem findparameter_ok_inv (f : formatter) (startIndex : Nat) (hpos : 1 ≤ startIndex)
    (p : GoString) (plen : Nat) (ok : Bool)
    (h : findparameter f startIndex = .ok (p, plen, ok)) :
    startIndex ≤ f.fmtStringOriginal.length ∧
      ((ok = false ∧ p = [] ∧ plen = 0 ∧ f.fmtStringOriginal[startIndex]? ≠ some 40) ∨
       (ok = true ∧ plen = p.length + 2 ∧
          ∃ post, f.fmtStringOriginal.drop startIndex = 40 :: (p ++ 41 :: post) ∧ 41 ∉ p)) := by
  have hle : startIndex ≤ f.fmtStringOriginal.length := by
    by_contra hgt
    unfold findparameter at h
    rw [if_neg (by omega), List.getElem?_eq_none (by omega)] at h
    cases h
  refine ⟨hle, ?_⟩
  by_cases hc : f.fmtStringOriginal[startIndex]? = some 40
  · have hlt : startIndex < f.fmtStringOriginal.length := by
      by_contra hge
      rw [List.getElem?_eq_none (by omega)] at hc
      cases hc
    by_cases hmem : 41 ∈ f.fmtStringOriginal.drop startIndex
    · obtain ⟨p1, post, hsplit, hp1⟩ := split_first 41 _ hmem
      have hhead := List.drop_eq_getElem_cons hlt
      rw [List.getElem?_eq_getElem hlt] at hc
      injection hc with hc
      rw [hc] at hhead
      match p1, hsplit, hp1 with
      | [], hsplit, _ =>
        rw [hhead] at hsplit
        simp at hsplit
      | b :: p2, hsplit, hp1 =>
        rw [hhead] at hsplit
        simp only [List.cons_append, List.cons.injEq] at hsplit
        have hp2 : 41 ∉ p2 := fun hx => hp1 (by simp [hx])
        have hfound := findparameter_found f startIndex p2 post
          (by rw [hhead, hsplit.2]) hp2
        rw [hfound] at h
        simp only [Res.ok.injEq, Prod.mk.injEq] at h
        obtain ⟨h1, h2, h3⟩ := h
        right
        refine ⟨h3.symm, ?_, post, ?_, ?_⟩
        · rw [← h1, ← h2]
        · rw [← h1, hhead, hsplit.2]
        · rw [← h1]; exact hp2
    · rw [findparameter_unclosed f startIndex hpos hc hmem] at h
      cases h
  · rw [findparameter_absent f startIndex hle hc] at h
    simp only [Res.ok.injEq, Prod.mk.injEq] at h
    obtain ⟨h1, h2, h3⟩ := h
    left
    exact ⟨h3.symm, h1.symm, h2.symm, hc⟩

theorem findparameter_ne_timeout (f : formatter) (startIndex : Nat) :
    findparameter f startIndex ≠ .timeout := by
  unfold findparameter
  split_ifs
  · simp
  · split
    · simp
    · split_ifs
      · simp
      · simp only []
        split_ifs
        · simp
        · split <;> simp

theorem findparameter_ne_error (f : formatter) (startIndex : Nat) (e : GoString) :
    findparameter f startIndex ≠ .error e := by
  unfold findparameter
  split_ifs
  · simp
  · split
    · simp
    · split_ifs
      · simp
      · simp only []
        split_ifs
        · simp
        · split <;> simp

/-! ## Parametrized tag lookup -/

theorem tagWithParam_ne_nil {name : GoString} {creator : GoString → TagFunc}
    (h : tagWithParamFuncCreator name = some creator) : name ≠ [] := by
  intro hn; rw [hn, tagWithParamFuncCreator_nil] at h; cases h

/-- The parametrized loop at its first iteration, when the whole run is a key. -/
theorem findTagParamLoop_exact (f : formatter) (s : Nat) (cur : GoString)
    (creator : GoString → TagFunc) (h : tagWithParamFuncCreator cur = some creator) :
    findTagParamLoop f s cur.length 0 cur =
      match findparameter f (s + cur.length) with
      | .ok (userParamter, parameterLen, ok) =>
        .ok (some (creator (if ok then userParamter else []), cur.length + parameterLen))
      | .error e => .error e
      | .fault => .fault
      | .timeout => .timeout := by
  have hne := tagWithParam_ne_nil h
  obtain ⟨n, hn⟩ : ∃ n, cur.length = n + 1 :=
    ⟨cur.length - 1, by have := List.length_pos.mpr hne; omega⟩
  rw [hn]
  unfold findTagParamLoop
  simp only [h, if_true, hn]

/-- The parametrized loop when the longest key prefix is shorter than the run
(or the loop is past its first iteration): the tag is built with the empty
parameter. -/
theorem findTagParamLoop_shorter (f : formatter) (s : Nat) :
    ∀ (n i : Nat) (cur : GoString) (creator : GoString → TagFunc) (k : Nat),
      cur.length = n → 1 ≤ k → k ≤ cur.length →
      tagWithParamFuncCreator (cur.take k) = some creator →
      (∀ j, k < j → j ≤ cur.length → tagWithParamFuncCreator (cur.take j) = none) →
      (k < cur.length ∨ i ≠ 0) →
      findTagParamLoop f s n i cur = .ok (some (creator [], k)) := by
  intro n
  induction n with
  | zero => intro i cur creator k hlen h1 h2; omega
  | succ n ih =>
    intro i cur creator k hlen h1 h2 h3 h4 h5
    unfold findTagParamLoop
    by_cases hk : k = cur.length
    · have hi : i ≠ 0 := by rcases h5 with h5 | h5 <;> [omega; exact h5]
      rw [hk, List.take_length] at h3
      simp only [h3, hi, if_false, hk]
    · have hnone : tagWithParamFuncCreator cur = none := by
        have := h4 cur.length (by omega) (le_refl _)
        rwa [List.take_length] at this
      have hl : (cur.take (cur.length - 1)).length = n := by
        rw [List.length_take]; omega
      simp only [hnone]
      apply ih (i + 1) _ creator k hl h1 (by omega)
      · rw [take_pred_take cur k (by omega)]; exact h3
      · intro j hj1 hj2
        rw [take_pred_take cur j (by omega)]
        exact h4 j hj1 (by omega)
      · right; omega

/-- The parametrized loop misses when no non-empty prefix is a key. -/
theorem findTagParamLoop_none (f : formatter) (s : Nat) :
    ∀ (n i : Nat) (cur : GoString), cur.length = n →
      (∀ j, 1 ≤ j → j ≤ cur.length → tagWithParamFuncCreator (cur.take j) = none) →
      findTagParamLoop f s n i cur = .ok none := by
  intro n
  induction n with
  | zero => intro i cur _ _; rfl
  | succ n ih =>
    intro i cur hlen h
    unfold findTagParamLoop
    have hnone : tagWithParamFuncCreator cur = none := by
      have := h cur.length (by omega) (le_refl _)
      rwa [List.take_length] at this
    have hl : (cur.take (cur.length - 1)).length = n := by
      rw [List.length_take]; omega
    simp only [hnone]
    apply ih (i + 1) _ hl
    intro j hj1 hj2
    rw [take_pred_take cur j (by omega)]
    exact h j hj1 (by omega)

/-- Every non-empty run either has a longest key prefix in a table or has none. -/
theorem longest_key_prefix {α : Type} (table : GoString → Option α) (cur : GoString) :
    (∀ j, 1 ≤ j → j ≤ cur.length → table (cur.take j) = none) ∨
    ∃ k a, 1 ≤ k ∧ k ≤ cur.length ∧ table (cur.take k) = some a ∧
      ∀ j, k < j → j ≤ cur.length → table (cur.take j) = none := by
  have key : ∀ m, m ≤ cur.length →
      (∀ j, cur.length - m < j → j ≤ cur.length → table (cur.take j) = none) ∨
      ∃ k a, 1 ≤ k ∧ k ≤ cur.length ∧ table (cur.take k) = some a ∧
        ∀ j, k < j → j ≤ cur.length → table (cur.take j) = none := by
    intro m
    induction m with
    | zero => intro _; left; intro j hj1 hj2; omega
    | succ m ih =>
      intro hm
      rcases ih (by omega) with hnone | hsome
      · cases hc : table (cur.take (cur.length - m)) with
        | none =>
          left
          intro j hj1 hj2
          by_cases hj : j = cur.length - m
          · rw [hj]; exact hc
          · exact hnone j (by omega) hj2
        | some a =>
          right
          exact ⟨cur.length - m, a, by omega, by omega, hc, fun j hj1 hj2 => hnone j hj1 hj2⟩
      · right; exact hsome
  rcases key cur.length (le_refl _) with h | h
  · left; intro j hj1 hj2; exact h j (by omega) hj2
  · right; exact h

/-! ## Tag resolution by `extractTagFunc` -/

theorem passesAllowed_guard (f : formatter) (R : GoString) (h : passesAllowed f R) :
    ¬ (f.allowedTags.length ≠ 0 ∧ R ∉ f.allowedTags) := by
  rintro ⟨h1, h2⟩
  rcases h with h | h
  · exact h1 (by rw [h]; rfl)
  · exact h2 h

/-- A run with a key of `tagFuncs` as a prefix resolves to the longest such
prefix `R.take k`; the tag ends at index `index + k - 1`. -/
theorem extractTagFunc_zero_arg (L : Nat → Bool) (f : formatter) (index : Nat) (fn : TagFunc)
    (k : Nat) (hallow : passesAllowed f (extractLetterSequence L f index))
    (h1 : 1 ≤ k) (h2 : k ≤ (extractLetterSequence L f index).length)
    (h3 : tagFuncs ((extractLetterSequence L f index).take k) = some fn)
    (h4 : ∀ j, k < j → j ≤ (extractLetterSequence L f index).length →
      tagFuncs ((extractLetterSequence L f index).take j) = none) :
    extractTagFunc L f index = .ok (fn, index + k - 1) := by
  have hfind : findTagFunc (extractLetterSequence L f index) = some (fn, k) :=
    findTagLoop_longest _ _ fn k rfl h1 h2 h3 h4
  simp only [extractTagFunc]
  rw [if_neg (by omega), if_neg (passesAllowed_guard f _ hallow), hfind]

/-- A run without a key of `tagFuncs` as a prefix, whose longest key prefix of
`tagWithParamFuncCreator` is shorter than the run, resolves to that tag with the
empty parameter; the tag ends at index `index + k - 1`. -/
theorem extractTagFunc_param_shorter (L : Nat → Bool) (f : formatter) (index : Nat)
    (creator : GoString → TagFunc) (k : Nat)
    (hallow : passesAllowed f (extractLetterSequence L f index))
    (hzero : ∀ j, 1 ≤ j → j ≤ (extractLetterSequence L f index).length →
      tagFuncs ((extractLetterSequence L f index).take j) = none)
    (h1 : 1 ≤ k) (h2 : k < (extractLetterSequence L f index).length)
    (h3 : tagWithParamFuncCreator ((extractLetterSequence L f index).take k) = some creator)
    (h4 : ∀ j, k < j → j ≤ (extractLetterSequence L f index).length →
      tagWithParamFuncCreator ((extractLetterSequence L f index).take j) = none) :
    extractTagFunc L f index = .ok (creator [], index + k - 1) := by
  have hfind : findTagFunc (extractLetterSequence L f index) = none := by
    cases hc : findTagFunc (extractLetterSequence L f index) with
    | none => rfl
    | some r =>
      obtain ⟨a1, a2, a3, _⟩ := findTagLoop_some _ _ r.1 r.2 rfl hc
      rw [hzero r.2 a1 a2] at a3
      cases a3
  have hparam : findTagFuncParametrized f (extractLetterSequence L f index) index =
      .ok (some (creator [], k)) :=
    findTagParamLoop_shorter f index _ 0 _ creator k rfl h1 (by omega) h3 h4 (Or.inl h2)
  simp only [extractTagFunc]
  rw [if_neg (by omega), if_neg (passesAllowed_guard f _ hallow), hfind]
  simp only [hparam]

/-- A run that is itself a key of `tagWithParamFuncCreator` and has no key of
`tagFuncs` as a prefix: the outcome follows `findparameter` at the end of the
run. -/
theorem extractTagFunc_param_exact (L : Nat → Bool) (f : formatter) (index : Nat)
    (creator : GoString → TagFunc)
    (hallow : passesAllowed f (extractLetterSequence L f index))
    (hzero : ∀ j, 1 ≤ j → j ≤ (extractLetterSequence L f index).length →
      tagFuncs ((extractLetterSequence L f index).take j) = none)
    (h3 : tagWithParamFuncCreator (extractLetterSequence L f index) = some creator) :
    extractTagFunc L f index =
      match findparameter f (index + (extractLetterSequence L f index).length) with
      | .ok (userParamter, parameterLen, ok) =>
        .ok (creator (if ok then userParamter else []),
          index + ((extractLetterSequence L f index).length + parameterLen) - 1)
      | .error e => .error e
      | .fault => .fault
      | .timeout => .timeout := by
  have hne := tagWithParam_ne_nil h3
  have hpos := List.length_pos.mpr hne
  have hfind : findTagFunc (extractLetterSequence L f index) = none := by
    cases hc : findTagFunc (extractLetterSequence L f index) with
    | none => rfl
    | some r =>
      obtain ⟨a1, a2, a3, _⟩ := findTagLoop_some _ _ r.1 r.2 rfl hc
      rw [hzero r.2 a1 a2] at a3
      cases a3
  have hparam := findTagParamLoop_exact f index _ creator h3
  simp only [extractTagFunc]
  rw [if_neg (by omega), if_neg (passesAllowed_guard f _ hallow), hfind]
  simp only [findTagFuncParametrized, hparam]
  cases findparameter f (index + (extractLetterSequence L f index).length) with
  | ok r => rfl
  | error e => rfl
  | fault => rfl
  | timeout => rfl

/-- A run with no key of either table as a prefix is an error. -/
theorem extractTagFunc_unrecognized (L : Nat → Bool) (f : formatter) (index : Nat)
    (hzero : ∀ j, 1 ≤ j → j ≤ (extractLetterSequence L f index).length →
      tagFuncs ((extractLetterSequence L f index).take j) = none)
    (hparam : ∀ j, 1 ≤ j → j ≤ (extractLetterSequence L f index).length →
      tagWithParamFuncCreator ((extractLetterSequence L f index).take j) = none) :
    (extractTagFunc L f index).isError = true := by
  have hfind : findTagFunc (extractLetterSequence L f index) = none := by
    cases hc : findTagFunc (extractLetterSequence L f index) with
    | none => rfl
    | some r =>
      obtain ⟨a1, a2, a3, _⟩ := findTagLoop_some _ _ r.1 r.2 rfl hc
      rw [hzero r.2 a1 a2] at a3
      cases a3
  have hp : findTagFuncParametrized f (extractLetterSequence L f index) index = .ok none :=
    findTagParamLoop_none f index _ 0 _ rfl hparam
  simp only [extractTagFunc]
  split_ifs
  · rfl
  · rfl
  · rw [hfind]; simp only [hp]; rfl

/-- An empty run is an error. -/
theorem extractTagFunc_empty_run (L : Nat → Bool) (f : formatter) (index : Nat)
    (h : extractLetterSequence L f index = []) :
    (extractTagFunc L f index).isError = true := by
  simp only [extractTagFunc, h, List.length_nil, if_true]
  rfl

/-- A run outside a non-empty allowed list is an error. -/
theorem extractTagFunc_unallowed (L : Nat → Bool) (f : formatter) (index : Nat)
    (hA : f.allowedTags ≠ []) (h : extractLetterSequence L f index ∉ f.allowedTags) :
    (extractTagFunc L f index).isError = true := by
  have hl : f.allowedTags.length ≠ 0 := fun h0 => hA (List.length_eq_zero.mp h0)
  simp only [extractTagFunc]
  split_ifs
  · rfl
  · rfl
  · rename_i hx; exact absurd ⟨hl, h⟩ hx

theorem findTagParamLoop_ne_timeout (f : formatter) (s : Nat) :
    ∀ (n i : Nat) (cur : GoString), findTagParamLoop f s n i cur ≠ .timeout := by
  intro n
  induction n with
  | zero => intro i cur; simp [findTagParamLoop]
  | succ n ih =>
    intro i cur
    unfold findTagParamLoop
    split
    · split_ifs
      · have := findparameter_ne_timeout f (s + cur.length)
        split <;> simp_all
      · simp
    · exact ih _ _

theorem extractTagFunc_ne_timeout (L : Nat → Bool) (f : formatter) (index : Nat) :
    extractTagFunc L f index ≠ .timeout := by
  simp only [extractTagFunc]
  split_ifs
  · simp
  · simp
  · split
    · simp
    · have := findTagParamLoop_ne_timeout f index
        (extractLetterSequence L f index).length 0 (extractLetterSequence L f index)
      unfold findTagFuncParametrized
      split <;> simp_all

/-- A successful `extractTagFunc` had a non-empty run that passed the guard. -/
theorem extractTagFunc_ok_run (L : Nat → Bool) (f : formatter) (index : Nat) (r : TagFunc × Nat)
    (h : extractTagFunc L f index = .ok r) :
    extractLetterSequence L f index ≠ [] ∧ passesAllowed f (extractLetterSequence L f index) := by
  constructor
  · intro he
    have := extractTagFunc_empty_run L f index he
    rw [h] at this; cases this
  · by_cases hA : f.allowedTags = []
    · exact Or.inl hA
    · by_cases hm : extractLetterSequence L f index ∈ f.allowedTags
      · exact Or.inr hm
      · have := extractTagFunc_unallowed L f index hA hm
        rw [h] at this; cases this

/-- The index returned by `extractTagFunc` lies in the template, at or after
the start of the run. -/
theorem extractTagFunc_ok_bounds (L : Nat → Bool) (f : formatter) (index : Nat) (fn : TagFunc)
    (nextI : Nat) (hi : index ≤ f.fmtStringOriginal.length)
    (h : extractTagFunc L f index = .ok (fn, nextI)) :
    index ≤ nextI ∧ nextI < f.fmtStringOriginal.length := by
  obtain ⟨hne, hallow⟩ := extractTagFunc_ok_run L f index _ h
  have hlen := extractLetterSequence_length L f index hi
  rcases longest_key_prefix tagFuncs (extractLetterSequence L f index) with hz | ⟨k, fn0, k1, k2, k3, k4⟩
  · rcases longest_key_prefix tagWithParamFuncCreator (extractLetterSequence L f index) with
      hp | ⟨k, creator, k1, k2, k3, k4⟩
    · have := extractTagFunc_unrecognized L f index hz hp
      rw [h] at this; cases this
    · by_cases hk : k < (extractLetterSequence L f index).length
      · rw [extractTagFunc_param_shorter L f index creator k hallow hz k1 hk k3 k4] at h
        simp only [Res.ok.injEq, Prod.mk.injEq] at h
        omega
      · have hk2 : k = (extractLetterSequence L f index).length := by omega
        rw [hk2, List.take_length] at k3
        rw [extractTagFunc_param_exact L f index creator hallow hz k3] at h
        cases hfp : findparameter f (index + (extractLetterSequence L f index).length) with
        | ok r =>
          obtain ⟨p, plen, okb⟩ := r
          rw [hfp] at h
          simp only [Res.ok.injEq, Prod.mk.injEq] at h
          obtain ⟨_, hcase⟩ := findparameter_ok_inv f _ (by omega) p plen okb hfp
          rcases hcase with ⟨_, _, h0, _⟩ | ⟨_, hpl, post, hdrop, _⟩
          · omega
          · have := congrArg List.length hdrop
            simp only [List.length_drop, List.length_cons, List.length_append] at this
            omega
        | error e => rw [hfp] at h; cases h
        | fault => rw [hfp] at h; cases h
        | timeout => rw [hfp] at h; cases h
  · rw [extractTagFunc_zero_arg L f index fn0 k hallow k1 k2 k3 k4] at h
    simp only [Res.ok.injEq, Prod.mk.injEq] at h
    omega

/-- The loop of `buildTagFuncs` ends within its fuel. -/
theorem buildLoop_ne_timeout (L : Nat → Bool) (f : formatter) :
    ∀ (fuel i : Nat) (fs : GoString) (fns : List TagFunc),
      i ≤ f.fmtStringOriginal.length → f.fmtStringOriginal.length < fuel + i →
      buildLoop L f fuel i fs fns ≠ .timeout := by
  intro fuel
  induction fuel with
  | zero => intro i fs fns h1 h2; omega
  | succ fuel ih =>
    intro i fs fns h1 h2 h
    unfold buildLoop at h
    split at h
    · simp at h
    · rename_i hlen
      split at h
      · simp at h
      · split at h
        · exact ih _ _ _ (by omega) (by omega) h
        · split at h
          · simp at h
          · rename_i hlast
            split at h
            · simp at h
            · split at h
              · exact ih _ _ _ (by omega) (by omega) h
              · split at h
                · rename_i function nextI hex
                  have hb := extractTagFunc_ok_bounds L f (i + 1) function nextI (by omega) hex
                  exact ih _ _ _ (by omega) (by omega) h
                · simp at h
                · simp at h
                · rename_i hex
                  exact absurd hex (extractTagFunc_ne_timeout L f (i + 1))

/-- The constructor always ends: with a formatter, an error or a panic. -/
theorem newFormatter_total (L : Nat → Bool) (t : GoString) (A : List GoString) :
    newFormatter L t A ≠ .timeout := by
  unfold newFormatter buildTagFuncs
  have := buildLoop_ne_timeout L
    { fmtStringOriginal := t, fmtString := [], allowedTags := A, tagFuncs := [] }
    (t.length + 1) 0 [] [] (by simp) (by simp)
  split <;> simp_all

/-! ## The names of resolved tags -/

theorem tagFuncs_name {name : GoString} {fn : TagFunc} (h : tagFuncs name = some fn) :
    fn.name = name := by
  unfold tagFuncs at h
  cases hf : tagFuncsTable.find? (fun e => e.1 = name) with
  | none => rw [hf] at h; cases h
  | some e =>
    rw [hf] at h
    simp only [Option.map_some', Option.some.injEq] at h
    have hmem := List.mem_of_find?_eq_some hf
    have hkey := List.find?_some hf
    simp only [decide_eq_true_eq] at hkey
    have hall : ∀ e ∈ tagFuncsTable, e.2.name = e.1 := by decide
    rw [← h, ← hkey]
    exact hall e hmem

theorem tagWithParam_keys {name : GoString} {creator : GoString → TagFunc}
    (h : tagWithParamFuncCreator name = some creator) :
    (name = lit "date" ∧ creator = createDateTimeTagFunc) ∨
      (name = lit "escm" ∧ creator = createANSIEscapeFunc) := by
  unfold tagWithParamFuncCreator tagWithParamTable at h
  simp only [List.find?] at h
  split at h
  · rename_i hd
    simp only [decide_eq_true_eq] at hd
    simp only [Option.map_some', Option.some.injEq] at h
    exact Or.inl ⟨hd.symm, h.symm⟩
  · split at h
    · rename_i hd
      simp only [decide_eq_true_eq] at hd
      simp only [Option.map_some', Option.some.injEq] at h
      exact Or.inr ⟨hd.symm, h.symm⟩
    · simp at h

theorem tagWithParam_name {name : GoString} {creator : GoString → TagFunc}
    (h : tagWithParamFuncCreator name = some creator) (p : GoString) :
    (creator p).name = name := by
  rcases tagWithParam_keys h with ⟨h1, h2⟩ | ⟨h1, h2⟩ <;> subst h1 <;> subst h2 <;> rfl

/-- No non-empty prefix of a key of `tagWithParamFuncCreator` is a key of
`tagFuncs`. -/
theorem tagWithParam_no_zero_prefix {name : GoString} {creator : GoString → TagFunc}
    (h : tagWithParamFuncCreator name = some creator) :
    ∀ j, 1 ≤ j → j ≤ name.length → tagFuncs (name.take j) = none := by
  intro j hj1 hj2
  rcases tagWithParam_keys h with ⟨h1, _⟩ | ⟨h1, _⟩
  · subst h1
    have hl : (lit "date").length = 4 := rfl
    rw [hl] at hj2
    interval_cases j <;> rfl
  · subst h1
    have hl : (lit "escm").length = 4 := rfl
    rw [hl] at hj2
    interval_cases j <;> rfl

/-- Under a non-empty allowed list made of tag names, the tag that
`extractTagFunc` resolves is named in the list. -/
theorem extractTagFunc_name_allowed (L : Nat → Bool) (f : formatter) (index : Nat)
    (fn : TagFunc) (nextI : Nat) (hA : f.allowedTags ≠ [])
    (hnames : ∀ a ∈ f.allowedTags, isTagName a = true)
    (h : extractTagFunc L f index = .ok (fn, nextI)) : fn.name ∈ f.allowedTags := by
  obtain ⟨hne, hallow⟩ := extractTagFunc_ok_run L f index _ h
  have hmem : extractLetterSequence L f index ∈ f.allowedTags := by
    rcases hallow with h0 | h0
    · exact absurd h0 hA
    · exact h0
  have hpos := List.length_pos.mpr hne
  have hname := hnames _ hmem
  unfold isTagName at hname
  cases hz : tagFuncs (extractLetterSequence L f index) with
  | some fn0 =>
    have := extractTagFunc_zero_arg L f index fn0 (extractLetterSequence L f index).length
      hallow hpos (le_refl _) (by rw [List.take_length]; exact hz) (by intro j h1 h2; omega)
    rw [this] at h
    simp only [Res.ok.injEq, Prod.mk.injEq] at h
    rw [← h.1, tagFuncs_name hz]
    exact hmem
  | none =>
    rw [hz] at hname
    simp only [Option.isSome_none, Bool.false_or] at hname
    obtain ⟨creator, hc⟩ := Option.isSome_iff_exists.mp hname
    have hzero := tagWithParam_no_zero_prefix hc
    rw [extractTagFunc_param_exact L f index creator hallow hzero hc] at h
    cases hfp : findparameter f (index + (extractLetterSequence L f index).length) with
    | ok r =>
      rw [hfp] at h
      simp only [Res.ok.injEq, Prod.mk.injEq] at h
      rw [← h.1, tagWithParam_name hc]
      exact hmem
    | error e => rw [hfp] at h; cases h
    | fault => rw [hfp] at h; cases h
    | timeout => rw [hfp] at h; cases h

/-- A property of every result of `extractTagFunc` holds for every tag function
that `buildTagFuncs` collects. -/
theorem buildLoop_funcs (L : Nat → Bool) (f : formatter) (P : TagFunc → Prop)
    (hP : ∀ index fn nextI, extractTagFunc L f index = .ok (fn, nextI) → P fn) :
    ∀ (fuel i : Nat) (fs : GoString) (fns : List TagFunc) (r : GoString × List TagFunc),
      buildLoop L f fuel i fs fns = .ok r → (∀ fn ∈ fns, P fn) → ∀ fn ∈ r.2, P fn := by
  intro fuel
  induction fuel with
  | zero => intro i fs fns r h; simp [buildLoop] at h
  | succ fuel ih =>
    intro i fs fns r h hfns
    unfold buildLoop at h
    split at h
    · simp only [Res.ok.injEq] at h
      rw [← h]; exact hfns
    · split at h
      · simp at h
      · split at h
        · exact ih _ _ _ _ h hfns
        · split at h
          · simp at h
          · split at h
            · simp at h
            · split at h
              · exact ih _ _ _ _ h hfns
              · split at h
                · rename_i function nextI hex
                  apply ih _ _ _ _ h
                  intro fn hfn
                  simp only [List.mem_append, List.mem_singleton] at hfn
                  rcases hfn with hfn | hfn
                  · exact hfns fn hfn
                  · rw [hfn]; exact hP _ _ _ hex
                · simp at h
                · simp at h
                · simp at h

theorem tagFuncs_mem {name : GoString} {fn : TagFunc} (h : tagFuncs name = some fn) :
    (name, fn) ∈ tagFuncsTable := by
  unfold tagFuncs at h
  cases hf : tagFuncsTable.find? (fun e => e.1 = name) with
  | none => rw [hf] at h; cases h
  | some e =>
    rw [hf] at h
    simp only [Option.map_some', Option.some.injEq] at h
    have hmem := List.mem_of_find?_eq_some hf
    have hkey := List.find?_some hf
    simp only [decide_eq_true_eq] at hkey
    have : e = (name, fn) := by rw [← h, ← hkey]
    rw [← this]; exact hmem

/-- No key of `tagFuncs` starts with a key of `tagWithParamFuncCreator`. -/
theorem tagFuncs_not_param_prefixed {x : GoString} {fn : TagFunc} (h : tagFuncs x = some fn) :
    x.take 4 ≠ lit "date" ∧ x.take 4 ≠ lit "escm" := by
  have hall : ∀ e ∈ tagFuncsTable, e.1.take 4 ≠ lit "date" ∧ e.1.take 4 ≠ lit "escm" := by
    decide
  exact hall _ (tagFuncs_mem h)

theorem tagWithParam_length {name : GoString} {creator : GoString → TagFunc}
    (h : tagWithParamFuncCreator name = some creator) : name.length = 4 := by
  rcases tagWithParam_keys h with ⟨h1, _⟩ | ⟨h1, _⟩ <;> subst h1 <;> rfl

/-- A run that extends a key of `tagWithParamFuncCreator` by further letters
resolves to that tag with the empty parameter. -/
theorem extractTagFunc_param_extended (L : Nat → Bool) (f : formatter) (index : Nat)
    (name more : GoString) (creator : GoString → TagFunc)
    (hkey : tagWithParamFuncCreator name = some creator)
    (hallow : passesAllowed f (extractLetterSequence L f index))
    (hmore : more ≠ []) (hrun : extractLetterSequence L f index = name ++ more) :
    extractTagFunc L f index = .ok (creator [], index + name.length - 1) := by
  have hlen := tagWithParam_length hkey
  have hmpos := List.length_pos.mpr hmore
  have htake4 : ∀ j, 4 ≤ j → ((name ++ more).take j).take 4 = name := by
    intro j hj
    rw [List.take_take, Nat.min_eq_left hj, List.take_append_of_le_length (by omega),
      ← hlen, List.take_length]
  apply extractTagFunc_param_shorter L f index creator name.length hallow
  · intro j hj1 hj2
    rw [hrun] at hj2 ⊢
    by_cases hj : j ≤ name.length
    · rw [List.take_append_of_le_length hj]
      exact tagWithParam_no_zero_prefix hkey j hj1 hj
    · cases hc : tagFuncs ((name ++ more).take j) with
      | none => rfl
      | some fn =>
        have := tagFuncs_not_param_prefixed hc
        rw [htake4 j (by omega)] at this
        rcases tagWithParam_keys hkey with ⟨h1, _⟩ | ⟨h1, _⟩
        · exact absurd h1 this.1
        · exact absurd h1 this.2
  · omega
  · rw [hrun, List.length_append]; omega
  · rw [hrun, List.take_left']; exact hkey
    rfl
  · intro j hj1 hj2
    rw [hrun] at hj2 ⊢
    cases hc : tagWithParamFuncCreator ((name ++ more).take j) with
    | none => rfl
    | some c2 =>
      have := tagWithParam_length hc
      rw [List.length_take] at this
      omega

/-! ## Stability of the scan under a suffix that starts with `%` -/

theorem decodeTwo_size_le (p0 : Nat) (rest : GoString) :
    (decodeTwo p0 rest).2 ≤ (p0 :: rest).length := by
  unfold decodeTwo; split
  · split_ifs <;> simp
  · simp

theorem decodeThree_size_le (p0 : Nat) (rest : GoString) :
    (decodeThree p0 rest).2 ≤ (p0 :: rest).length := by
  unfold decodeThree; split
  · split_ifs <;> simp
  · simp

theorem decodeFour_size_le (p0 : Nat) (rest : GoString) :
    (decodeFour p0 rest).2 ≤ (p0 :: rest).length := by
  unfold decodeFour; split
  · split_ifs <;> simp
  · simp

theorem decodeRune_size_le (p : GoString) : (decodeRune p).2 ≤ p.length := by
  match p with
  | [] => simp [decodeRune]
  | p0 :: rest =>
    simp only [decodeRune]
    split_ifs
    · simp
    · simp
    · exact decodeTwo_size_le p0 rest
    · exact decodeThree_size_le p0 rest
    · exact decodeFour_size_le p0 rest
    · simp

theorem decodeRune_ascii (c : Nat) (q : GoString) (hc : c < 128) :
    decodeRune (c :: q) = (c, 1) := by
  simp [decodeRune, hc]

theorem drop_append_cons (s q : GoString) (c k : Nat) (hk : k ≤ s.length) :
    (s ++ c :: q).drop k = s.drop k ++ c :: q :=
  List.drop_append_of_le_length hk

theorem runeCount_append_ge (c : Nat) (q : GoString) (hc : c < 128) :
    ∀ (n : Nat) (s : GoString), s.length ≤ n → runeCount s + 1 ≤ runeCount (s ++ c :: q) := by
  intro n
  induction n with
  | zero =>
    intro s hs
    have : s = [] := List.length_eq_zero.mp (by omega)
    subst this
    rw [runeCount_nil, List.nil_append, runeCount_cons (c :: q) (by simp)]
    omega
  | succ n ih =>
    intro s hs
    by_cases hnil : s = []
    · subst hnil
      rw [runeCount_nil, List.nil_append, runeCount_cons (c :: q) (by simp)]
      omega
    · have h1 := decodeRune_size_pos s hnil
      have h2 := decodeRune_size_le s
      rw [runeCount_cons s hnil, runeCount_cons (s ++ c :: q) (by simp),
        decodeRune_append s q c hc hnil, drop_append_cons s q c _ h2]
      have := ih (s.drop (decodeRune s).2) (by rw [List.length_drop]; omega)
      omega

/-- The letter loop reads the same letters when the input is followed by a
byte that is ASCII and not a letter. -/
theorem extractLetterLoop_append (L : Nat → Bool) (c : Nat) (q : GoString) (hc : c < 128)
    (hcl : isLetter L c = false) :
    ∀ (n m : Nat) (s acc : GoString), runeCount s ≤ n → runeCount s + 1 ≤ m →
      extractLetterLoop L m (s ++ c :: q) acc = extractLetterLoop L n s acc := by
  have hstop : ∀ (m : Nat) (acc : GoString), 1 ≤ m →
      extractLetterLoop L m (c :: q) acc = acc := by
    intro m acc hm
    obtain ⟨m1, rfl⟩ : ∃ m1, m = m1 + 1 := ⟨m - 1, by omega⟩
    unfold extractLetterLoop
    rw [decodeRune_ascii c q hc]
    simp [hcl]
  have hnilrun : ∀ (n : Nat) (acc : GoString), extractLetterLoop L n [] acc = acc := by
    intro n acc
    cases n with
    | zero => rfl
    | succ n =>
      unfold extractLetterLoop
      have : isLetter L (decodeRune []).1 = false := isLetter_RuneError L
      simp [this]
  intro n
  induction n with
  | zero =>
    intro m s acc hn hm
    have hs : s = [] := by
      by_contra hne
      rw [runeCount_cons s hne] at hn
      omega
    subst hs
    rw [List.nil_append, hstop m acc (by omega)]
    rfl
  | succ n ih =>
    intro m s acc hn hm
    by_cases hs : s = []
    · subst hs
      rw [List.nil_append, hstop m acc (by omega), hnilrun]
    · have h1 := decodeRune_size_pos s hs
      have h2 := decodeRune_size_le s
      have hrc := runeCount_cons s hs
      obtain ⟨m1, rfl⟩ : ∃ m1, m = m1 + 1 := ⟨m - 1, by omega⟩
      rw [extractLetterLoop, extractLetterLoop, decodeRune_append s q c hc hs,
        drop_append_cons s q c _ h2]
      by_cases hl : isLetter L (decodeRune s).1 = true
      · simp only [hl, if_true]
        exact ih m1 _ _ (by omega) (by omega)
      · simp only [hl, if_false]
        rfl

/-- The letter run read at `index` is the same in a template and in the
template followed by a byte that is ASCII and not a letter. -/
theorem extractLetterSequence_ext (L : Nat → Bool) (f g : formatter) (c : Nat) (q : GoString)
    (hg : g.fmtStringOriginal = f.fmtStringOriginal ++ c :: q)
    (hc : c < 128) (hcl : isLetter L c = false) (index : Nat)
    (hi : index ≤ f.fmtStringOriginal.length) :
    extractLetterSequence L g index = extractLetterSequence L f index := by
  unfold extractLetterSequence
  simp only [hg, drop_append_cons f.fmtStringOriginal q c index hi]
  exact extractLetterLoop_append L c q hc hcl _ _ _ _ (le_refl _)
    (runeCount_append_ge c q hc _ _ (le_refl _))

theorem getElem?_ext (f g : formatter) (c : Nat) (q : GoString)
    (hg : g.fmtStringOriginal = f.fmtStringOriginal ++ c :: q) (i : Nat)
    (hi : i < f.fmtStringOriginal.length) :
    g.fmtStringOriginal[i]? = f.fmtStringOriginal[i]? := by
  rw [hg, List.getElem?_append_left hi]

theorem getElem?_ext_end (f g : formatter) (c : Nat) (q : GoString)
    (hg : g.fmtStringOriginal = f.fmtStringOriginal ++ c :: q) :
    g.fmtStringOriginal[f.fmtStringOriginal.length]? = some c := by
  rw [hg, List.getElem?_append_right (le_refl _)]
  simp

theorem findparameter_ext (f g : formatter) (c : Nat) (q : GoString)
    (hg : g.fmtStringOriginal = f.fmtStringOriginal ++ c :: q) (hc : c ≠ 40)
    (k : Nat) (hk : 1 ≤ k) (r : GoString × Nat × Bool) (h : findparameter f k = .ok r) :
    findparameter g k = .ok r := by
  obtain ⟨p, plen, okb⟩ := r
  obtain ⟨hle, hcase⟩ := findparameter_ok_inv f k hk p plen okb h
  have hglen : g.fmtStringOriginal.length = f.fmtStringOriginal.length + (q.length + 1) := by
    rw [hg, List.length_append, List.length_cons]
  rcases hcase with ⟨h1, h2, h3, h4⟩ | ⟨h1, h2, post, h3, h4⟩
  · subst h1; subst h2; subst h3
    apply findparameter_absent g k (by omega)
    by_cases hlt : k < f.fmtStringOriginal.length
    · rw [getElem?_ext f g c q hg k hlt]; exact h4
    · have : k = f.fmtStringOriginal.length := by omega
      rw [this, getElem?_ext_end f g c q hg]
      intro hx; injection hx with hx; exact hc hx
  · subst h1; subst h2
    apply findparameter_found g k p (post ++ c :: q) _ h4
    rw [hg, drop_append_cons _ q c k hle, h3]
    simp

/-- A tag resolved in a template is resolved in the same way when the template
is followed by a byte that is ASCII, not a letter and not `(`. -/
theorem extractTagFunc_ext (L : Nat → Bool) (f g : formatter) (c : Nat) (q : GoString)
    (hg : g.fmtStringOriginal = f.fmtStringOriginal ++ c :: q)
    (hA : g.allowedTags = f.allowedTags)
    (hc : c < 128) (hcl : isLetter L c = false) (hc40 : c ≠ 40) (index : Nat)
    (hi : index ≤ f.fmtStringOriginal.length) (r : TagFunc × Nat)
    (h : extractTagFunc L f index = .ok r) :
    extractTagFunc L g index = .ok r := by
  have hR := extractLetterSequence_ext L f g c q hg hc hcl index hi
  obtain ⟨hne, hallow⟩ := extractTagFunc_ok_run L f index _ h
  have hallowg : passesAllowed g (extractLetterSequence L g index) := by
    unfold passesAllowed at hallow ⊢
    rw [hA, hR]; exact hallow
  have hpos := List.length_pos.mpr hne
  rcases longest_key_prefix tagFuncs (extractLetterSequence L f index) with
    hz | ⟨k, fn0, k1, k2, k3, k4⟩
  · have hzg : ∀ j, 1 ≤ j → j ≤ (extractLetterSequence L g index).length →
        tagFuncs ((extractLetterSequence L g index).take j) = none := by
      rw [hR]; exact hz
    rcases longest_key_prefix tagWithParamFuncCreator (extractLetterSequence L f index) with
      hp | ⟨k, creator, k1, k2, k3, k4⟩
    · have := extractTagFunc_unrecognized L f index hz hp
      rw [h] at this; cases this
    · by_cases hk : k < (extractLetterSequence L f index).length
      · rw [extractTagFunc_param_shorter L f index creator k hallow hz k1 hk k3 k4] at h
        rw [extractTagFunc_param_shorter L g index creator k hallowg hzg k1
          (by rw [hR]; exact hk) (by rw [hR]; exact k3) (by rw [hR]; exact k4)]
        exact h
      · have hk2 : k = (extractLetterSequence L f index).length := by omega
        rw [hk2, List.take_length] at k3
        rw [extractTagFunc_param_exact L f index creator hallow hz k3] at h
        rw [extractTagFunc_param_exact L g index creator hallowg hzg (by rw [hR]; exact k3), hR]
        cases hfp : findparameter f (index + (extractLetterSequence L f index).length) with
        | ok r2 =>
          rw [findparameter_ext f g c q hg hc40 _ (by omega) r2 hfp]
          rw [hfp] at h
          exact h
        | error e => rw [hfp] at h; cases h
        | fault => rw [hfp] at h; cases h
        | timeout => rw [hfp] at h; cases h
  · rw [extractTagFunc_zero_arg L f index fn0 k hallow k1 k2 k3 k4] at h
    rw [extractTagFunc_zero_arg L g index fn0 k hallowg k1 (by rw [hR]; exact k2)
      (by rw [hR]; exact k3) (by rw [hR]; exact k4)]
    exact h

/-- When a template compiles, the scan of the template followed by `%` and
more text reaches that `%` as a tag marker; if the marker is an error, so is
the whole scan. -/
theorem buildLoop_ext (L : Nat → Bool) (f g : formatter) (q : GoString)
    (hg : g.fmtStringOriginal = f.fmtStringOriginal ++ 37 :: q)
    (hA : g.allowedTags = f.allowedTags)
    (hmark : ∀ (fuel : Nat) (fs : GoString) (fns : List TagFunc),
      (buildLoop L g (fuel + 1) f.fmtStringOriginal.length fs fns).isError = true) :
    ∀ (fuel i : Nat) (fs : GoString) (fns : List TagFunc) (r : GoString × List TagFunc),
      i ≤ f.fmtStringOriginal.length → buildLoop L f fuel i fs fns = .ok r →
      ∀ fuel2, fuel ≤ fuel2 → (buildLoop L g fuel2 i fs fns).isError = true := by
  have hglen : g.fmtStringOriginal.length = f.fmtStringOriginal.length + (q.length + 1) := by
    rw [hg, List.length_append, List.length_cons]
  intro fuel
  induction fuel with
  | zero => intro i fs fns r _ h; simp [buildLoop] at h
  | succ fuel ih =>
    intro i fs fns r hi h fuel2 hfuel
    obtain ⟨fuel3, rfl⟩ : ∃ fuel3, fuel2 = fuel3 + 1 := ⟨fuel2 - 1, by omega⟩
    by_cases hlt : i < f.fmtStringOriginal.length
    · unfold buildLoop at h ⊢
      have hgi : i < g.fmtStringOriginal.length := by omega
      rw [if_neg (by omega)] at h ⊢
      rw [getElem?_ext f g 37 q hg i hlt]
      split at h
      · simp at h
      · rename_i char hchar
        split at h
        · rename_i hne
          rw [if_pos hne]
          exact ih _ _ _ _ (by omega) h fuel3 (by omega)
        · rename_i hne
          rw [if_neg hne]
          split at h
          · simp at h
          · rename_i hlast
            rw [if_neg (by omega), getElem?_ext f g 37 q hg (i + 1) (by omega)]
            split at h
            · simp at h
            · split at h
              · rename_i hn
                rw [if_pos hn]
                exact ih _ _ _ _ (by omega) h fuel3 (by omega)
              · rename_i hn
                rw [if_neg hn]
                split at h
                · rename_i function nextI hex
                  have hb := extractTagFunc_ok_bounds L f (i + 1) function nextI (by omega) hex
                  rw [extractTagFunc_ext L f g 37 q hg hA (by omega) (isLetter_percent L)
                    (by omega) (i + 1) (by omega) _ hex]
                  exact ih _ _ _ _ (by omega) h fuel3 (by omega)
                · simp at h
                · simp at h
                · simp at h
    · have : i = f.fmtStringOriginal.length := by omega
      rw [this]
      exact hmark fuel3 fs fns

theorem extractLetterSequence_eq_letterRun (L : Nat → Bool) (f : formatter) (index : Nat) :
    extractLetterSequence L f index = letterRun L (f.fmtStringOriginal.drop index) := rfl

theorem letterRun_non_letter (L : Nat → Bool) (s : GoString)
    (h : isLetter L (decodeRune s).1 = false) : letterRun L s = [] := by
  unfold letterRun
  cases hn : runeCount s with
  | zero => rfl
  | succ n =>
    unfold extractLetterLoop
    simp [h]

/-- At a `%` that ends the template, or is followed by another byte than `%`
where `extractTagFunc` fails, the loop of `buildTagFuncs` returns an error. -/
theorem buildLoop_marker_error (L : Nat → Bool) (g : formatter) (p q : GoString)
    (hg : g.fmtStringOriginal = p ++ 37 :: q)
    (hq : q = [] ∨ ∃ c rest, q = c :: rest ∧ c ≠ 37 ∧
      (extractTagFunc L g (p.length + 1)).isError = true) :
    ∀ (fuel : Nat) (fs : GoString) (fns : List TagFunc),
      (buildLoop L g (fuel + 1) p.length fs fns).isError = true := by
  intro fuel fs fns
  have hglen : g.fmtStringOriginal.length = p.length + (q.length + 1) := by
    rw [hg, List.length_append, List.length_cons]
  have hget : g.fmtStringOriginal[p.length]? = some 37 := by
    rw [hg, List.getElem?_append_right (le_refl _)]
    simp
  unfold buildLoop
  rw [if_neg (by omega), hget]
  simp only [TagSymbol, ne_eq, not_true_eq_false, if_false]
  rcases hq with hq | ⟨c, rest, hq, hc, herr⟩
  · subst hq
    rw [if_pos (by simp only [List.length_nil] at hglen; omega)]
    rfl
  · subst hq
    have hget2 : g.fmtStringOriginal[p.length + 1]? = some c := by
      rw [hg, List.getElem?_append_right (by omega)]
      simp
    rw [if_neg (by simp only [List.length_cons] at hglen; omega), hget2]
    simp only [hc, if_false]
    cases hex : extractTagFunc L g (p.length + 1) with
    | ok r => rw [hex] at herr; cases herr
    | error e => rfl
    | fault => rw [hex] at herr; cases herr
    | timeout => rw [hex] at herr; cases herr

/-- A compiled template followed by a failing tag marker does not compile. -/
theorem newFormatter_marker_error (L : Nat → Bool) (p q : GoString) (A : List GoString)
    (f : formatter) (hp : newFormatter L p A = .ok f)
    (hq : q = [] ∨ ∃ c rest, q = c :: rest ∧ c ≠ 37 ∧
      (extractTagFunc L
        { fmtStringOriginal := p ++ 37 :: q, fmtString := [], allowedTags := A, tagFuncs := [] }
        (p.length + 1)).isError = true) :
    (newFormatter L (p ++ 37 :: q) A).isError = true := by
  unfold newFormatter buildTagFuncs at hp
  split at hp
  · rename_i fs fns hb
    have hmark := buildLoop_marker_error L
      { fmtStringOriginal := p ++ 37 :: q, fmtString := [], allowedTags := A, tagFuncs := [] }
      p q rfl hq
    have := buildLoop_ext L
      { fmtStringOriginal := p, fmtString := [], allowedTags := A, tagFuncs := [] }
      { fmtStringOriginal := p ++ 37 :: q, fmtString := [], allowedTags := A, tagFuncs := [] }
      q rfl rfl hmark _ 0 [] [] _ (Nat.zero_le _) hb ((p ++ 37 :: q).length + 1)
      (by simp only [List.length_append, List.length_cons]; omega)
    unfold newFormatter buildTagFuncs
    cases hres : buildLoop L
      { fmtStringOriginal := p ++ 37 :: q, fmtString := [], allowedTags := A, tagFuncs := [] }
      ((p ++ 37 :: q).length + 1) 0 [] [] with
    | ok r => rw [hres] at this; cases this
    | error e => rfl
    | fault => rw [hres] at this; cases this
    | timeout => rw [hres] at this; cases this
  · simp at hp
  · simp at hp
  · simp at hp

/-! ## A tag followed by ASCII letters -/

theorem isAsciiLetter_bounds {b : Nat} (h : isAsciiLetter b = true) : b < 128 ∧ b ≠ 37 := by
  simp only [isAsciiLetter, Bool.or_eq_true, Bool.and_eq_true, decide_eq_true_eq] at h
  omega

theorem extractLetterLoop_nil (L : Nat → Bool) (n : Nat) (acc : GoString) :
    extractLetterLoop L n [] acc = acc := by
  cases n with
  | zero => rfl
  | succ n =>
    unfold extractLetterLoop
    have : isLetter L (decodeRune []).1 = false := isLetter_RuneError L
    simp [this]

theorem runeCount_ascii : ∀ R : GoString, (∀ b ∈ R, b < 128) → runeCount R = R.length := by
  intro R
  induction R with
  | nil => intro _; rfl
  | cons b R ih =>
    intro h
    rw [runeCount_cons (b :: R) (by simp), decodeRune_ascii b R (h b (by simp))]
    simp only [List.drop_succ_cons, List.drop_zero, List.length_cons]
    rw [ih (fun x hx => h x (by simp [hx]))]
    omega

theorem extractLetterLoop_ascii (L : Nat → Bool) :
    ∀ (R acc : GoString) (n : Nat), (∀ b ∈ R, isAsciiLetter b = true) → R.length ≤ n →
      extractLetterLoop L n R acc = acc ++ R := by
  intro R
  induction R with
  | nil => intro acc n _ _; rw [extractLetterLoop_nil]; simp
  | cons b R ih =>
    intro acc n h hn
    obtain ⟨n1, rfl⟩ : ∃ n1, n = n1 + 1 := ⟨n - 1, by simp only [List.length_cons] at hn; omega⟩
    have hb := h b (by simp)
    have hb2 := isAsciiLetter_bounds hb
    have hl : isLetter L b = true := by simp [isLetter, hb2.1, hb]
    unfold extractLetterLoop
    rw [decodeRune_ascii b R hb2.1]
    simp only [hl, if_true, List.drop_succ_cons, List.drop_zero, encodeRune_ascii b hb2.1]
    rw [ih _ n1 (fun x hx => h x (by simp [hx])) (by simp only [List.length_cons] at hn; omega)]
    simp

/-- A run of ASCII letters is read whole. -/
theorem letterRun_ascii (L : Nat → Bool) (R : GoString) (h : ∀ b ∈ R, isAsciiLetter b = true) :
    letterRun L R = R := by
  unfold letterRun
  rw [extractLetterLoop_ascii L R [] _ h
    (by rw [runeCount_ascii R (fun b hb => (isAsciiLetter_bounds (h b hb)).1)])]
  simp

/-- The template `%R`, for a run `R` of ASCII letters whose longest prefix in
`tagFuncs` is `R.take k`: `Format` returns the value of that tag followed by the
remaining letters of `R`. -/
theorem format_tag_then_ascii_letters (L : Nat → Bool) (R : GoString) (fn : TagFunc) (k : Nat)
    (hR : ∀ b ∈ R, isAsciiLetter b = true) (h1 : 1 ≤ k) (h2 : k ≤ R.length)
    (h3 : tagFuncs (R.take k) = some fn)
    (h4 : ∀ j, k < j → j ≤ R.length → tagFuncs (R.take j) = none)
    (now : GoTime) (message : GoString) (level : LogLevel) (context : RuntimeContext) :
    render L (37 :: R) [] now message level context =
      some ((fn.call now message level context).show ++ R.drop k) := by
  obtain ⟨b0, R1, rfl⟩ : ∃ b0 R1, R = b0 :: R1 := by
    cases R with
    | nil => simp only [List.length_nil] at h2; omega
    | cons b0 R1 => exact ⟨b0, R1, rfl⟩
  have hb0 := isAsciiLetter_bounds (hR b0 (by simp))
  have hrun : extractLetterSequence L
      { fmtStringOriginal := 37 :: b0 :: R1, fmtString := [], allowedTags := [], tagFuncs := [] }
      1 = b0 :: R1 := by
    rw [extractLetterSequence_eq_letterRun]
    exact letterRun_ascii L _ hR
  have hex : extractTagFunc L
      { fmtStringOriginal := 37 :: b0 :: R1, fmtString := [], allowedTags := [], tagFuncs := [] }
      1 = .ok (fn, 1 + k - 1) :=
    extractTagFunc_zero_arg L _ 1 fn k (Or.inl rfl) h1 (by rw [hrun]; exact h2)
      (by rw [hrun]; exact h3) (by rw [hrun]; exact h4)
  have hrest : ∀ b ∈ R1.drop (k - 1), b ≠ 37 := fun b hb =>
    (isAsciiLetter_bounds (hR b (List.mem_cons_of_mem _ (List.mem_of_mem_drop hb)))).2
  have hrest2 : ∀ b ∈ R1.drop (k - 1), b < 128 := fun b hb =>
    (isAsciiLetter_bounds (hR b (List.mem_cons_of_mem _ (List.mem_of_mem_drop hb)))).1
  have hdrop : (37 :: b0 :: R1).drop (1 + k - 1 + 1) = R1.drop (k - 1) := by
    obtain ⟨k1, rfl⟩ : ∃ k1, k = k1 + 1 := ⟨k - 1, by omega⟩
    have : 1 + (k1 + 1) - 1 + 1 = k1 + 1 + 1 := by omega
    rw [this]
    simp
  have hloop : buildLoop L
      { fmtStringOriginal := 37 :: b0 :: R1, fmtString := [], allowedTags := [], tagFuncs := [] }
      ((37 :: b0 :: R1).length + 1) 0 [] [] =
        .ok (lit "%v" ++ R1.drop (k - 1), [fn]) := by
    rw [buildLoop]
    simp only [List.length_cons, Nat.zero_lt_succ, not_true_eq_false, if_false,
      List.getElem?_cons_zero, TagSymbol, ne_eq, List.getElem?_cons_succ]
    rw [if_neg (by omega)]
    simp only [hb0.2, if_false, hex, List.nil_append]
    rw [buildLoop_plain L _ _ _ _ _ (by rw [hdrop]; exact hrest)
      (by simp only [List.length_cons] at h2 ⊢; omega)
      (by simp only [List.length_cons] at h2 ⊢; omega), hdrop,
      convertBytes_ascii _ hrest2]
  have hdropk : (b0 :: R1).drop k = R1.drop (k - 1) := by
    obtain ⟨k1, rfl⟩ : ∃ k1, k = k1 + 1 := ⟨k - 1, by omega⟩
    simp
  unfold render newFormatter buildTagFuncs
  rw [hloop, hdropk]
  simp only [formatter.Format, List.length_cons, List.length_nil, Nat.succ_ne_zero,
    if_false, List.map_cons, List.map_nil, Sprintf, lit_percent_v, List.cons_append,
    List.nil_append]
  have hlit := doPrintf_literal (R1.drop (k - 1)) hrest [] [] false
  rw [List.append_nil] at hlit
  simp only [doPrintf, isFlagChar]
  simp [hlit, doPrintf, extraReport]

/-! ## Claims on rendering -/

/-- C1: a template without `%` is claimed to be rendered unchanged for any
bytes. On the two-byte UTF-8 template `é` (bytes C3 A9) the constructor
succeeds and `Format` returns the four bytes C3 83 C2 A9, for every message,
level and context: each byte went through `string(char)`. -/
theorem C1_utf8_template_not_preserved :
    ∀ (L : Nat → Bool) (now : GoTime) (message : GoString) (level : LogLevel)
      (context : RuntimeContext),
      (∀ b ∈ [0xC3, 0xA9], b ≠ 37) ∧
      render L [0xC3, 0xA9] [] now message level context = some [0xC3, 0x83, 0xC2, 0xA9] ∧
      render L [0xC3, 0xA9] [] now message level context ≠ some [0xC3, 0xA9] := by
  intro L now message level context
  refine ⟨by decide, rfl, ?_⟩
  show some [0xC3, 0x83, 0xC2, 0xA9] ≠ some [0xC3, 0xA9]
  decide

/-- C2: an escaped `%%` is claimed to render as one `%` also beside tags. The
template `100%% %msg` compiles to the format string `100% %v` with one tag
function, and `Format` returns `100%v%!(EXTRA string=` message `)` instead of
`100% ` followed by the message. -/
theorem C2_escape_beside_tag_misrendered :
    ∀ (L : Nat → Bool) (now : GoTime) (message : GoString) (level : LogLevel)
      (context : RuntimeContext),
      newFormatter L (lit "100%% %msg") [] =
        .ok { fmtStringOriginal := lit "100%% %msg", fmtString := lit "100% %v",
              allowedTags := [], tagFuncs := [TagFunc.tagMsg] } ∧
      render L (lit "100%% %msg") [] now message level context =
        some (lit "100%v%!(EXTRA string=" ++ message ++ lit ")") ∧
      render L (lit "100%% %msg") [] now message level context ≠
        some (lit "100% " ++ message) := by
  intro L now message level context
  refine ⟨rfl, rfl, ?_⟩
  show some (lit "100%v%!(EXTRA string=" ++ message ++ lit ")") ≠ some (lit "100% " ++ message)
  intro h
  have h2 := Option.some.inj h
  have h3 : (some 118 : Option Nat) = some 32 := congrArg (fun l => l.get? 4) h2
  exact absurd h3 (by decide)

/-- C3: for a template of ASCII bytes that compiles and whose items hold no
`%%` escape, `Format` returns the concatenation, in template order, of the
literal bytes and of the values of the resolved tag functions on (message,
level, context); `%msg` renders exactly the message for every level. -/
theorem C3_format_substitutes_in_template_order (L : Nat → Bool) (template : GoString)
    (allowedTags : List GoString) (f : formatter) (items : List Item)
    (hascii : ∀ b ∈ template, b < 128)
    (hok : newFormatter L template allowedTags = .ok f)
    (hitems : templateItems L template allowedTags = some items)
    (hesc : Item.escape ∉ items) :
    (∀ now message level context,
      f.Format now message level context =
        some (renderItems now message level context items)) ∧
    (∀ now message level context,
      render L (lit "%msg") [] now message level context = some message) := by
  refine ⟨?_, ?_⟩
  · obtain ⟨items2, hit, hl, hfmt⟩ := format_items L template allowedTags f hok
    rw [hitems] at hit
    simp only [Option.some.injEq] at hit
    subst hit
    intro now message level context
    rw [hfmt (Or.inl hesc) now message level context,
      renderConverted_ascii now message level context items
        (fun b hb => hascii b (hl b hb).2)]
  · intro now message level context
    show some (message ++ []) = some message
    rw [List.append_nil]

/-- C3 at the default message format `%ns [%level] %msg%n`. -/
theorem C3_format_substitutes_in_template_order_witness :
    (∀ b ∈ lit "%ns [%level] %msg%n", b < 128) ∧
    Item.escape ∉
      [Item.tag TagFunc.tagNs, Item.literal 32, Item.literal 91, Item.tag TagFunc.tagLevel,
        Item.literal 93, Item.literal 32, Item.tag TagFunc.tagMsg, Item.tag TagFunc.tagN] ∧
    (∀ now message level context,
      formatter.Format
          { fmtStringOriginal := lit "%ns [%level] %msg%n", fmtString := lit "%v [%v] %v%v",
            allowedTags := [],
            tagFuncs := [TagFunc.tagNs, TagFunc.tagLevel, TagFunc.tagMsg, TagFunc.tagN] }
          now message level context =
        some (renderItems now message level context
          [Item.tag TagFunc.tagNs, Item.literal 32, Item.literal 91, Item.tag TagFunc.tagLevel,
            Item.literal 93, Item.literal 32, Item.tag TagFunc.tagMsg, Item.tag TagFunc.tagN])) :=
  ⟨by decide, by decide,
    (C3_format_substitutes_in_template_order asciiLetters (lit "%ns [%level] %msg%n") []
      { fmtStringOriginal := lit "%ns [%level] %msg%n", fmtString := lit "%v [%v] %v%v",
        allowedTags := [],
        tagFuncs := [TagFunc.tagNs, TagFunc.tagLevel, TagFunc.tagMsg, TagFunc.tagN] }
      [Item.tag TagFunc.tagNs, Item.literal 32, Item.literal 91, Item.tag TagFunc.tagLevel,
        Item.literal 93, Item.literal 32, Item.tag TagFunc.tagMsg, Item.tag TagFunc.tagN]
      (by decide) (by decide) (by decide) (by decide)).1⟩

/-- C8: the constructor is claimed never to fault. On `%date(abc`, a
parametrized tag followed by `(` without a closing `)`, `findparameter` slices
with a high bound below the low bound and the constructor panics. -/
theorem C8_unclosed_parameter_faults :
    ∀ L : Nat → Bool,
      newFormatter L (lit "%date(abc") [] = Res.fault ∧
      findparameter
        { fmtStringOriginal := lit "%date(abc", fmtString := [], allowedTags := [], tagFuncs := [] }
        5 = Res.fault := by
  intro L
  exact ⟨rfl, rfl⟩

/-- A template without two adjacent `%` bytes has no escape item. -/
theorem templateItemsFrom_no_escape (L : Nat → Bool) (f : formatter)
    (hno : ∀ i, ¬ (f.fmtStringOriginal[i]? = some 37 ∧ f.fmtStringOriginal[i + 1]? = some 37)) :
    ∀ (fuel i : Nat) (items : List Item),
      templateItemsFrom L f fuel i = some items → Item.escape ∉ items := by
  intro fuel
  induction fuel with
  | zero => intro i items h; simp [templateItemsFrom] at h
  | succ fuel ih =>
    intro i items h
    unfold templateItemsFrom at h
    split at h
    · simp only [Option.some.injEq] at h
      rw [← h]; simp
    · split at h
      · simp at h
      · rename_i char hchar
        split at h
        · obtain ⟨rest, hrest, heq⟩ := Option.map_eq_some'.mp h
          rw [← heq]
          simp only [List.mem_cons, not_or]
          exact ⟨by simp, ih _ _ hrest⟩
        · rename_i hc
          split at h
          · simp at h
          · rename_i next hnext
            split at h
            · rename_i hn
              exfalso
              apply hno i
              simp only [ne_eq, Decidable.not_not] at hc
              rw [hchar, hnext, hc, hn]
              exact ⟨rfl, rfl⟩
            · split at h
              · obtain ⟨rest, hrest, heq⟩ := Option.map_eq_some'.mp h
                rw [← heq]
                simp only [List.mem_cons, not_or]
                exact ⟨by simp, ih _ _ hrest⟩
              · simp at h

/-! ## Claims on tag resolution -/

/-- C5: the letters of a run left after the longest zero-argument tag name are
claimed to be rendered as literal text. On `%msgé` the run is `msgé`, the tag
resolved is `msg`, and the two bytes C3 A9 of the remaining letter come out as
C3 83 C2 A9: they take the literal branch of `buildTagFuncs` and its
`string(char)` conversion, the defect of C1. -/
theorem C5_letters_after_tag_converted :
    ∀ (now : GoTime) (message : GoString) (level : LogLevel) (context : RuntimeContext),
      extractLetterSequence asciiLetters
          { fmtStringOriginal := 37 :: (lit "msg" ++ [0xC3, 0xA9]), fmtString := [],
            allowedTags := [], tagFuncs := [] } 1 = lit "msg" ++ [0xC3, 0xA9] ∧
      extractTagFunc asciiLetters
          { fmtStringOriginal := 37 :: (lit "msg" ++ [0xC3, 0xA9]), fmtString := [],
            allowedTags := [], tagFuncs := [] } 1 = .ok (TagFunc.tagMsg, 3) ∧
      render asciiLetters (37 :: (lit "msg" ++ [0xC3, 0xA9])) [] now message level context =
        some (message ++ [0xC3, 0x83, 0xC2, 0xA9]) ∧
      render asciiLetters (37 :: (lit "msg" ++ [0xC3, 0xA9])) [] now message level context ≠
        some (message ++ [0xC3, 0xA9]) := by
  intro now message level context
  have hnf : newFormatter asciiLetters (37 :: (lit "msg" ++ [0xC3, 0xA9])) [] =
      .ok { fmtStringOriginal := 37 :: (lit "msg" ++ [0xC3, 0xA9]),
            fmtString := lit "%v" ++ [0xC3, 0x83, 0xC2, 0xA9], allowedTags := [],
            tagFuncs := [TagFunc.tagMsg] } := by decide
  have hr : render asciiLetters (37 :: (lit "msg" ++ [0xC3, 0xA9])) [] now message level context =
      some (message ++ [0xC3, 0x83, 0xC2, 0xA9]) := by
    unfold render
    rw [hnf]
    rfl
  refine ⟨by decide, by decide, hr, ?_⟩
  rw [hr]
  intro h
  have h2 := List.append_cancel_left (Option.some.inj h)
  exact absurd h2 (by decide)

/-- C6, as stated, fails: under the allowed list `[levels]` the template
`%levels` compiles, because the guard compares the whole letter run with the
list, and the tag resolved is `level`, which is not in the list. -/
theorem C6_counterexample_resolved_tag_outside_list :
    newFormatter asciiLetters (lit "%levels") [lit "levels"] =
      .ok { fmtStringOriginal := lit "%levels", fmtString := lit "%vs",
            allowedTags := [lit "levels"], tagFuncs := [TagFunc.tagLevel] } ∧
    tagFuncs (lit "level") = some TagFunc.tagLevel ∧
    TagFunc.tagLevel.name = lit "level" ∧
    lit "level" ∉ [lit "levels"] := by
  decide

/-- C6, amended: for a non-empty allowed list all of whose members are tag
names (keys of `tagFuncs` or `tagWithParamFuncCreator`), every tag function of
a formatter that `newFormatter` returns is registered under a name of the
list. -/
theorem C6_resolved_tags_in_allowed_names (L : Nat → Bool) (template : GoString)
    (allowedTags : List GoString) (f : formatter)
    (hA : allowedTags ≠ [])
    (hnames : ∀ a ∈ allowedTags, isTagName a = true)
    (hok : newFormatter L template allowedTags = .ok f) :
    ∀ fn ∈ f.tagFuncs, fn.name ∈ allowedTags := by
  unfold newFormatter buildTagFuncs at hok
  split at hok
  · rename_i fs fns hb
    simp only [Res.ok.injEq] at hok
    rw [← hok]
    exact buildLoop_funcs L _ (fun fn => fn.name ∈ allowedTags)
      (fun index fn nextI hex =>
        extractTagFunc_name_allowed L
          { fmtStringOriginal := template, fmtString := [], allowedTags := allowedTags,
            tagFuncs := [] } index fn nextI hA hnames hex)
      _ _ _ _ _ hb (by simp)
  · simp at hok
  · simp at hok
  · simp at hok

/-- C6 at the file-name template `%date(2006)-%level` under the list of the
rule file writer. -/
theorem C6_resolved_tags_in_allowed_names_witness :
    [lit "date", lit "level", lit "LV", lit "lv"] ≠ [] ∧
    (∀ a ∈ [lit "date", lit "level", lit "LV", lit "lv"], isTagName a = true) ∧
    newFormatter asciiLetters (lit "%date(2006)-%level") [lit "date", lit "level", lit "LV", lit "lv"] =
      .ok { fmtStringOriginal := lit "%date(2006)-%level", fmtString := lit "%v-%v",
            allowedTags := [lit "date", lit "level", lit "LV", lit "lv"],
            tagFuncs := [TagFunc.dateTimeClosure (lit "2006"), TagFunc.tagLevel] } ∧
    (∀ fn ∈ [TagFunc.dateTimeClosure (lit "2006"), TagFunc.tagLevel],
      fn.name ∈ [lit "date", lit "level", lit "LV", lit "lv"]) :=
  ⟨by decide, by decide, by decide,
    C6_resolved_tags_in_allowed_names asciiLetters (lit "%date(2006)-%level")
      [lit "date", lit "level", lit "LV", lit "lv"]
      { fmtStringOriginal := lit "%date(2006)-%level", fmtString := lit "%v-%v",
        allowedTags := [lit "date", lit "level", lit "LV", lit "lv"],
        tagFuncs := [TagFunc.dateTimeClosure (lit "2006"), TagFunc.tagLevel] }
      (by decide) (by decide) (by decide)⟩

/-- C7: for a parametrized tag `name` (`date`, `escm`) whose run passes the
allowed-tag guard: when the collected run equals the name and `(p)` follows, the
tag is built with `p` and ends at the first `)`; when the run equals the name
and no `(` follows, or the name is only a proper prefix of the run, the tag is
built with the empty parameter and ends with its name. `%escm(31)` renders
ESC[31m and `%datex(y)` the default-format date followed by `x(y)`. -/
theorem C7_parametrized_tag_parameter (L : Nat → Bool) (f : formatter) (index : Nat)
    (name : GoString) (creator : GoString → TagFunc)
    (hkey : tagWithParamFuncCreator name = some creator)
    (hallow : passesAllowed f (extractLetterSequence L f index)) :
    (∀ p post, extractLetterSequence L f index = name →
      f.fmtStringOriginal.drop (index + name.length) = 40 :: (p ++ 41 :: post) → 41 ∉ p →
      extractTagFunc L f index = .ok (creator p, index + name.length + p.length + 1)) ∧
    (extractLetterSequence L f index = name → index ≤ f.fmtStringOriginal.length →
      f.fmtStringOriginal[index + name.length]? ≠ some 40 →
      extractTagFunc L f index = .ok (creator [], index + name.length - 1)) ∧
    (∀ more, more ≠ [] → extractLetterSequence L f index = name ++ more →
      extractTagFunc L f index = .ok (creator [], index + name.length - 1)) ∧
    (∀ now message level context,
      render asciiLetters (lit "%escm(31)") [] now message level context =
        some ([0x1B] ++ lit "[31m")) ∧
    (∀ now message level context,
      render asciiLetters (lit "%datex(y)") [] now message level context =
        some (now.Format (lit "2006-01-02") ++ lit "x(y)")) := by
  refine ⟨?_, ?_, ?_, ?_, ?_⟩
  · intro p post hrun hdrop hp
    have hz : ∀ j, 1 ≤ j → j ≤ (extractLetterSequence L f index).length →
        tagFuncs ((extractLetterSequence L f index).take j) = none := by
      rw [hrun]; exact tagWithParam_no_zero_prefix hkey
    rw [extractTagFunc_param_exact L f index creator hallow hz (by rw [hrun]; exact hkey), hrun,
      findparameter_found f (index + name.length) p post hdrop hp]
    simp only [if_true, Res.ok.injEq, Prod.mk.injEq, true_and]
    omega
  · intro hrun hi hno
    have hz : ∀ j, 1 ≤ j → j ≤ (extractLetterSequence L f index).length →
        tagFuncs ((extractLetterSequence L f index).take j) = none := by
      rw [hrun]; exact tagWithParam_no_zero_prefix hkey
    have hlen := extractLetterSequence_length L f index hi
    rw [hrun] at hlen
    rw [extractTagFunc_param_exact L f index creator hallow hz (by rw [hrun]; exact hkey), hrun,
      findparameter_absent f (index + name.length) hlen hno]
    simp
  · intro more hmore hrun
    exact extractTagFunc_param_extended L f index name more creator hkey hallow hmore hrun
  · intro now message level context
    have hnf : newFormatter asciiLetters (lit "%escm(31)") [] =
        .ok { fmtStringOriginal := lit "%escm(31)", fmtString := lit "%v", allowedTags := [],
              tagFuncs := [TagFunc.ansiEscapeClosure (lit "31")] } := by decide
    unfold render
    rw [hnf]
    rfl
  · intro now message level context
    have hnf : newFormatter asciiLetters (lit "%datex(y)") [] =
        .ok { fmtStringOriginal := lit "%datex(y)", fmtString := lit "%vx(y)", allowedTags := [],
              tagFuncs := [TagFunc.dateTimeClosure (lit "2006-01-02")] } := by decide
    unfold render
    rw [hnf]
    rfl

/-- C7 at `%escm(31)`: the run `escm` is followed by `(31)`. -/
theorem C7_parametrized_tag_parameter_witness :
    tagWithParamFuncCreator (lit "escm") = some createANSIEscapeFunc ∧
    passesAllowed
      { fmtStringOriginal := lit "%escm(31)", fmtString := [], allowedTags := [], tagFuncs := [] }
      (extractLetterSequence asciiLetters
        { fmtStringOriginal := lit "%escm(31)", fmtString := [], allowedTags := [],
          tagFuncs := [] } 1) ∧
    extractTagFunc asciiLetters
        { fmtStringOriginal := lit "%escm(31)", fmtString := [], allowedTags := [],
          tagFuncs := [] } 1 =
      .ok (createANSIEscapeFunc (lit "31"), 1 + (lit "escm").length + (lit "31").length + 1) :=
  ⟨rfl, Or.inl rfl,
    (C7_parametrized_tag_parameter asciiLetters
      { fmtStringOriginal := lit "%escm(31)", fmtString := [], allowedTags := [], tagFuncs := [] }
      1 (lit "escm") createANSIEscapeFunc rfl (Or.inl rfl)).1 (lit "31") [] (by decide)
      (by decide) (by decide)⟩

/-! ## Claim on compile errors -/

/-- C4, as stated, fails: the template `%date(%1)` has an unescaped `%`
followed by the non-letter `1`, and it compiles: the text between the
parentheses is the parameter of `date` and is not scanned. -/
theorem C4_counterexample_marker_inside_parameter :
    (lit "%date(%1)")[5]? = some 40 ∧ (lit "%date(%1)")[6]? = some 37 ∧
    (lit "%date(%1)")[7]? = some 49 ∧ isLetter asciiLetters 49 = false ∧
    newFormatter asciiLetters (lit "%date(%1)") [] =
      .ok { fmtStringOriginal := lit "%date(%1)", fmtString := lit "%v", allowedTags := [],
            tagFuncs := [TagFunc.dateTimeClosure (lit "%1")] } := by
  decide

/-- C4, amended: when a template `p` compiles, `p` followed by `%` does not
compile if the `%` is the last byte, or is followed by a byte other than `%`
that does not start a letter, or is followed by a letter run of which no
non-empty prefix is a tag name: the constructor returns an error (as for
`abc%`, `%1`, `%zz`). -/
theorem C4_reached_marker_errors (L : Nat → Bool) (p : GoString) (A : List GoString)
    (f : formatter) (hp : newFormatter L p A = .ok f) :
    (newFormatter L (p ++ [37]) A).isError = true ∧
    (∀ c rest, c ≠ 37 → isLetter L (decodeRune (c :: rest)).1 = false →
      (newFormatter L (p ++ 37 :: c :: rest) A).isError = true) ∧
    (∀ c rest, c ≠ 37 →
      (∀ j, 1 ≤ j → j ≤ (letterRun L (c :: rest)).length →
        tagFuncs ((letterRun L (c :: rest)).take j) = none ∧
        tagWithParamFuncCreator ((letterRun L (c :: rest)).take j) = none) →
      (newFormatter L (p ++ 37 :: c :: rest) A).isError = true) ∧
    (newFormatter asciiLetters (lit "abc%") []).isError = true ∧
    (newFormatter asciiLetters (lit "%1") []).isError = true ∧
    (newFormatter asciiLetters (lit "%zz") []).isError = true := by
  have hdrop : ∀ c rest, (p ++ 37 :: c :: rest).drop (p.length + 1) = c :: rest := by
    intro c rest
    rw [List.drop_append]
    rfl
  refine ⟨?_, ?_, ?_, by decide, by decide, by decide⟩
  · exact newFormatter_marker_error L p [] A f hp (Or.inl rfl)
  · intro c rest hc hl
    apply newFormatter_marker_error L p (c :: rest) A f hp
    refine Or.inr ⟨c, rest, rfl, hc, ?_⟩
    apply extractTagFunc_empty_run
    rw [extractLetterSequence_eq_letterRun]
    simp only [hdrop]
    exact letterRun_non_letter L _ hl
  · intro c rest hc hno
    apply newFormatter_marker_error L p (c :: rest) A f hp
    refine Or.inr ⟨c, rest, rfl, hc, ?_⟩
    have hrun : extractLetterSequence L
        { fmtStringOriginal := p ++ 37 :: c :: rest, fmtString := [], allowedTags := A,
          tagFuncs := [] } (p.length + 1) = letterRun L (c :: rest) := by
      rw [extractLetterSequence_eq_letterRun]
      simp only [hdrop]
    apply extractTagFunc_unrecognized
    · rw [hrun]; exact fun j h1 h2 => (hno j h1 h2).1
    · rw [hrun]; exact fun j h1 h2 => (hno j h1 h2).2

/-- C4 after the compiled template `[%level] `: a final `%`, `%1` and `%zz`. -/
theorem C4_reached_marker_errors_witness :
    newFormatter asciiLetters (lit "[%level] ") [] =
      .ok { fmtStringOriginal := lit "[%level] ", fmtString := lit "[%v] ", allowedTags := [],
            tagFuncs := [TagFunc.tagLevel] } ∧
    (newFormatter asciiLetters (lit "[%level] " ++ [37]) []).isError = true ∧
    (newFormatter asciiLetters (lit "[%level] " ++ 37 :: 49 :: []) []).isError = true ∧
    (newFormatter asciiLetters (lit "[%level] " ++ 37 :: 122 :: [122]) []).isError = true :=
  ⟨by decide,
    (C4_reached_marker_errors asciiLetters (lit "[%level] ") []
      { fmtStringOriginal := lit "[%level] ", fmtString := lit "[%v] ", allowedTags := [],
        tagFuncs := [TagFunc.tagLevel] } (by decide)).1,
    (C4_reached_marker_errors asciiLetters (lit "[%level] ") []
      { fmtStringOriginal := lit "[%level] ", fmtString := lit "[%v] ", allowedTags := [],
        tagFuncs := [TagFunc.tagLevel] } (by decide)).2.1 49 [] (by decide) (by decide),
    (C4_reached_marker_errors asciiLetters (lit "[%level] ") []
      { fmtStringOriginal := lit "[%level] ", fmtString := lit "[%v] ", allowedTags := [],
        tagFuncs := [TagFunc.tagLevel] } (by decide)).2.2.1 122 [122] (by decide)
      (by
        intro j h1 h2
        have hrun : letterRun asciiLetters [122, 122] = [122, 122] := by decide
        rw [hrun] at h2 ⊢
        simp only [List.length_cons, List.length_nil] at h2
        interval_cases j <;> exact ⟨rfl, rfl⟩)⟩

/-! ## The queue: order and level filter -/

theorem drain_dispatched : ∀ (q : List logMessage) (st : Pipeline),
    (drain q st).dispatched = st.dispatched ++ q ∧ (drain q st).submitted = st.submitted ∧
      (drain q st).logMessages = [] := by
  intro q
  induction q with
  | nil => intro st; simp [drain]
  | cons lm rest ih =>
    intro st
    obtain ⟨h1, h2, h3⟩ := ih (dispatch st lm)
    simp only [drain]
    refine ⟨?_, ?_, h3⟩
    · rw [h1]; simp [dispatch]
    · rw [h2]; rfl

/-- The records dispatched so far followed by the buffered ones are the
submitted records of the level range, in submission order. -/
theorem run_invariant (log : logger) :
    ∀ (events : List PipelineEvent) (st0 st : Pipeline),
      st0.dispatched ++ st0.logMessages = st0.submitted.filter (levelInRange log) →
      Pipeline.run log st0 events = some st →
      st.dispatched ++ st.logMessages = st.submitted.filter (levelInRange log) := by
  intro events
  induction events with
  | nil =>
    intro st0 st h0 h
    simp only [Pipeline.run, Option.some.injEq] at h
    rw [← h]; exact h0
  | cons e events ih =>
    intro st0 st h0 h
    cases e with
    | submit lm =>
      simp only [Pipeline.run] at h
      split at h
      · cases h
      · rename_i st2 hpush
        refine ih st2 st ?_ h
        unfold pushLogMessageToChannel at hpush
        split at hpush
        · rename_i hin
          split at hpush
          · simp only [Option.some.injEq] at hpush
            rw [← hpush]
            have : levelInRange log lm = true := by simp [levelInRange, hin]
            simp only [List.filter_append, List.filter_cons, List.filter_nil, this, if_true]
            rw [← List.append_assoc, h0]
          · cases hpush
        · rename_i hout
          simp only [Option.some.injEq] at hpush
          rw [← hpush]
          have : levelInRange log lm = false := by
            simp only [levelInRange, Bool.and_eq_false_iff, decide_eq_false_iff_not]
            by_cases h1 : lm.level ≥ log.minLevel
            · right; exact fun h2 => hout ⟨h1, h2⟩
            · left; exact h1
          simp only [List.filter_append, List.filter_cons, List.filter_nil, this]
          simpa using h0
    | receive =>
      simp only [Pipeline.run] at h
      split at h
      · cases h
      · rename_i st2 hrecv
        refine ih st2 st ?_ h
        unfold receiveAndDispatch at hrecv
        split at hrecv
        · cases hrecv
        · rename_i lm rest hq
          simp only [Option.some.injEq] at hrecv
          rw [← hrecv]
          simp only [dispatch, List.append_assoc, List.singleton_append]
          rw [← hq]; exact h0

/-- The submitted list of a run grows by the records of its submissions. -/
theorem run_submitted (log : logger) :
    ∀ (events : List PipelineEvent) (st0 st : Pipeline),
      Pipeline.run log st0 events = some st →
      st.submitted = st0.submitted ++ submittedOf events := by
  intro events
  induction events with
  | nil =>
    intro st0 st h
    simp only [Pipeline.run, Option.some.injEq] at h
    rw [← h]; simp [submittedOf]
  | cons e events ih =>
    intro st0 st h
    cases e with
    | submit lm =>
      simp only [Pipeline.run] at h
      split at h
      · cases h
      · rename_i st2 hpush
        rw [ih st2 st h]
        unfold pushLogMessageToChannel at hpush
        split at hpush
        · split at hpush
          · simp only [Option.some.injEq] at hpush
            rw [← hpush]; simp [submittedOf]
          · cases hpush
        · simp only [Option.some.injEq] at hpush
          rw [← hpush]; simp [submittedOf]
    | receive =>
      simp only [Pipeline.run] at h
      split at h
      · cases h
      · rename_i st2 hrecv
        rw [ih st2 st h]
        unfold receiveAndDispatch at hrecv
        split at hrecv
        · cases hrecv
        · simp only [Option.some.injEq] at hrecv
          rw [← hrecv]; simp [submittedOf, dispatch]

/-- Submissions of records of the level range complete while the buffer has
room, and keep their order. -/
theorem run_submits (log : logger) :
    ∀ (rs : List logMessage) (st : Pipeline),
      st.logMessages.length + rs.length ≤ logMessagesCap →
      (∀ lm ∈ rs, log.minLevel ≤ lm.level ∧ lm.level ≤ log.maxLevel) →
      Pipeline.run log st (rs.map PipelineEvent.submit) =
        some { logMessages := st.logMessages ++ rs, submitted := st.submitted ++ rs,
               dispatched := st.dispatched } := by
  intro rs
  induction rs with
  | nil => intro st _ _; simp [Pipeline.run]
  | cons lm rs ih =>
    intro st hcap hin
    have h1 := hin lm (by simp)
    have h2 : lm.level ≥ log.minLevel ∧ lm.level ≤ log.maxLevel := ⟨h1.1, h1.2⟩
    simp only [List.length_cons] at hcap
    have h3 : st.logMessages.length < logMessagesCap := by omega
    simp only [List.map_cons, Pipeline.run, pushLogMessageToChannel, h2, and_self, if_true, h3]
    rw [ih _ (by simp only [List.length_append, List.length_cons, List.length_nil]; omega)
      (fun x hx => hin x (by simp [hx]))]
    simp

/-- C9: with the queue as a FIFO list and one consumer, after any sequence of
completed submissions and receives followed by the consumer draining the
channel, the records passed to `Dispatch` are exactly the submitted records
whose level lies in [minLevel, maxLevel], in submission order; 100 submitted
records of the range give these 100 dispatches in order. -/
theorem C9_dispatch_order_and_level_filter (log : logger) (events : List PipelineEvent)
    (st : Pipeline) (hrun : Pipeline.run log Pipeline.init events = some st) :
    st.submitted = submittedOf events ∧
    st.dispatched ++ st.logMessages = st.submitted.filter (levelInRange log) ∧
    (dispatchLogMessage st).dispatched = st.submitted.filter (levelInRange log) ∧
    (dispatchLogMessage st).submitted = st.submitted ∧
    (∀ lm ∈ (dispatchLogMessage st).dispatched,
      log.minLevel ≤ lm.level ∧ lm.level ≤ log.maxLevel) ∧
    (∀ rs : List logMessage, rs.length = 100 →
      (∀ lm ∈ rs, log.minLevel ≤ lm.level ∧ lm.level ≤ log.maxLevel) →
      ∃ st2, Pipeline.run log Pipeline.init (rs.map PipelineEvent.submit) = some st2 ∧
        st2.submitted = rs ∧ (dispatchLogMessage st2).dispatched = rs) := by
  have hinv := run_invariant log events Pipeline.init st (by simp [Pipeline.init]) hrun
  have hd := drain_dispatched st.logMessages st
  have hdisp : (dispatchLogMessage st).dispatched = st.submitted.filter (levelInRange log) := by
    unfold dispatchLogMessage; rw [hd.1, hinv]
  refine ⟨by simpa [Pipeline.init] using run_submitted log events Pipeline.init st hrun,
    hinv, hdisp, hd.2.1, ?_, ?_⟩
  · intro lm hlm
    rw [hdisp] at hlm
    have := (List.mem_filter.mp hlm).2
    simp only [levelInRange, Bool.and_eq_true, decide_eq_true_eq] at this
    exact ⟨this.1, this.2⟩
  · intro rs hlen hin
    refine ⟨_, run_submits log rs Pipeline.init
      (by simp only [Pipeline.init, List.length_nil, logMessagesCap]; omega) hin, ?_, ?_⟩
    · simp [Pipeline.init]
    · unfold dispatchLogMessage
      rw [(drain_dispatched _ _).1]
      simp [Pipeline.init]

/-- C9 on a run with one record below the range, two in the range and a receive
in between. -/
theorem C9_dispatch_order_and_level_filter_witness :
    Pipeline.run { maxLevel := LvCritical, minLevel := LvDebug } Pipeline.init
        [PipelineEvent.submit { level := LvInfo, message := lit "a", context := sampleContext },
         PipelineEvent.submit { level := LvTrace, message := lit "b", context := sampleContext },
         PipelineEvent.receive,
         PipelineEvent.submit { level := LvError, message := lit "c", context := sampleContext }] =
      some
        { logMessages := [{ level := LvError, message := lit "c", context := sampleContext }],
          submitted :=
            [{ level := LvInfo, message := lit "a", context := sampleContext },
             { level := LvTrace, message := lit "b", context := sampleContext },
             { level := LvError, message := lit "c", context := sampleContext }],
          dispatched := [{ level := LvInfo, message := lit "a", context := sampleContext }] } ∧
    (dispatchLogMessage
        { logMessages := [{ level := LvError, message := lit "c", context := sampleContext }],
          submitted :=
            [{ level := LvInfo, message := lit "a", context := sampleContext },
             { level := LvTrace, message := lit "b", context := sampleContext },
             { level := LvError, message := lit "c", context := sampleContext }],
          dispatched := [{ level := LvInfo, message := lit "a", context := sampleContext }] }).dispatched =
      List.filter (levelInRange { maxLevel := LvCritical, minLevel := LvDebug })
        [{ level := LvInfo, message := lit "a", context := sampleContext },
         { level := LvTrace, message := lit "b", context := sampleContext },
         { level := LvError, message := lit "c", context := sampleContext }] :=
  ⟨rfl,
    (C9_dispatch_order_and_level_filter { maxLevel := LvCritical, minLevel := LvDebug }
      [PipelineEvent.submit { level := LvInfo, message := lit "a", context := sampleContext },
       PipelineEvent.submit { level := LvTrace, message := lit "b", context := sampleContext },
       PipelineEvent.receive,
       PipelineEvent.submit { level := LvError, message := lit "c", context := sampleContext }]
      _ rfl).2.2.1⟩

/-! ## The sink adapter -/

/-- C10, as stated, fails on an adapter without a sink: `Close` leaves the
adapter with a nil `writer`, and a `Write` at an allowed level then makes no
call on a sink and returns the error of the nil dereference, which the deferred
`recover` turns into the result. -/
theorem C10_counterexample_adapter_without_sink :
    workingAdapter.Close = .ok ({ workingAdapter with writer := none }, none) ∧
    ({ workingAdapter with writer := none } : formattedWriter).allowedLevelList LvInfo =
      some true ∧
    formattedWriter.Write { workingAdapter with writer := none } sampleTime (lit "hello")
        LvInfo sampleContext =
      some { err := some nilDereference, sinkCalls := [],
             runtimeErrors := [nilDereference] } :=
  ⟨rfl, rfl, rfl⟩

/-- C10, amended: when `allowedLevelList` does not map the level to true, `Write`
returns nil and the sink receives no call, for every adapter; when it maps the
level to true and the adapter holds a sink (`writer` is not nil), the sink's
`Write` is called exactly once, with the bytes of `Format(message, level,
context)`, and `Write` returns the sink's error when the sink returns, the
error the sink panicked with when it panics with one, and nil when it panics
with another value. -/
theorem C10_write_gated_by_allowed_level (fw : formattedWriter) (now : GoTime)
    (message : GoString) (level : LogLevel) (context : RuntimeContext) :
    (fw.allowedLevelList level ≠ some true →
      fw.Write now message level context =
        some { err := none, sinkCalls := [], runtimeErrors := [] }) ∧
    (∀ (sink : Sink) (str : GoString),
      fw.allowedLevelList level = some true → fw.writer = some sink →
      fw.formatter.Format now message level context = some str →
      ∃ out, fw.Write now message level context = some out ∧
        writeCalls out.sinkCalls = [str] ∧
        (∀ n err, sink.Write str = SinkResult.returned n err →
          out.err = err ∧ out.runtimeErrors = []) ∧
        (∀ e, sink.Write str = SinkResult.panicError e →
          out.err = some e ∧ out.runtimeErrors = [e]) ∧
        (sink.Write str = SinkResult.panicOther → out.err = none ∧ out.runtimeErrors = [])) := by
  constructor
  · intro h
    unfold formattedWriter.Write
    rw [if_neg h]
  · intro sink str hallow hw hfmt
    have hcalls : writeCalls
        ((if sink.isRuleFileWriter then [SinkCall.formatFileName level context] else []) ++
          [SinkCall.write str]) = [str] := by
      by_cases hr : sink.isRuleFileWriter = true
      · simp [hr, writeCalls]
      · simp [hr, writeCalls]
    unfold formattedWriter.Write
    rw [if_pos hallow, hfmt, hw]
    cases hs : sink.Write str with
    | returned n err =>
      simp only [hs]
      refine ⟨_, rfl, hcalls, ?_, ?_, ?_⟩
      · intro n1 err1 h
        cases h
        exact ⟨rfl, rfl⟩
      · intro e h; cases h
      · intro h; cases h
    | panicError e =>
      simp only [hs]
      refine ⟨_, rfl, hcalls, ?_, ?_, ?_⟩
      · intro n1 err1 h; cases h
      · intro e1 h
        cases h
        exact ⟨rfl, rfl⟩
      · intro h; cases h
    | panicOther =>
      simp only [hs]
      refine ⟨_, rfl, hcalls, ?_, ?_, ?_⟩
      · intro n1 err1 h; cases h
      · intro e h; cases h
      · intro _; exact ⟨rfl, rfl⟩

/-- C10 as amended, on an adapter that allows only Error and Critical, with the
format `%msg` and a sink that reports an error. -/
theorem C10_write_gated_by_allowed_level_witness :
    (formattedWriter.Write
        { writer := some { isRuleFileWriter := false,
                           Write := fun _ => SinkResult.returned 0 (some (lit "disk full")) },
          formatter := { fmtStringOriginal := lit "%msg", fmtString := lit "%v",
                         allowedTags := [], tagFuncs := [TagFunc.tagMsg] },
          allowedLevelList := fun l => if l = LvError ∨ l = LvCritical then some true else none }
        sampleTime (lit "hello") LvWarn sampleContext =
      some { err := none, sinkCalls := [], runtimeErrors := [] }) ∧
    (∃ out,
      formattedWriter.Write
        { writer := some { isRuleFileWriter := false,
                           Write := fun _ => SinkResult.returned 0 (some (lit "disk full")) },
          formatter := { fmtStringOriginal := lit "%msg", fmtString := lit "%v",
                         allowedTags := [], tagFuncs := [TagFunc.tagMsg] },
          allowedLevelList := fun l => if l = LvError ∨ l = LvCritical then some true else none }
        sampleTime (lit "hello") LvError sampleContext = some out ∧
      out.err = some (lit "disk full") ∧ writeCalls out.sinkCalls = [lit "hello"] ∧
      out.runtimeErrors = []) :=
  ⟨(C10_write_gated_by_allowed_level _ sampleTime (lit "hello") LvWarn sampleContext).1
      (by decide),
    match (C10_write_gated_by_allowed_level
        { writer := some { isRuleFileWriter := false,
                           Write := fun _ => SinkResult.returned 0 (some (lit "disk full")) },
          formatter := { fmtStringOriginal := lit "%msg", fmtString := lit "%v",
                         allowedTags := [], tagFuncs := [TagFunc.tagMsg] },
          allowedLevelList := fun l => if l = LvError ∨ l = LvCritical then some true else none }
        sampleTime (lit "hello") LvError sampleContext).2
      { isRuleFileWriter := false,
        Write := fun _ => SinkResult.returned 0 (some (lit "disk full")) }
      (lit "hello") (by decide) rfl rfl with
    | ⟨out, h1, h2, h3, _, _⟩ =>
      ⟨out, h1, (h3 0 (some (lit "disk full")) rfl).1, h2,
        (h3 0 (some (lit "disk full")) rfl).2⟩⟩

/-! ## Decimal text: `strconv.Itoa` and `strconv.Atoi` -/

theorem digitChar_toNat (d : Nat) (hd : d < 10) : (Nat.digitChar d).toNat = 48 + d := by
  interval_cases d <;> rfl

theorem toDigitsCore_append : ∀ (fuel n : Nat) (ds : List Char),
    Nat.toDigitsCore 10 fuel n ds = Nat.toDigitsCore 10 fuel n [] ++ ds := by
  intro fuel
  induction fuel with
  | zero => intro n ds; simp [Nat.toDigitsCore]
  | succ fuel ih =>
    intro n ds
    simp only [Nat.toDigitsCore]
    split_ifs with h
    · simp
    · rw [ih (n / 10) (Nat.digitChar (n % 10) :: ds), ih (n / 10) [Nat.digitChar (n % 10)]]
      simp

theorem decimalValue_append (xs : GoString) (d : Nat) :
    decimalValue (xs ++ [d]) = decimalValue xs * 10 + (d - 48) := by
  simp [decimalValue, List.foldl_append]

/-- The digits written by `toDigitsCore`: decimal digits, not empty, without a
leading zero for a positive number, and their value is the number. -/
theorem toDigitsCore_spec : ∀ (fuel n : Nat), n < fuel →
    ((Nat.toDigitsCore 10 fuel n []).map Char.toNat).all isDigit = true ∧
    decimalValue ((Nat.toDigitsCore 10 fuel n []).map Char.toNat) = n ∧
    (Nat.toDigitsCore 10 fuel n []).map Char.toNat ≠ [] ∧
    (n ≠ 0 → ((Nat.toDigitsCore 10 fuel n []).map Char.toNat).head? ≠ some 48) := by
  intro fuel
  induction fuel with
  | zero => intro n h; omega
  | succ fuel ih =>
    intro n hn
    have hd : n % 10 < 10 := Nat.mod_lt _ (by omega)
    have hdc := digitChar_toNat (n % 10) hd
    simp only [Nat.toDigitsCore]
    split_ifs with h
    · have hn10 : n < 10 := by omega
      have hmod : n % 10 = n := Nat.mod_eq_of_lt hn10
      refine ⟨?_, ?_, by simp, ?_⟩
      · simp only [List.map_cons, List.map_nil, hdc, List.all_cons, List.all_nil, Bool.and_true,
          isDigit, Bool.and_eq_true, decide_eq_true_eq]
        omega
      · simp only [List.map_cons, List.map_nil, hdc, decimalValue, List.foldl_cons,
          List.foldl_nil]
        omega
      · intro hne
        simp only [List.map_cons, List.map_nil, hdc, List.head?_cons, ne_eq, Option.some.injEq]
        omega
    · have hlt : n / 10 < fuel := by omega
      obtain ⟨h1, h2, h3, h4⟩ := ih (n / 10) hlt
      rw [toDigitsCore_append, List.map_append]
      refine ⟨?_, ?_, by simp [h3], ?_⟩
      · simp only [List.all_append, h1, List.map_cons, List.map_nil, hdc, List.all_cons,
          List.all_nil, Bool.and_true, Bool.true_and, isDigit, Bool.and_eq_true,
          decide_eq_true_eq]
        omega
      · simp only [List.map_cons, List.map_nil, hdc]
        rw [decimalValue_append, h2]
        omega
      · intro _
        have := h4 h
        cases hx : (Nat.toDigitsCore 10 fuel (n / 10) []).map Char.toNat with
        | nil => exact absurd hx h3
        | cons a rest =>
          rw [hx] at this
          simpa using this

/-- The text of `strconv.Itoa` on a natural number. -/
theorem itoa_spec (n : Nat) :
    (itoa n).all isDigit = true ∧ decimalValue (itoa n) = n ∧ itoa n ≠ [] ∧
      (n ≠ 0 → (itoa n).head? ≠ some 48) :=
  toDigitsCore_spec (n + 1) n (by omega)

theorem itoaInt_ne_nil (c : Int) : itoaInt c ≠ [] := by
  cases c with
  | ofNat n => exact (itoa_spec n).2.2.1
  | negSucc n => simp [itoaInt]

theorem decimalValue_zeros (k : Nat) (s : GoString) :
    decimalValue (List.replicate k 48 ++ s) = decimalValue s := by
  induction k with
  | zero => simp
  | succ k ih =>
    simp only [List.replicate_succ, List.cons_append, decimalValue, List.foldl_cons]
    simpa [decimalValue] using ih

/-- Parsing a string of digits that does not exceed the range of `int`. -/
theorem Atoi_digits (s : GoString) (hne : s ≠ []) (hall : s.all isDigit = true)
    (hrange : decimalValue s < 2 ^ 63) : Atoi s = some (decimalValue s : Int) := by
  match s, hne with
  | c :: t, _ =>
    have hc : isDigit c = true := by
      simp only [List.all_cons, Bool.and_eq_true] at hall
      exact hall.1
    simp only [isDigit, Bool.and_eq_true, decide_eq_true_eq] at hc
    have h43 : c ≠ 43 := by omega
    have h45 : c ≠ 45 := by omega
    have hd : stripSign (c :: t) = c :: t := by
      simp only [stripSign]
      rw [if_neg (by omega)]
    unfold Atoi
    rw [hd, if_neg (by simp [hall])]
    simp only [List.head?_cons, Option.some.injEq, h45, if_false]
    have h1 : ¬ ((decimalValue (c :: t) : Int) < -(2 ^ 63) ∨
        (2 : Int) ^ 63 - 1 < (decimalValue (c :: t) : Int)) := by
      have : ((decimalValue (c :: t) : Nat) : Int) < (2 : Int) ^ 63 := by exact_mod_cast hrange
      omega
    rw [if_neg h1]

/-! ## The numbered file name -/

theorem itoaInt_ofNat (n : Nat) : itoaInt (n : Int) = itoa n := rfl

/-- C14: for a sequence number `n >= 0` (an `int`, so below 2^63) and any digit
width, `getCountNumberSign` returns the decimal digits of `n` with zeros in
front up to the width, of length max(width, number of digits), and
`strconv.Atoi` reads `n` back from it; width 3 and `n = 7` give `007`. -/
theorem C14_count_number_sign (writer : fileWriter) (n : Nat)
    (hn : writer.currentCountNumber = (n : Int)) (hint : n < 2 ^ 63) :
    getCountNumberSign writer =
      List.replicate (writer.autoIncrementNumDigit - ((itoa n).length : Int)).toNat 48 ++
        itoa n ∧
    (itoa n).all isDigit = true ∧ decimalValue (itoa n) = n ∧
    (n ≠ 0 → (itoa n).head? ≠ some 48) ∧
    ((getCountNumberSign writer).length : Int) =
      max writer.autoIncrementNumDigit ((itoa n).length : Int) ∧
    Atoi (getCountNumberSign writer) = some (n : Int) ∧
    getCountNumberSign { writer with autoIncrementNumDigit := 3, currentCountNumber := 7 } =
      lit "007" := by
  obtain ⟨h1, h2, h3, h4⟩ := itoa_spec n
  have hsign : getCountNumberSign writer =
      List.replicate (writer.autoIncrementNumDigit - ((itoa n).length : Int)).toNat 48 ++
        itoa n := by
    unfold getCountNumberSign
    rw [hn, itoaInt_ofNat]
  have hpos : 0 < (itoa n).length := List.length_pos.mpr h3
  refine ⟨hsign, h1, h2, h4, ?_, ?_, rfl⟩
  · rw [hsign, List.length_append, List.length_replicate]
    omega
  · rw [hsign]
    have hv : decimalValue
        (List.replicate (writer.autoIncrementNumDigit - ((itoa n).length : Int)).toNat 48 ++
          itoa n) = n := by
      rw [decimalValue_zeros, h2]
    have := Atoi_digits
      (List.replicate (writer.autoIncrementNumDigit - ((itoa n).length : Int)).toNat 48 ++ itoa n)
      (by simp [h3])
      (by
        rw [List.all_append, h1, Bool.and_true]
        simp [List.all_eq_true, isDigit])
      (by rw [hv]; exact hint)
    rw [this, hv]

/-- C14 at width 3 and number 7. -/
theorem C14_count_number_sign_witness :
    (7 : Int) = ((7 : Nat) : Int) ∧ (7 : Nat) < 2 ^ 63 ∧
    ((getCountNumberSign
      { innerWriter := .nil, fileName := lit "app###.log", filePrefixName := lit "app",
        fileSuffixName := lit ".log", autoIncrementNumDigit := 3, allowedMaxFileSize := 100,
        currentAbsPath := [], currentStorageFileName := [], currentFileSize := 0,
        currentCountNumber := 7, lastWriteTime := 0, isNeedAutoFreeOpenedFile := false,
        lastAutoFreeOpenedFileTimer := none }).length : Int) = max 3 ((itoa 7).length : Int) ∧
    Atoi (getCountNumberSign
      { innerWriter := .nil, fileName := lit "app###.log", filePrefixName := lit "app",
        fileSuffixName := lit ".log", autoIncrementNumDigit := 3, allowedMaxFileSize := 100,
        currentAbsPath := [], currentStorageFileName := [], currentFileSize := 0,
        currentCountNumber := 7, lastWriteTime := 0, isNeedAutoFreeOpenedFile := false,
        lastAutoFreeOpenedFileTimer := none }) = some ((7 : Nat) : Int) :=
  ⟨rfl, by decide,
    (C14_count_number_sign
      { innerWriter := .nil, fileName := lit "app###.log", filePrefixName := lit "app",
        fileSuffixName := lit ".log", autoIncrementNumDigit := 3, allowedMaxFileSize := 100,
        currentAbsPath := [], currentStorageFileName := [], currentFileSize := 0,
        currentCountNumber := 7, lastWriteTime := 0, isNeedAutoFreeOpenedFile := false,
        lastAutoFreeOpenedFileTimer := none } 7 rfl (by decide)).2.2.2.2.1,
    (C14_count_number_sign
      { innerWriter := .nil, fileName := lit "app###.log", filePrefixName := lit "app",
        fileSuffixName := lit ".log", autoIncrementNumDigit := 3, allowedMaxFileSize := 100,
        currentAbsPath := [], currentStorageFileName := [], currentFileSize := 0,
        currentCountNumber := 7, lastWriteTime := 0, isNeedAutoFreeOpenedFile := false,
        lastAutoFreeOpenedFileTimer := none } 7 rfl (by decide)).2.2.2.2.2.1⟩

/-! ## Failures of the first steps of `fileWriter.Write` -/

/-- The folder that `loadOrCreateStorageFileAndInitSomeAttributes` works in. -/
theorem loadOrCreate_mkdir_failure (writer : fileWriter) (os : FileSystem) (e err : GoString)
    (hstat : os.Stat
      (if (splitDir writer.fileName).length = 0 ∨ IsAbs (splitDir writer.fileName) = false then
        os.workingDir ++ splitDir writer.fileName else splitDir writer.fileName) = .notExist e)
    (hmk : os.MkdirAll
      (if (splitDir writer.fileName).length = 0 ∨ IsAbs (splitDir writer.fileName) = false then
        os.workingDir ++ splitDir writer.fileName else splitDir writer.fileName) = some err) :
    loadOrCreateStorageFileAndInitSomeAttributes writer os = (writer, some err) := by
  unfold loadOrCreateStorageFileAndInitSomeAttributes
  simp only [hstat, hmk]

/-- A failure to create the log directory on the first write is returned. -/
theorem fileWriter_Write_mkdir_failure (writer : fileWriter) (os : FileSystem)
    (bytes e err : GoString) (hfirst : writer.currentStorageFileName = [])
    (hstat : os.Stat
      (if (splitDir writer.fileName).length = 0 ∨ IsAbs (splitDir writer.fileName) = false then
        os.workingDir ++ splitDir writer.fileName else splitDir writer.fileName) = .notExist e)
    (hmk : os.MkdirAll
      (if (splitDir writer.fileName).length = 0 ∨ IsAbs (splitDir writer.fileName) = false then
        os.workingDir ++ splitDir writer.fileName else splitDir writer.fileName) = some err) :
    writer.Write os bytes = ({ writer with lastWriteTime := os.now }, 0, some err) := by
  have h := loadOrCreate_mkdir_failure { writer with lastWriteTime := os.now } os e err hstat hmk
  unfold fileWriter.Write
  dsimp only
  rw [if_pos hfirst, h]

/-- A failure to open the target file of a resolved writer that holds no handle
and is below its cap: `Write` returns `(0, nil)`, and the inner writer is the
interface holding the nil file. -/
theorem fileWriter_Write_open_failure (writer : fileWriter) (os : FileSystem)
    (bytes err : GoString) (hres : writer.currentStorageFileName ≠ [])
    (hnil : writer.innerWriter = .nil)
    (hsize : writer.currentFileSize < writer.allowedMaxFileSize)
    (hopen : os.OpenFile writer.currentStorageFileName = some err) :
    writer.Write os bytes =
      ({ writer with lastWriteTime := os.now, innerWriter := .nilFile }, 0, none) := by
  obtain ⟨iw, fn, pre, suf, dig, cap, abs, tgt, sz, cnt, lw, flag, timer⟩ := writer
  simp only at hres hnil hsize hopen
  subst hnil
  simp [fileWriter.Write, rollover, newInnerWriter, hres, hopen, not_le.mpr hsize]

/-- C13: the first `Write` of the writer built by `newFileWriter("app.log", 100,
false)`, in an existing empty directory where `os.OpenFile` fails with
`permission denied`, returns `(0, nil)`: the failure to open the target file is
not returned to the caller. -/
theorem C13_open_failure_returns_nil_error :
    ∃ fw, newFileWriter (lit "app.log") 100 false = .ok fw ∧
      (fw.Write
        { sampleFileSystem with OpenFile := fun _ => some (lit "permission denied") }
        (lit "hello")).2 = (0, none) :=
  ⟨_, rfl, rfl⟩

/-! ## The idle timer of a file writer -/

/-- The method `newInnerWriter` leaves a timer that is nil as it is. -/
theorem newInnerWriter_timer_stays_nil (writer : fileWriter) (os : FileSystem)
    (h : writer.lastAutoFreeOpenedFileTimer = none) :
    (newInnerWriter writer os).1.lastAutoFreeOpenedFileTimer = none := by
  unfold newInnerWriter
  split
  · simp only [h, ne_eq, not_true_eq_false, if_false]
    split <;> rfl
  · exact h

/-- C16: the first `Write` of the writer built by `newFileWriter("app.log", 100,
true)`, in an existing empty directory where every call succeeds, opens
`/w/app000.log` and writes the bytes, and `lastAutoFreeOpenedFileTimer` is still
nil afterwards: the successful open has not armed the idle timer. -/
theorem C16_first_open_leaves_timer_unarmed :
    ∃ fw, newFileWriter (lit "app.log") 100 true = .ok fw ∧
      fw.isNeedAutoFreeOpenedFile = true ∧
      (fw.Write sampleFileSystem (lit "hello")).2 = (5, none) ∧
      (fw.Write sampleFileSystem (lit "hello")).1.innerWriter = .file (lit "/w/app000.log") ∧
      (fw.Write sampleFileSystem (lit "hello")).1.lastAutoFreeOpenedFileTimer = none :=
  ⟨_, rfl, rfl, rfl, rfl, rfl⟩

/-! ## The rollover rule of `fileWriter.Write` -/

theorem wrapInt64_of_range (x : Int) (hlo : -(2 ^ 63) ≤ x) (hhi : x < 2 ^ 63) :
    wrapInt64 x = x := by
  unfold wrapInt64
  omega

theorem wrapInt64_range (x : Int) : -(2 ^ 63) ≤ wrapInt64 x ∧ wrapInt64 x < 2 ^ 63 := by
  unfold wrapInt64
  omega

theorem wrapInt64_add_wrap (x y : Int) : wrapInt64 (wrapInt64 x + y) = wrapInt64 (x + y) := by
  unfold wrapInt64
  omega

theorem getCountNumberSign_ne_nil (writer : fileWriter) : getCountNumberSign writer ≠ [] := by
  unfold getCountNumberSign
  intro h
  have := (List.append_eq_nil.mp h).2
  exact itoaInt_ne_nil _ this

/-- The method `newInnerWriter` changes `lastWriteTime` and the timer only. -/
theorem newInnerWriter_fields (writer : fileWriter) (os : FileSystem) :
    (newInnerWriter writer os).1.currentCountNumber = writer.currentCountNumber ∧
    (newInnerWriter writer os).1.currentStorageFileName = writer.currentStorageFileName ∧
    (newInnerWriter writer os).1.currentFileSize = writer.currentFileSize ∧
    (newInnerWriter writer os).1.fileName = writer.fileName := by
  unfold newInnerWriter
  split
  · dsimp only
    split_ifs <;> exact ⟨rfl, rfl, rfl, rfl⟩
  · exact ⟨rfl, rfl, rfl, rfl⟩

/-- What `newInnerWriter` returns: the file opened at the target and no error,
or the interface holding the nil file and the error of `os.OpenFile`. -/
theorem newInnerWriter_result (writer : fileWriter) (os : FileSystem) :
    (os.OpenFile writer.currentStorageFileName = none ∧
      (newInnerWriter writer os).2 = (.file writer.currentStorageFileName, none)) ∨
    (∃ err, os.OpenFile writer.currentStorageFileName = some err ∧
      (newInnerWriter writer os).2 = (.nilFile, some err)) := by
  unfold newInnerWriter
  split
  · next h =>
    left
    refine ⟨h, ?_⟩
    dsimp only
    split_ifs <;> rfl
  · next err h => exact Or.inr ⟨err, h, rfl⟩

/-- The accounting of `writeToInnerWriter`: the size grows by the bytes written,
within 64 bits, when the write returns no error, and nothing else of the target
changes. -/
theorem writeToInnerWriter_fields (writer : fileWriter) (os : FileSystem) (bytes : GoString) :
    (writeToInnerWriter writer os bytes).1.currentCountNumber = writer.currentCountNumber ∧
    (writeToInnerWriter writer os bytes).1.currentStorageFileName =
      writer.currentStorageFileName ∧
    (writeToInnerWriter writer os bytes).1.innerWriter = writer.innerWriter ∧
    (writeToInnerWriter writer os bytes).1.fileName = writer.fileName ∧
    ((writeToInnerWriter writer os bytes).2.2 = none →
      (writeToInnerWriter writer os bytes).1.currentFileSize =
        wrapInt64 (writer.currentFileSize + (writeToInnerWriter writer os bytes).2.1)) ∧
    ((writeToInnerWriter writer os bytes).2.2 = none → ∃ path, writer.innerWriter = .file path) := by
  unfold writeToInnerWriter
  dsimp only
  split
  · next h =>
    refine ⟨rfl, rfl, rfl, rfl, fun _ => rfl, fun _ => ?_⟩
    split at h
    · next path hp => exact ⟨path, hp⟩
    · simp at h
  · next err h =>
    refine ⟨rfl, rfl, rfl, rfl, fun h2 => ?_, fun h2 => ?_⟩ <;> simp at h2

/-- The rollover step at or over the cap. -/
theorem rollover_at_cap (writer : fileWriter) (os : FileSystem)
    (hcap : writer.currentFileSize ≥ writer.allowedMaxFileSize) :
    (rollover writer os).currentCountNumber = wrapInt64 (writer.currentCountNumber + 1) ∧
    (rollover writer os).currentStorageFileName =
      writer.currentAbsPath ++ writer.filePrefixName ++
        getCountNumberSign
          { writer with currentCountNumber := wrapInt64 (writer.currentCountNumber + 1) } ++
        writer.fileSuffixName ∧
    (rollover writer os).currentFileSize = 0 ∧
    (rollover writer os).innerWriter = .nil ∧
    (rollover writer os).fileName = writer.fileName := by
  unfold rollover
  rw [if_pos hcap]
  unfold nextStorageFileName fileWriter.Close
  dsimp only
  split
  · next h => exact ⟨rfl, rfl, rfl, h, rfl⟩
  · exact ⟨rfl, rfl, rfl, rfl, rfl⟩
  · exact ⟨rfl, rfl, rfl, rfl, rfl⟩

/-- The rollover step below the cap. -/
theorem rollover_below_cap (writer : fileWriter) (os : FileSystem)
    (hcap : ¬ writer.currentFileSize ≥ writer.allowedMaxFileSize) :
    rollover writer os = writer := by
  unfold rollover
  rw [if_neg hcap]

/-- The method `fileWriter.Write` on a resolved writer. -/
theorem fileWriter_Write_resolved (writer : fileWriter) (os : FileSystem) (bytes : GoString)
    (hres : writer.currentStorageFileName ≠ []) :
    writer.Write os bytes =
      match (rollover { writer with lastWriteTime := os.now } os).innerWriter with
      | .nil =>
        match (newInnerWriter (rollover { writer with lastWriteTime := os.now } os) os).2.2 with
        | some _ =>
          ({ (newInnerWriter (rollover { writer with lastWriteTime := os.now } os) os).1 with
              innerWriter :=
                (newInnerWriter (rollover { writer with lastWriteTime := os.now } os) os).2.1 },
            0, none)
        | none =>
          writeToInnerWriter
            { (newInnerWriter (rollover { writer with lastWriteTime := os.now } os) os).1 with
              innerWriter :=
                (newInnerWriter (rollover { writer with lastWriteTime := os.now } os) os).2.1 }
            os bytes
      | _ => writeToInnerWriter (rollover { writer with lastWriteTime := os.now } os) os bytes := by
  unfold fileWriter.Write
  dsimp only
  rw [if_neg hres]

/-- The rollover step, in both cases. -/
theorem rollover_fields (writer : fileWriter) (os : FileSystem) :
    (rollover writer os).currentCountNumber =
      (if writer.currentFileSize ≥ writer.allowedMaxFileSize then
        wrapInt64 (writer.currentCountNumber + 1)
      else writer.currentCountNumber) ∧
    (rollover writer os).currentStorageFileName =
      (if writer.currentFileSize ≥ writer.allowedMaxFileSize then
        writer.currentAbsPath ++ writer.filePrefixName ++
          getCountNumberSign
            { writer with currentCountNumber := wrapInt64 (writer.currentCountNumber + 1) } ++
          writer.fileSuffixName
      else writer.currentStorageFileName) ∧
    (rollover writer os).currentFileSize =
      (if writer.currentFileSize ≥ writer.allowedMaxFileSize then 0
      else writer.currentFileSize) ∧
    (writer.currentFileSize ≥ writer.allowedMaxFileSize →
      (rollover writer os).innerWriter = .nil) ∧
    (rollover writer os).fileName = writer.fileName := by
  by_cases hcap : writer.currentFileSize ≥ writer.allowedMaxFileSize
  · obtain ⟨h1, h2, h3, h4, h5⟩ := rollover_at_cap writer os hcap
    rw [if_pos hcap, if_pos hcap, if_pos hcap]
    exact ⟨h1, h2, h3, fun _ => h4, h5⟩
  · rw [rollover_below_cap writer os hcap, if_neg hcap, if_neg hcap, if_neg hcap]
    exact ⟨rfl, rfl, rfl, fun h => absurd h hcap, rfl⟩

/-- One `Write` on a resolved writer: the sequence number and the target
change exactly when the call is entered at or over the cap, the writer stays
resolved, and when the write on the open file succeeds the size is updated by
the bytes written; the number and the size are kept within 64 bits. -/
theorem fileWriter_Write_resolved_step (writer : fileWriter) (os : FileSystem)
    (bytes : GoString) (hres : writer.currentStorageFileName ≠ []) :
    (writer.Write os bytes).1.currentCountNumber =
      (if writer.currentFileSize ≥ writer.allowedMaxFileSize then
        wrapInt64 (writer.currentCountNumber + 1)
      else writer.currentCountNumber) ∧
    (writer.Write os bytes).1.currentStorageFileName =
      (if writer.currentFileSize ≥ writer.allowedMaxFileSize then
        writer.currentAbsPath ++ writer.filePrefixName ++
          getCountNumberSign
            { writer with currentCountNumber := wrapInt64 (writer.currentCountNumber + 1) } ++
          writer.fileSuffixName
      else writer.currentStorageFileName) ∧
    (writer.Write os bytes).1.fileName = writer.fileName ∧
    (∀ n path, (writer.Write os bytes).2 = (n, none) →
      (writer.Write os bytes).1.innerWriter = .file path →
      (writer.Write os bytes).1.currentFileSize =
        wrapInt64 ((if writer.currentFileSize ≥ writer.allowedMaxFileSize then 0
          else writer.currentFileSize) + n) ∧
      (writer.currentFileSize ≥ writer.allowedMaxFileSize →
        path = (writer.Write os bytes).1.currentStorageFileName)) := by
  rw [fileWriter_Write_resolved writer os bytes hres]
  obtain ⟨h1, h2, h3, h4, h5⟩ := rollover_fields { writer with lastWriteTime := os.now } os
  dsimp only at h1 h2 h3 h4 h5
  generalize rollover { writer with lastWriteTime := os.now } os = w1 at h1 h2 h3 h4 h5 ⊢
  split
  · next hnil =>
    obtain ⟨g1, g2, g3, g4⟩ := newInnerWriter_fields w1 os
    have hr := newInnerWriter_result w1 os
    generalize newInnerWriter w1 os = opened at g1 g2 g3 g4 hr ⊢
    obtain ⟨ow, oi, oe⟩ := opened
    dsimp only at g1 g2 g3 g4 hr ⊢
    rcases hr with ⟨_, hr⟩ | ⟨err, _, hr⟩
    · obtain ⟨rfl, rfl⟩ := Prod.mk.inj hr
      dsimp only
      obtain ⟨f1, f2, f3, f4, f5, _⟩ :=
        writeToInnerWriter_fields { ow with innerWriter := .file w1.currentStorageFileName } os bytes
      dsimp only at f1 f2 f3 f4 f5
      refine ⟨by rw [f1, g1, h1], f2.trans (g2.trans h2), by rw [f4, g4, h5], ?_⟩
      intro n path hn hp
      have hn1 := congrArg Prod.fst hn
      have hn2 := congrArg Prod.snd hn
      dsimp only at hn1 hn2
      refine ⟨by rw [f5 hn2, hn1, g3, h3], fun _ => ?_⟩
      rw [f3] at hp
      rw [f2, g2]
      exact (InnerWriter.file.inj hp).symm
    · obtain ⟨rfl, rfl⟩ := Prod.mk.inj hr
      dsimp only
      refine ⟨by rw [g1, h1], g2.trans h2, by rw [g4, h5], ?_⟩
      intro n path hn hp
      cases hp
  · next hne =>
    obtain ⟨f1, f2, f3, f4, f5, _⟩ := writeToInnerWriter_fields w1 os bytes
    refine ⟨by rw [f1, h1], f2.trans h2, by rw [f4, h5], ?_⟩
    intro n path hn hp
    have hn1 := congrArg Prod.fst hn
    have hn2 := congrArg Prod.snd hn
    dsimp only at hn1 hn2
    refine ⟨by rw [f5 hn2, hn1, h3], fun hcap => ?_⟩
    exact absurd (h4 hcap) hne

/-- Over a sequence of writes on a resolved writer the sequence number goes up
by the number of calls entered at or over the cap, within 64 bits. -/
theorem fileWriter_writes_count (calls : List (FileSystem × GoString)) :
    ∀ writer : fileWriter, writer.currentStorageFileName ≠ [] →
      -(2 ^ 63) ≤ writer.currentCountNumber → writer.currentCountNumber < 2 ^ 63 →
      (writer.writes calls).currentCountNumber =
        wrapInt64 (writer.currentCountNumber + (capCrossings writer calls : Int)) := by
  induction calls with
  | nil =>
    intro writer _ hlo hhi
    simp only [fileWriter.writes, capCrossings, Nat.cast_zero, add_zero]
    exact (wrapInt64_of_range _ hlo hhi).symm
  | cons call rest ih =>
    intro writer hres hlo hhi
    obtain ⟨os, bytes⟩ := call
    obtain ⟨h1, h2, _, _⟩ := fileWriter_Write_resolved_step writer os bytes hres
    have hres2 : (writer.Write os bytes).1.currentStorageFileName ≠ [] := by
      rw [h2]
      split_ifs
      · intro h
        have h3 := (List.append_eq_nil.mp h).1
        exact getCountNumberSign_ne_nil _ (List.append_eq_nil.mp h3).2
      · exact hres
    have hrange : -(2 ^ 63) ≤ (writer.Write os bytes).1.currentCountNumber ∧
        (writer.Write os bytes).1.currentCountNumber < 2 ^ 63 := by
      rw [h1]
      split_ifs
      · exact wrapInt64_range _
      · exact ⟨hlo, hhi⟩
    simp only [fileWriter.writes, capCrossings]
    rw [ih _ hres2 hrange.1 hrange.2, h1]
    split_ifs
    · rw [wrapInt64_add_wrap]
      congr 1
      push_cast
      omega
    · congr 1
      push_cast
      omega

/-- C11, as stated, fails where the 64-bit integers wrap around. A writer with
the sequence number `2^63 - 1`, filled up to its cap: the `Write` succeeds, and
the number afterwards is `-2^63`, not the number plus 1, with the target
`/w/app-9223372036854775808.log`. A writer below its cap of `2^63 - 1` bytes
with the size `2^63 - 3`: the `Write` of 5 bytes succeeds and the size afterwards
is `-2^63 + 2`, not the size plus 5. -/
theorem C11_counterexample_number_wraps :
    (({ sampleFileWriter with currentCountNumber := 2 ^ 63 - 1 } : fileWriter).Write
        sampleFileSystem (lit "hello")).2 = (5, none) ∧
    (({ sampleFileWriter with currentCountNumber := 2 ^ 63 - 1 } : fileWriter).Write
        sampleFileSystem (lit "hello")).1.innerWriter =
      .file (lit "/w/app-9223372036854775808.log") ∧
    (({ sampleFileWriter with currentCountNumber := 2 ^ 63 - 1 } : fileWriter).Write
        sampleFileSystem (lit "hello")).1.currentCountNumber = -(2 ^ 63) ∧
    (({ sampleFileWriter with currentCountNumber := 2 ^ 63 - 1 } : fileWriter).Write
        sampleFileSystem (lit "hello")).1.currentCountNumber ≠ (2 ^ 63 - 1) + 1 ∧
    (({ sampleFileWriter with
          allowedMaxFileSize := 2 ^ 63 - 1, currentFileSize := 2 ^ 63 - 3 } : fileWriter).Write
        sampleFileSystem (lit "hello")).2 = (5, none) ∧
    (({ sampleFileWriter with
          allowedMaxFileSize := 2 ^ 63 - 1, currentFileSize := 2 ^ 63 - 3 } : fileWriter).Write
        sampleFileSystem (lit "hello")).1.currentFileSize = -(2 ^ 63) + 2 ∧
    (({ sampleFileWriter with
          allowedMaxFileSize := 2 ^ 63 - 1, currentFileSize := 2 ^ 63 - 3 } : fileWriter).Write
        sampleFileSystem (lit "hello")).1.currentFileSize ≠ (2 ^ 63 - 3) + 5 := by
  decide

/-- C11, amended: for a resolved `fileWriter` whose sequence number is an `int`
below the largest one, and a `Write` whose underlying write succeeds (it returns
`(n, nil)`, `n` an `int`, with the file open): entered with `currentFileSize >=
allowedMaxFileSize`, `currentCountNumber` goes up by exactly 1, the target
becomes `currentAbsPath + filePrefixName + padded new number + fileSuffixName`
(the file the bytes went to) and `currentFileSize` is `n` afterwards; entered
below the cap, `currentCountNumber` and the target are unchanged and
`currentFileSize` grows by `n` when the sum is within `int64`. Over any sequence
of writes the sequence number goes up by the number of calls entered at or over
the cap, as long as that sum is an `int`. -/
theorem C11_rollover_once_per_cap_crossing (writer : fileWriter)
    (hres : writer.currentStorageFileName ≠ [])
    (hlo : -(2 ^ 63) ≤ writer.currentCountNumber)
    (hhi : writer.currentCountNumber < 2 ^ 63 - 1) :
    (∀ (os : FileSystem) (bytes : GoString) (n : Int) (path : GoString),
      (writer.Write os bytes).2 = (n, none) →
      (writer.Write os bytes).1.innerWriter = .file path →
      -(2 ^ 63) ≤ n → n < 2 ^ 63 →
      (writer.currentFileSize ≥ writer.allowedMaxFileSize →
        (writer.Write os bytes).1.currentCountNumber = writer.currentCountNumber + 1 ∧
        (writer.Write os bytes).1.currentStorageFileName =
          writer.currentAbsPath ++ writer.filePrefixName ++
            getCountNumberSign
              { writer with currentCountNumber := writer.currentCountNumber + 1 } ++
            writer.fileSuffixName ∧
        path = (writer.Write os bytes).1.currentStorageFileName ∧
        (writer.Write os bytes).1.currentFileSize = n) ∧
      (writer.currentFileSize < writer.allowedMaxFileSize →
        (writer.Write os bytes).1.currentCountNumber = writer.currentCountNumber ∧
        (writer.Write os bytes).1.currentStorageFileName = writer.currentStorageFileName ∧
        (-(2 ^ 63) ≤ writer.currentFileSize + n → writer.currentFileSize + n < 2 ^ 63 →
          (writer.Write os bytes).1.currentFileSize = writer.currentFileSize + n))) ∧
    (∀ calls : List (FileSystem × GoString),
      writer.currentCountNumber + (capCrossings writer calls : Int) < 2 ^ 63 →
      (writer.writes calls).currentCountNumber =
        writer.currentCountNumber + (capCrossings writer calls : Int)) := by
  have hwrap : wrapInt64 (writer.currentCountNumber + 1) = writer.currentCountNumber + 1 :=
    wrapInt64_of_range _ (by omega) (by omega)
  constructor
  · intro os bytes n path hn hp hnlo hnhi
    obtain ⟨h1, h2, _, h4⟩ := fileWriter_Write_resolved_step writer os bytes hres
    obtain ⟨h5, h6⟩ := h4 n path hn hp
    constructor
    · intro hcap
      rw [if_pos hcap] at h1 h2 h5
      rw [hwrap] at h1 h2
      refine ⟨h1, h2, h6 hcap, ?_⟩
      rw [h5, zero_add]
      exact wrapInt64_of_range n hnlo hnhi
    · intro hlt
      have hcap : ¬ writer.currentFileSize ≥ writer.allowedMaxFileSize := by omega
      rw [if_neg hcap] at h1 h2 h5
      refine ⟨h1, h2, fun hslo hshi => ?_⟩
      rw [h5]
      exact wrapInt64_of_range _ hslo hshi
  · intro calls hsum
    rw [fileWriter_writes_count calls writer hres hlo (by omega)]
    exact wrapInt64_of_range _ (by omega) hsum

/-- C11 as amended, on a writer filled up to its cap of 100 bytes with the
target `/w/app000.log`: a write of five bytes moves it on to `/w/app001.log`,
and two writes of five bytes cross the cap once. -/
theorem C11_rollover_once_per_cap_crossing_witness :
    ((sampleFileWriter.Write sampleFileSystem (lit "hello")).1.currentCountNumber = 0 + 1 ∧
      (sampleFileWriter.Write sampleFileSystem (lit "hello")).1.currentStorageFileName =
        lit "/w/app001.log" ∧
      lit "/w/app001.log" =
        (sampleFileWriter.Write sampleFileSystem (lit "hello")).1.currentStorageFileName ∧
      (sampleFileWriter.Write sampleFileSystem (lit "hello")).1.currentFileSize = 5) ∧
    (sampleFileWriter.writes
        [(sampleFileSystem, lit "hello"), (sampleFileSystem, lit "world")]).currentCountNumber =
      0 + ((1 : Nat) : Int) :=
  ⟨((C11_rollover_once_per_cap_crossing sampleFileWriter (by decide) (by decide)
      (by decide)).1 sampleFileSystem
      (lit "hello") 5 (lit "/w/app001.log") rfl rfl (by decide) (by decide)).1 (by decide),
    (C11_rollover_once_per_cap_crossing sampleFileWriter (by decide) (by decide)
      (by decide)).2
      [(sampleFileSystem, lit "hello"), (sampleFileSystem, lit "world")] (by decide)⟩

/-! ## The split of the file name by `newFileWriter` -/

/-- The loop of `filepath.Ext` never returns a path separator, when it has
passed none. -/
theorem extLoop_no_separator : ∀ (rev tail : GoString), PathSeparator ∉ tail →
    PathSeparator ∉ extLoop rev tail := by
  intro rev
  induction rev with
  | nil => intro tail _; simp [extLoop]
  | cons c rev ih =>
    intro tail ht
    unfold extLoop
    split_ifs with h1 h2
    · simp
    · intro hmem
      rcases List.mem_cons.mp hmem with h | h
      · rw [h2] at h; exact absurd h (by decide)
      · exact ht h
    · apply ih
      intro hmem
      rcases List.mem_cons.mp hmem with h | h
      · exact h1 h.symm
      · exact ht h

theorem Ext_no_separator (path : GoString) : PathSeparator ∉ Ext path :=
  extLoop_no_separator _ _ (by simp)

/-- The bounds of the first run of `#` in a name with one. -/
theorem findAutoIncrementSymbols_run (pre post : GoString) (k : Nat) (hpre : 35 ∉ pre)
    (hpost : post.head? ≠ some 35) :
    findAutoIncrementSymbols (pre ++ List.replicate (k + 1) 35 ++ post) =
      some (pre.length, pre.length + (k + 1)) := by
  have h1 : (pre ++ List.replicate (k + 1) 35 ++ post).takeWhile (fun c => c != 35) = pre := by
    rw [List.append_assoc, List.takeWhile_append_of_pos]
    · simp [List.replicate_succ, List.takeWhile_cons]
    · intro a ha
      have : a ≠ 35 := fun h => hpre (h ▸ ha)
      simpa using this
  have h2 : ((pre ++ List.replicate (k + 1) 35 ++ post).drop pre.length).takeWhile
      (fun c => c == 35) = List.replicate (k + 1) 35 := by
    rw [List.append_assoc, List.drop_left, List.takeWhile_append_of_pos]
    · cases post with
      | nil => simp
      | cons c post =>
        have : c ≠ 35 := fun h => hpost (by simp [h])
        simp [List.takeWhile_cons, this]
    · intro a ha
      simp [List.eq_of_mem_replicate ha]
  unfold findAutoIncrementSymbols
  simp only [h1, h2, List.length_append, List.length_replicate]
  rw [if_neg (by omega)]

/-- A name without `#` has no run. -/
theorem findAutoIncrementSymbols_none (name : GoString) (h : 35 ∉ name) :
    findAutoIncrementSymbols name = none := by
  have h1 : name.takeWhile (fun c => c != 35) = name := by
    rw [List.takeWhile_eq_self_iff]
    intro a ha
    have : a ≠ 35 := fun h2 => h (h2 ▸ ha)
    simpa using this
  unfold findAutoIncrementSymbols
  simp only [h1, if_true]

/-- C15: `newFileWriter` splits a name at its first run of `#`: with the name
`pre ++ #...# ++ post` (no `#` in `pre`, `post` not starting with `#`) it fails
when `post` holds a path separator, and otherwise `autoIncrementNumDigit` is the
run length, `filePrefixName` is `filepath.Base(pre)` and `fileSuffixName` is
`post`; for a name without `#` it never fails (the extension holds no
separator), the width is 3, the prefix is `filepath.Base` of the name without
its extension and the suffix is the extension. -/
theorem C15_newFileWriter_splits_name (name : GoString) (allowedMaxSize : Int)
    (isNeedAutoFreeOpenedFile : Bool) :
    (∀ (pre post : GoString) (k : Nat), name = pre ++ List.replicate (k + 1) 35 ++ post →
      35 ∉ pre → post.head? ≠ some 35 →
      (PathSeparator ∈ post →
        newFileWriter name allowedMaxSize isNeedAutoFreeOpenedFile =
          .error (lit "folder can not be auto increment")) ∧
      (PathSeparator ∉ post →
        ∃ fw, newFileWriter name allowedMaxSize isNeedAutoFreeOpenedFile = .ok fw ∧
          fw.autoIncrementNumDigit = ((k + 1 : Nat) : Int) ∧
          fw.filePrefixName = Base pre ∧ fw.fileSuffixName = post)) ∧
    (35 ∉ name →
      PathSeparator ∉ Ext name ∧
      ∃ fw, newFileWriter name allowedMaxSize isNeedAutoFreeOpenedFile = .ok fw ∧
        fw.autoIncrementNumDigit = 3 ∧
        fw.filePrefixName = Base (TrimSuffix name (Ext name)) ∧
        fw.fileSuffixName = Ext name) := by
  constructor
  · intro pre post k hname hpre hpost
    have hfind := findAutoIncrementSymbols_run pre post k hpre hpost
    rw [← hname] at hfind
    have htake : name.take pre.length = pre := by
      rw [hname, List.append_assoc, List.take_left]
    have hdrop : name.drop (pre.length + (k + 1)) = post := by
      have : pre.length + (k + 1) = (pre ++ List.replicate (k + 1) 35).length := by simp
      rw [hname, this, List.drop_left]
    constructor
    · intro hsep
      unfold newFileWriter
      simp only [hfind, htake, hdrop]
      rw [if_pos hsep]
    · intro hsep
      unfold newFileWriter
      simp only [hfind, htake, hdrop]
      rw [if_neg hsep]
      refine ⟨_, rfl, ?_, rfl, rfl⟩
      simp only
      push_cast
      omega
  · intro hname
    have hfind := findAutoIncrementSymbols_none name hname
    refine ⟨Ext_no_separator name, ?_⟩
    unfold newFileWriter
    simp only [hfind]
    rw [if_neg (Ext_no_separator name)]
    exact ⟨_, rfl, rfl, rfl, rfl⟩

/-- C15 on the name `/var/log/app###.log`. -/
theorem C15_newFileWriter_splits_name_witness :
    ∃ fw, newFileWriter (lit "/var/log/app###.log") 100 true = .ok fw ∧
      fw.autoIncrementNumDigit = ((2 + 1 : Nat) : Int) ∧
      fw.filePrefixName = Base (lit "/var/log/app") ∧ fw.fileSuffixName = lit ".log" :=
  ((C15_newFileWriter_splits_name (lit "/var/log/app###.log") 100 true).1
    (lit "/var/log/app") (lit ".log") 2 (by decide) (by decide) (by decide)).2 (by decide)

/-! ## The starting file chosen by `getStorageFileName` -/

theorem scanLogFiles_append (writer : fileWriter) : ∀ (xs ys : List GoString) (c : Int)
    (s : GoString),
    scanLogFiles writer (xs ++ ys) c s =
      scanLogFiles writer ys (scanLogFiles writer xs c s).1 (scanLogFiles writer xs c s).2 := by
  intro xs
  induction xs with
  | nil => intro ys c s; rfl
  | cons x xs ih =>
    intro ys c s
    simp only [List.cons_append, scanLogFiles]
    split
    · exact ih ys c s
    · split_ifs
      · exact ih ys _ _
      · exact ih ys c s

/-- The number held by the loop stays within a bound on the numbers listed. -/
theorem scanLogFiles_le (writer : fileWriter) (N : Int) : ∀ (xs : List GoString) (c : Int)
    (s : GoString), c ≤ N →
    (∀ f ∈ xs, ∀ n, candidateNumber writer f = some n → n ≤ N) →
    (scanLogFiles writer xs c s).1 ≤ N := by
  intro xs
  induction xs with
  | nil => intro c s hc _; exact hc
  | cons x xs ih =>
    intro c s hc h
    have hxs : ∀ f ∈ xs, ∀ n, candidateNumber writer f = some n → n ≤ N :=
      fun f hf => h f (List.mem_cons_of_mem _ hf)
    simp only [scanLogFiles]
    split
    · exact ih c s hc hxs
    · next n hn =>
      split_ifs
      · exact ih n x (h x (List.mem_cons_self _ _) n hn) hxs
      · exact ih c s hc hxs

/-- The loop keeps its number and name over names with smaller numbers. -/
theorem scanLogFiles_lt (writer : fileWriter) : ∀ (xs : List GoString) (c : Int)
    (s : GoString), (∀ f ∈ xs, ∀ n, candidateNumber writer f = some n → n < c) →
    scanLogFiles writer xs c s = (c, s) := by
  intro xs
  induction xs with
  | nil => intro c s _; rfl
  | cons x xs ih =>
    intro c s h
    have hxs : ∀ f ∈ xs, ∀ n, candidateNumber writer f = some n → n < c :=
      fun f hf => h f (List.mem_cons_of_mem _ hf)
    simp only [scanLogFiles]
    split
    · exact ih c s hxs
    · next n hn =>
      have := h x (List.mem_cons_self _ _) n hn
      rw [if_neg (by omega)]
      exact ih c s hxs

/-- The loop ends on the last name that carries the highest number. -/
theorem scanLogFiles_highest (writer : fileWriter) (pre post : List GoString) (best : GoString)
    (N c : Int) (s : GoString) (hc : c ≤ N) (hbest : candidateNumber writer best = some N)
    (hpre : ∀ f ∈ pre, ∀ n, candidateNumber writer f = some n → n ≤ N)
    (hpost : ∀ f ∈ post, ∀ n, candidateNumber writer f = some n → n < N) :
    scanLogFiles writer (pre ++ best :: post) c s = (N, best) := by
  rw [scanLogFiles_append]
  have h1 := scanLogFiles_le writer N pre c s hc hpre
  generalize scanLogFiles writer pre c s = r at h1 ⊢
  simp only [scanLogFiles, hbest]
  rw [if_pos (by omega)]
  exact scanLogFiles_lt writer post N best hpost

theorem Atoi_nil : Atoi [] = none := by decide

theorem candidateNumber_nil (writer : fileWriter) : candidateNumber writer [] = none := by
  unfold candidateNumber
  split_ifs
  · simp [TrimSuffix, Atoi_nil]
  · rfl

/-- C12, as stated, fails where the sequence number wraps around: in a directory
that lists `app9223372036854775807.log`, a file at the cap, the highest number
is `N = 2^63 - 1`, the largest `int`, and the fresh writer is given the number
`-2^63` and the name `/w/app-9223372036854775808.log`, not the name with the
padded `N + 1`. -/
theorem C12_counterexample_number_wraps :
    candidateNumber freshFileWriter (lit "app9223372036854775807.log") = some (2 ^ 63 - 1) ∧
    getStorageFileName freshFileWriter
        { sampleFileSystem with
          getDirFilePaths := fun _ => ([lit "app9223372036854775807.log"], none),
          Stat := fun _ => .info 100 } =
      ({ freshFileWriter with currentCountNumber := -(2 ^ 63) },
        lit "/w/app-9223372036854775808.log", none) ∧
    lit "/w/app-9223372036854775808.log" ≠
      freshFileWriter.currentAbsPath ++
        (freshFileWriter.filePrefixName ++
          getCountNumberSign { freshFileWriter with currentCountNumber := (2 ^ 63 - 1) + 1 } ++
          freshFileWriter.fileSuffixName) := by
  decide

/-- C12, amended: for a fresh `fileWriter` (number 0, size 0) and any directory
listing, where a candidate is a listed name from which the loop reads a number
that is not negative: when `best` is the last listed candidate with the highest
number `N` and `os.Stat` gives its size, a size below `allowedMaxFileSize` makes
`getStorageFileName` return that file with `currentCountNumber = N` and
`currentFileSize` its size, and a size at or over the cap makes it return
`filePrefixName + pad(N+1) + fileSuffixName` with `currentCountNumber = N + 1`
and `currentFileSize` 0 when `N` is below the largest `int`; without a candidate
it returns `filePrefixName + pad(0) + fileSuffixName`; each name in the
directory `currentAbsPath`. -/
theorem C12_getStorageFileName_fresh (writer : fileWriter) (os : FileSystem)
    (hcount : writer.currentCountNumber = 0) (hsize : writer.currentFileSize = 0) :
    (∀ (pre post : List GoString) (best : GoString) (N size : Int),
      (os.getDirFilePaths writer.currentAbsPath).1 = pre ++ best :: post →
      candidateNumber writer best = some N → 0 ≤ N →
      (∀ f ∈ pre, ∀ n, candidateNumber writer f = some n → n ≤ N) →
      (∀ f ∈ post, ∀ n, candidateNumber writer f = some n → n < N) →
      os.Stat (writer.currentAbsPath ++ best) = .info size →
      (size < writer.allowedMaxFileSize →
        getStorageFileName writer os =
          ({ writer with currentCountNumber := N, currentFileSize := size },
            writer.currentAbsPath ++ best, none)) ∧
      (writer.allowedMaxFileSize ≤ size → N < 2 ^ 63 - 1 →
        getStorageFileName writer os =
          ({ writer with currentCountNumber := N + 1, currentFileSize := 0 },
            writer.currentAbsPath ++
              (writer.filePrefixName ++
                getCountNumberSign { writer with currentCountNumber := N + 1 } ++
                writer.fileSuffixName),
            none))) ∧
    ((∀ f ∈ (os.getDirFilePaths writer.currentAbsPath).1, ∀ n,
        candidateNumber writer f = some n → n < 0) →
      getStorageFileName writer os =
        ({ writer with currentCountNumber := 0, currentFileSize := 0 },
          writer.currentAbsPath ++
            (writer.filePrefixName ++
              getCountNumberSign { writer with currentCountNumber := 0 } ++
              writer.fileSuffixName),
          none)) := by
  obtain ⟨iw, fn, pfx, suf, dig, cap, abs, tgt, sz, cnt, lw, flag, timer⟩ := writer
  dsimp only at hcount hsize ⊢
  subst hcount hsize
  constructor
  · intro pre post best N size hlist hbest hN hpre hpost hstat
    have hscan := scanLogFiles_highest _ pre post best N 0 [] hN hbest hpre hpost
    have hne : best ≠ [] := by
      intro h
      rw [h, candidateNumber_nil] at hbest
      cases hbest
    constructor
    · intro hlt
      unfold getStorageFileName
      dsimp only
      rw [hlist, hscan]
      dsimp only
      rw [if_pos hne, hstat]
      dsimp only
      rw [if_pos hlt]
    · intro hge hmax
      have hw : wrapInt64 (N + 1) = N + 1 := wrapInt64_of_range _ (by omega) (by omega)
      unfold getStorageFileName
      dsimp only
      rw [hlist, hscan]
      dsimp only
      rw [if_pos hne, hstat]
      dsimp only
      rw [if_neg (by omega), hw]
  · intro hnone
    have hscan := scanLogFiles_lt _ _ 0 [] hnone
    unfold getStorageFileName
    dsimp only
    rw [hscan]
    dsimp only
    rw [if_neg (by simp)]

/-- C12 as amended, on a directory that lists `app001.log`, `app003.log`,
`app002.log` and `notes.txt`, each of 10 bytes, with the cap 100: the writer
resumes `/w/app003.log` at number 3 and size 10. -/
theorem C12_getStorageFileName_fresh_witness :
    getStorageFileName freshFileWriter sampleDirectory =
      ({ freshFileWriter with currentCountNumber := 3, currentFileSize := 10 },
        lit "/w/" ++ lit "app003.log", none) :=
  ((C12_getStorageFileName_fresh freshFileWriter sampleDirectory rfl rfl).1
    [lit "app001.log"] [lit "app002.log", lit "notes.txt"] (lit "app003.log") 3 10 rfl
    (by decide) (by decide)
    (by
      intro f hf n hn
      rw [List.mem_singleton] at hf
      subst hf
      have h : candidateNumber freshFileWriter (lit "app001.log") = some 1 := by decide
      rw [h] at hn
      cases hn
      decide)
    (by
      intro f hf n hn
      rcases List.mem_cons.mp hf with hf | hf
      · subst hf
        have h : candidateNumber freshFileWriter (lit "app002.log") = some 2 := by decide
        rw [h] at hn
        cases hn
        decide
      · rw [List.mem_singleton] at hf
        subst hf
        have h : candidateNumber freshFileWriter (lit "notes.txt") = none := by decide
        rw [h] at hn
        cases hn)
    rfl).1 (by decide)

/-! ## The map of file writers of a rule file writer -/

theorem getStorageFileName_fileName (writer : fileWriter) (os : FileSystem) :
    (getStorageFileName writer os).1.fileName = writer.fileName := by
  unfold getStorageFileName
  dsimp only
  split_ifs
  · split
    · rfl
    · rfl
    · split_ifs <;> rfl
  · rfl

theorem loadOrCreate_fileName (writer : fileWriter) (os : FileSystem) :
    (loadOrCreateStorageFileAndInitSomeAttributes writer os).1.fileName = writer.fileName := by
  unfold loadOrCreateStorageFileAndInitSomeAttributes
  dsimp only
  split
  · exact getStorageFileName_fileName _ os
  · split
    · rfl
    · exact getStorageFileName_fileName _ os
  · rfl

/-- The method `fileWriter.Write` never changes `fileName`. -/
theorem fileWriter_Write_fileName (writer : fileWriter) (os : FileSystem) (bytes : GoString) :
    (writer.Write os bytes).1.fileName = writer.fileName := by
  by_cases hres : writer.currentStorageFileName = []
  · unfold fileWriter.Write
    dsimp only
    rw [if_pos hres]
    have hl := loadOrCreate_fileName { writer with lastWriteTime := os.now } os
    dsimp only at hl
    generalize loadOrCreateStorageFileAndInitSomeAttributes
      { writer with lastWriteTime := os.now } os = loaded at hl ⊢
    split
    · exact hl
    · obtain ⟨_, _, _, _, h5⟩ := rollover_fields loaded.1 os
      generalize rollover loaded.1 os = w1 at h5 ⊢
      split
      · obtain ⟨_, _, _, g4⟩ := newInnerWriter_fields w1 os
        generalize newInnerWriter w1 os = opened at g4 ⊢
        split
        · dsimp only
          rw [g4, h5, hl]
        · obtain ⟨_, _, _, f4, _, _⟩ :=
            writeToInnerWriter_fields { opened.1 with innerWriter := opened.2.1 } os bytes
          rw [f4]
          dsimp only
          rw [g4, h5, hl]
      · obtain ⟨_, _, _, f4, _, _⟩ := writeToInnerWriter_fields w1 os bytes
        rw [f4, h5, hl]
  · exact (fileWriter_Write_resolved_step writer os bytes hres).2.2.1

/-- The constructor `newFileWriter` returns a writer or an error, and the
writer carries the name. -/
theorem newFileWriter_cases (name : GoString) (cap : Int) (flag : Bool) :
    (∃ fw, newFileWriter name cap flag = .ok fw ∧ fw.fileName = name) ∨
    (∃ err, newFileWriter name cap flag = .error err) := by
  unfold newFileWriter
  dsimp only
  generalize (if cap > 0 then cap else DefaultAllowedFileMaxSize) = c
  split_ifs
  · exact Or.inr ⟨_, rfl⟩
  · left
    refine ⟨_, rfl, ?_⟩
    dsimp only
    split <;> rfl

theorem mapLookup_eq_none (entries : List (GoString × fileWriter)) (key : GoString) :
    mapLookup entries key = none ↔ key ∉ mapKeys entries := by
  induction entries with
  | nil => simp [mapLookup, mapKeys]
  | cons e rest ih =>
    by_cases h : e.1 = key
    · simp [mapLookup, mapKeys, List.find?_cons, h]
    · have h2 : ¬ key = e.1 := fun h3 => h h3.symm
      simp only [mapLookup, mapKeys, List.find?_cons, h, decide_False, List.map_cons,
        List.mem_cons, h2, false_or] at ih ⊢
      exact ih

theorem mapLookup_some (entries : List (GoString × fileWriter)) (key : GoString)
    (fw : fileWriter) (h : mapLookup entries key = some fw) : (key, fw) ∈ entries := by
  induction entries with
  | nil => simp [mapLookup] at h
  | cons e rest ih =>
    by_cases he : e.1 = key
    · simp only [mapLookup, List.find?_cons, he, decide_True, Option.map_some',
        Option.some.injEq] at h
      rw [← he, ← h]
      exact List.mem_cons_self _ _
    · simp only [mapLookup, List.find?_cons, he, decide_False] at h ih
      exact List.mem_cons_of_mem _ (ih h)

theorem mapKeys_mapUpdate (entries : List (GoString × fileWriter)) (key : GoString)
    (fw : fileWriter) : mapKeys (mapUpdate entries key fw) = mapKeys entries := by
  unfold mapKeys mapUpdate
  rw [List.map_map]
  apply List.map_congr_left
  intro e _
  simp only [Function.comp]
  split_ifs <;> rfl

theorem ownsOnePerName_mapUpdate (entries : List (GoString × fileWriter)) (key : GoString)
    (fw : fileWriter) (hinv : ownsOnePerName entries) (hfw : fw.fileName = key) :
    ownsOnePerName (mapUpdate entries key fw) := by
  refine ⟨by rw [mapKeys_mapUpdate]; exact hinv.1, ?_⟩
  intro e he
  unfold mapUpdate at he
  obtain ⟨e0, he0, rfl⟩ := List.mem_map.mp he
  split_ifs with h
  · dsimp only
    rw [hfw, h]
  · exact hinv.2 e0 he0

theorem ownsOnePerName_append (entries : List (GoString × fileWriter)) (key : GoString)
    (fw : fileWriter) (hinv : ownsOnePerName entries) (hfw : fw.fileName = key)
    (hnew : key ∉ mapKeys entries) : ownsOnePerName (entries ++ [(key, fw)]) := by
  constructor
  · unfold mapKeys at hnew ⊢
    rw [List.map_append, List.nodup_append]
    refine ⟨hinv.1, by simp, ?_⟩
    intro a ha hb
    simp only [List.map_cons, List.map_nil, List.mem_singleton] at hb
    exact hnew (hb ▸ ha)
  · intro e he
    rcases List.mem_append.mp he with h | h
    · exact hinv.2 e h
    · rw [List.mem_singleton] at h
      rw [h]
      exact hfw

/-- One `Write` of a rule file writer whose map satisfies the invariant: the
call returns, the invariant holds afterwards, and the keys are those before
together with the current name if a file writer could be built for it. -/
theorem ruleFileWriter_Write_step (writer : ruleFileWriter)
    (entries : List (GoString × fileWriter)) (os : FileSystem) (bytes : GoString)
    (hmap : writer.fileWriters = some entries) (hinv : ownsOnePerName entries) :
    ∃ r entries1, writer.Write os bytes = .ok r ∧ r.1.fileWriters = some entries1 ∧
      r.1.allowedMaxFileSize = writer.allowedMaxFileSize ∧ ownsOnePerName entries1 ∧
      ∀ k, k ∈ mapKeys entries1 ↔
        (k ∈ mapKeys entries ∨
          (k = writer.fileName ∧
            ∃ fw, newFileWriter writer.fileName writer.allowedMaxFileSize false = .ok fw)) := by
  unfold ruleFileWriter.Write
  dsimp only
  rw [hmap]
  simp only [Option.getD_some]
  cases hl : mapLookup entries writer.fileName with
  | some fw =>
    have hmem := mapLookup_some entries writer.fileName fw hl
    have hkey : writer.fileName ∈ mapKeys entries :=
      List.mem_map.mpr ⟨(writer.fileName, fw), hmem, rfl⟩
    have hfn : (fw.Write os bytes).1.fileName = writer.fileName := by
      rw [fileWriter_Write_fileName]
      exact hinv.2 _ hmem
    refine ⟨_, _, rfl, rfl, rfl, ownsOnePerName_mapUpdate entries _ _ hinv hfn, ?_⟩
    intro k
    rw [mapKeys_mapUpdate]
    constructor
    · exact Or.inl
    · rintro (h | ⟨h, _⟩)
      · exact h
      · rw [h]; exact hkey
  | none =>
    have hnew := (mapLookup_eq_none entries writer.fileName).mp hl
    rcases newFileWriter_cases writer.fileName writer.allowedMaxFileSize false with
      ⟨fw, hfw, hname⟩ | ⟨err, herr⟩
    · rw [hfw]
      dsimp only
      have hfn : (fw.Write os bytes).1.fileName = writer.fileName := by
        rw [fileWriter_Write_fileName]
        exact hname
      refine ⟨_, _, rfl, rfl, rfl, ownsOnePerName_append entries _ _ hinv hfn hnew, ?_⟩
      intro k
      simp only [mapKeys, List.map_append, List.map_cons, List.map_nil, List.mem_append,
        List.mem_singleton]
      constructor
      · rintro (h | h)
        · exact Or.inl h
        · exact Or.inr ⟨h, fw, rfl⟩
      · rintro (h | ⟨h, _⟩)
        · exact Or.inl h
        · exact Or.inr h
    · rw [herr]
      dsimp only
      refine ⟨_, _, rfl, hmap, rfl, hinv, ?_⟩
      intro k
      constructor
      · exact Or.inl
      · rintro (h | ⟨_, fw, hfw⟩)
        · exact h
        · cases hfw

/-- A sequence of writes through a rule file writer whose map satisfies the
invariant. -/
theorem ruleFileWriter_writeAll_keys (calls : List (GoString × FileSystem × GoString)) :
    ∀ (writer : ruleFileWriter) (entries : List (GoString × fileWriter)),
      writer.fileWriters = some entries → ownsOnePerName entries →
      ∃ w1 entries1, writer.writeAll calls = .ok w1 ∧ w1.fileWriters = some entries1 ∧
        w1.allowedMaxFileSize = writer.allowedMaxFileSize ∧ ownsOnePerName entries1 ∧
        ∀ k, k ∈ mapKeys entries1 ↔
          (k ∈ mapKeys entries ∨
            ∃ c ∈ calls, c.1 = k ∧
              ∃ fw, newFileWriter k writer.allowedMaxFileSize false = .ok fw) := by
  induction calls with
  | nil =>
    intro writer entries hmap hinv
    exact ⟨writer, entries, rfl, hmap, rfl, hinv, fun k => by simp⟩
  | cons call rest ih =>
    intro writer entries hmap hinv
    obtain ⟨name, os, bytes⟩ := call
    obtain ⟨r, entries1, hw, hmap1, hcap1, hinv1, hkeys1⟩ :=
      ruleFileWriter_Write_step { writer with fileName := name } entries os bytes hmap hinv
    dsimp only at hcap1 hkeys1
    obtain ⟨w2, entries2, hw2, hmap2, hcap2, hinv2, hkeys2⟩ := ih r.1 entries1 hmap1 hinv1
    refine ⟨w2, entries2, ?_, hmap2, hcap2.trans hcap1, hinv2, ?_⟩
    · simp only [ruleFileWriter.writeAll, hw]
      exact hw2
    · intro k
      rw [hkeys2 k, hkeys1 k, hcap1]
      constructor
      · rintro ((h | ⟨h, fw, hfw⟩) | ⟨c, hc, hck, hfw⟩)
        · exact Or.inl h
        · exact Or.inr ⟨(name, os, bytes), List.mem_cons_self _ _, h.symm, by rw [h]; exact ⟨fw, hfw⟩⟩
        · exact Or.inr ⟨c, List.mem_cons_of_mem _ hc, hck, hfw⟩
      · rintro (h | ⟨c, hc, hck, hfw⟩)
        · exact Or.inl (Or.inl h)
        · rcases List.mem_cons.mp hc with h | h
          · left; right
            rw [h] at hck
            dsimp only at hck
            rw [hck]
            exact ⟨rfl, hfw⟩
          · exact Or.inr ⟨c, h, hck, hfw⟩

/-- C17: from a `ruleFileWriter` whose map holds one entry per key, each with
its key as `fileName` (the empty map of `newRuleFileWriter` is one), every
sequence of `Write` calls returns and leaves a map with no key twice, whose keys
are the keys before together with the rendered names of the calls for which
`newFileWriter` succeeds, and each entry has its key as `fileName`; a write to a
name already present passes the bytes to the file writer stored under it,
returns its result, and leaves the number and the keys of the entries as they
were. -/
theorem C17_one_file_writer_per_name (writer : ruleFileWriter)
    (entries : List (GoString × fileWriter))
    (hmap : writer.fileWriters = some entries) (hinv : ownsOnePerName entries) :
    (∀ calls : List (GoString × FileSystem × GoString),
      ∃ w1 entries1, writer.writeAll calls = .ok w1 ∧ w1.fileWriters = some entries1 ∧
        (mapKeys entries1).Nodup ∧ (∀ e ∈ entries1, e.2.fileName = e.1) ∧
        ∀ k, k ∈ mapKeys entries1 ↔
          (k ∈ mapKeys entries ∨
            ∃ c ∈ calls, c.1 = k ∧
              ∃ fw, newFileWriter k writer.allowedMaxFileSize false = .ok fw)) ∧
    (∀ (name : GoString) (os : FileSystem) (bytes : GoString) (fw : fileWriter),
      mapLookup entries name = some fw →
      ({ writer with fileName := name } : ruleFileWriter).Write os bytes =
        .ok ({ writer with
                fileName := name,
                fileWriters := some (mapUpdate entries name (fw.Write os bytes).1) },
          (fw.Write os bytes).2.1, (fw.Write os bytes).2.2) ∧
      (mapUpdate entries name (fw.Write os bytes).1).length = entries.length ∧
      mapKeys (mapUpdate entries name (fw.Write os bytes).1) = mapKeys entries) := by
  constructor
  · intro calls
    obtain ⟨w1, entries1, h1, h2, _, h4, h5⟩ :=
      ruleFileWriter_writeAll_keys calls writer entries hmap hinv
    exact ⟨w1, entries1, h1, h2, h4.1, h4.2, h5⟩
  · intro name os bytes fw hl
    refine ⟨?_, by simp [mapUpdate], mapKeys_mapUpdate _ _ _⟩
    unfold ruleFileWriter.Write
    dsimp only
    rw [hmap]
    simp only [Option.getD_some, hl]

/-- C17 on the rule file writer of `newRuleFileWriter` and three writes, to
`a.log`, `b.log` and `a.log` again. -/
theorem C17_one_file_writer_per_name_witness :
    ∃ w1 entries1,
      sampleRuleFileWriter.writeAll
        [(lit "a.log", sampleFileSystem, lit "x"), (lit "b.log", sampleFileSystem, lit "y"),
         (lit "a.log", sampleFileSystem, lit "z")] = .ok w1 ∧
      w1.fileWriters = some entries1 ∧
      (mapKeys entries1).Nodup ∧ (∀ e ∈ entries1, e.2.fileName = e.1) ∧
      ∀ k, k ∈ mapKeys entries1 ↔
        (k ∈ mapKeys [] ∨
          ∃ c ∈ [(lit "a.log", sampleFileSystem, lit "x"),
                 (lit "b.log", sampleFileSystem, lit "y"),
                 (lit "a.log", sampleFileSystem, lit "z")],
            c.1 = k ∧
              ∃ fw, newFileWriter k sampleRuleFileWriter.allowedMaxFileSize false = .ok fw) :=
  (C17_one_file_writer_per_name sampleRuleFileWriter [] rfl
    ⟨List.nodup_nil, fun e he => absurd he (List.not_mem_nil e)⟩).1
    [(lit "a.log", sampleFileSystem, lit "x"), (lit "b.log", sampleFileSystem, lit "y"),
     (lit "a.log", sampleFileSystem, lit "z")]

/-! ## The sweep of idle file writers -/

/-- The loop of the sweep removes from the map the entries to visit that are
idle with an open handle, and closes their handles in order. -/
theorem sweepLoop_spec (os : FileSystem) : ∀ (rest cur : List (GoString × fileWriter))
    (closed : List InnerWriter),
    sweepLoop os rest cur closed =
      (cur.filter (fun e =>
          decide (e.1 ∉ (rest.filter (fun x => idleWithHandle os.now x.2)).map Prod.fst)),
        closed ++ (rest.filter (fun x => idleWithHandle os.now x.2)).map
          (fun x => x.2.innerWriter)) := by
  intro rest
  induction rest with
  | nil => intro cur closed; simp [sweepLoop]
  | cons x rest ih =>
    intro cur closed
    obtain ⟨fileName, fWriter⟩ := x
    unfold sweepLoop
    by_cases hnil : fWriter.innerWriter = .nil
    · have hidle : idleWithHandle os.now fWriter = false := by simp [idleWithHandle, hnil]
      rw [if_pos hnil, ih, List.filter_cons_of_neg (by simp [hidle])]
    · rw [if_neg hnil]
      by_cases hexp : os.now > fWriter.lastWriteTime + DefaultOpenedFileMaxIdleTime
      · have hidle : idleWithHandle os.now fWriter = true := by
          simp [idleWithHandle, hnil, hexp]
        rw [if_pos hexp, List.filter_cons_of_pos (by simp [hidle])]
        unfold closeFileWriter
        rw [if_pos hnil]
        dsimp only
        rw [ih]
        unfold mapDelete
        rw [List.filter_filter]
        congr 1
        · apply List.filter_congr
          intro e _
          simp only [List.map_cons, List.mem_cons, not_or, Bool.decide_and, Bool.and_comm,
            ne_eq]
        · simp
      · have hidle : idleWithHandle os.now fWriter = false := by
          simp [idleWithHandle, hexp]
        rw [if_neg hexp, ih, List.filter_cons_of_neg (by simp [hidle])]

/-- C18, as amended: after `autoFreeOpenedFileWriters` runs at `now` on a map
with no key twice, the map holds exactly the previously owned writers that are
not both idle and holding an open handle: every owned writer with an open
handle whose `lastWriteTime + DefaultOpenedFileMaxIdleTime` is before `now` has
had its handle closed and is removed, and every other owned writer, also an
idle one without a handle, is still present. -/
theorem C18_sweep_removes_idle_open_writers (writer : ruleFileWriter) (os : FileSystem)
    (entries : List (GoString × fileWriter)) (hmap : writer.fileWriters = some entries)
    (hkeys : (mapKeys entries).Nodup) :
    (autoFreeOpenedFileWriters writer os).1.fileWriters =
      some (entries.filter (fun e => !idleWithHandle os.now e.2)) ∧
    (autoFreeOpenedFileWriters writer os).2 =
      (entries.filter (fun e => idleWithHandle os.now e.2)).map (fun e => e.2.innerWriter) ∧
    ∀ e ∈ entries,
      (idleWithHandle os.now e.2 = true →
        e.1 ∉ mapKeys (entries.filter (fun e => !idleWithHandle os.now e.2)) ∧
        e.2.innerWriter ∈ (autoFreeOpenedFileWriters writer os).2) ∧
      (idleWithHandle os.now e.2 = false →
        e ∈ entries.filter (fun e => !idleWithHandle os.now e.2)) := by
  have hfilter : entries.filter (fun e =>
      decide (e.1 ∉ (entries.filter (fun x => idleWithHandle os.now x.2)).map Prod.fst)) =
      entries.filter (fun e => !idleWithHandle os.now e.2) := by
    apply List.filter_congr
    intro e he
    by_cases hidle : idleWithHandle os.now e.2 = true
    · have : e.1 ∈ (entries.filter (fun x => idleWithHandle os.now x.2)).map Prod.fst :=
        List.mem_map.mpr ⟨e, List.mem_filter.mpr ⟨he, hidle⟩, rfl⟩
      simp [this, hidle]
    · have : e.1 ∉ (entries.filter (fun x => idleWithHandle os.now x.2)).map Prod.fst := by
        intro hmem
        obtain ⟨e1, he1, hk⟩ := List.mem_map.mp hmem
        obtain ⟨he1m, he1i⟩ := List.mem_filter.mp he1
        have := List.inj_on_of_nodup_map hkeys he1m he hk
        rw [this] at he1i
        exact hidle he1i
      simp [this, hidle]
  have hrun : autoFreeOpenedFileWriters writer os =
      ({ writer with
          fileWriters := some (entries.filter (fun e => !idleWithHandle os.now e.2)),
          lastAutoFreeOpenedFileWritersTimer :=
            if (entries.filter (fun e => !idleWithHandle os.now e.2)).length ≠ 0 then
              some os.now
            else writer.lastAutoFreeOpenedFileWritersTimer },
        (entries.filter (fun e => idleWithHandle os.now e.2)).map
          (fun e => e.2.innerWriter)) := by
    unfold autoFreeOpenedFileWriters
    rw [hmap]
    dsimp only
    rw [sweepLoop_spec, hfilter]
    simp
  rw [hrun]
  refine ⟨rfl, rfl, ?_⟩
  intro e he
  constructor
  · intro hidle
    constructor
    · intro hmem
      obtain ⟨e1, he1, hk⟩ := List.mem_map.mp hmem
      obtain ⟨he1m, he1i⟩ := List.mem_filter.mp he1
      have := List.inj_on_of_nodup_map hkeys he1m he hk
      rw [this, hidle] at he1i
      simp at he1i
    · exact List.mem_map.mpr ⟨e, List.mem_filter.mpr ⟨he, hidle⟩, rfl⟩
  · intro hidle
    exact List.mem_filter.mpr ⟨he, by simp [hidle]⟩

/-- C18, the claim as stated fails: the first `Write` of a rule file writer for
`app.log`, at 1000 in a directory that cannot be created, leaves an owned writer
without a handle, last written at 1000; the sweep at `1000 +
DefaultOpenedFileMaxIdleTime + 1` finds it idle and leaves it in the map. -/
theorem C18_counterexample_idle_writer_without_handle :
    ∃ w1 fw,
      ({ sampleRuleFileWriter with fileName := lit "app.log" } : ruleFileWriter).Write
        noDirectory (lit "hello") = .ok (w1, 0, some (lit "permission denied")) ∧
      w1.fileWriters = some [(lit "app.log", fw)] ∧
      fw.lastWriteTime + DefaultOpenedFileMaxIdleTime <
        1000 + DefaultOpenedFileMaxIdleTime + 1 ∧
      (autoFreeOpenedFileWriters w1
        { sampleFileSystem with now := 1000 + DefaultOpenedFileMaxIdleTime + 1 }).1.fileWriters =
        some [(lit "app.log", fw)] :=
  ⟨_, _, rfl, rfl, by decide, rfl⟩

/-- C18 as amended, on a map that owns `a.log`, last written at 0, and `b.log`,
last written at 2000, both open: the sweep at `DefaultOpenedFileMaxIdleTime +
1000` closes and removes `a.log` and keeps `b.log`. -/
theorem C18_sweep_removes_idle_open_writers_witness :
    (autoFreeOpenedFileWriters sampleOwnedWriters
      { sampleFileSystem with now := DefaultOpenedFileMaxIdleTime + 1000 }).1.fileWriters =
      some [(lit "b.log",
        { sampleFileWriter with fileName := lit "b.log", lastWriteTime := 2000 })] ∧
    (autoFreeOpenedFileWriters sampleOwnedWriters
      { sampleFileSystem with now := DefaultOpenedFileMaxIdleTime + 1000 }).2 =
      [InnerWriter.file (lit "/w/app000.log")] :=
  ⟨(C18_sweep_removes_idle_open_writers sampleOwnedWriters
      { sampleFileSystem with now := DefaultOpenedFileMaxIdleTime + 1000 } _ rfl
      (by decide)).1,
    (C18_sweep_removes_idle_open_writers sampleOwnedWriters
      { sampleFileSystem with now := DefaultOpenedFileMaxIdleTime + 1000 } _ rfl
      (by decide)).2.1⟩

/-! ## Closing a rule file writer -/

/-- The loop of `ruleFileWriter.Close` over entries that all hold a handle:
every handle is closed, in order, and the text of every failure is added. -/
theorem closeLoop_with_handles (os : FileSystem) : ∀ (rest : List (GoString × fileWriter))
    (errMsg : GoString) (closed : List InnerWriter),
    (∀ e ∈ rest, e.2.innerWriter ≠ .nil) →
    closeLoop os rest errMsg closed =
      some (errMsg ++ (rest.map (closeErrorText os)).flatten,
        closed ++ rest.map (fun e => e.2.innerWriter)) := by
  intro rest
  induction rest with
  | nil => intro errMsg closed _; simp [closeLoop]
  | cons x rest ih =>
    intro errMsg closed h
    obtain ⟨fileName, fWriter⟩ := x
    have hx : fWriter.innerWriter ≠ .nil := h (fileName, fWriter) (List.mem_cons_self _ _)
    have hrest : ∀ e ∈ rest, e.2.innerWriter ≠ .nil :=
      fun e he => h e (List.mem_cons_of_mem _ he)
    unfold closeLoop
    split
    · next hnil => exact absurd hnil hx
    · split
      · next err herr =>
        rw [ih _ _ hrest]
        simp [closeErrorText, herr]
      · next herr =>
        rw [ih _ _ hrest]
        simp [closeErrorText, herr]

/-- When every owned writer holds a handle, `Close` returns, leaves the nil map,
has called `Close` on every handle, and returns nil exactly when no close
failed, otherwise the error that lists every failure. -/
theorem ruleFileWriter_Close_with_handles (writer : ruleFileWriter) (os : FileSystem)
    (entries : List (GoString × fileWriter)) (hmap : writer.fileWriters = some entries)
    (h : ∀ e ∈ entries, e.2.innerWriter ≠ .nil) :
    writer.Close os =
      .ok ({ writer with fileWriters := none },
        (if (entries.map (closeErrorText os)).flatten ≠ [] then
          some (lit "some fileWriter closed error: [" ++
            ((entries.map (closeErrorText os)).flatten).take
              ((entries.map (closeErrorText os)).flatten.length - 1) ++ lit "]")
        else none),
        entries.map (fun e => e.2.innerWriter)) := by
  unfold ruleFileWriter.Close
  rw [hmap]
  simp only [Option.getD_some]
  rw [closeLoop_with_handles os entries [] [] h]
  simp

/-- C19: the first `Write` of the rule file writer that `newRuleFileWriter`
builds for `app.log`, in a directory that does not exist and cannot be created,
returns the error and leaves an owned writer without an open handle; `Close` on
that state faults (a method call on the nil `innerWriter`) instead of
completing. -/
theorem C19_close_faults_on_writer_without_handle :
    newRuleFileWriter asciiLetters (lit "app.log") 100 = .ok sampleRuleFileWriter ∧
    sampleRuleFileWriter.formatFileName sampleTime LvInfo sampleContext =
      some { sampleRuleFileWriter with fileName := lit "app.log" } ∧
    ∃ w1 fw,
      ({ sampleRuleFileWriter with fileName := lit "app.log" } : ruleFileWriter).Write
        noDirectory (lit "hello") = .ok (w1, 0, some (lit "permission denied")) ∧
      w1.fileWriters = some [(lit "app.log", fw)] ∧ fw.innerWriter = .nil ∧
      w1.Close sampleFileSystem = .fault :=
  ⟨by decide, by decide, _, _, rfl, rfl, rfl, rfl⟩

/-! ## The dispatcher -/

theorem dispatchLoop_expected (now : GoTime) (message : GoString) (level : LogLevel)
    (context : RuntimeContext) (ws : List formattedWriter) (outs : List WriteOutcome)
    (h : List.Forall₂ (fun w o => w.Write now message level context = some o) ws outs) :
    ∀ i, dispatchLoop now message level context i ws = some (expectedCalls i outs) := by
  induction h with
  | nil => intro i; rfl
  | cons hw _ ih =>
    intro i
    simp only [dispatchLoop, hw, ih (i + 1), expectedCalls]
    split <;> rfl

theorem writePositions_expectedCalls : ∀ (outs : List WriteOutcome) (i : Nat),
    writePositions (expectedCalls i outs) = List.range' i outs.length := by
  intro outs
  induction outs with
  | nil => intro i; rfl
  | cons out outs ih =>
    intro i
    simp only [expectedCalls]
    split <;> simp [writePositions, ih (i + 1), List.range'_succ]

theorem reportedErrors_expectedCalls : ∀ (outs : List WriteOutcome) (i : Nat),
    reportedErrors (expectedCalls i outs) = outs.filterMap (fun out => out.err) := by
  intro outs
  induction outs with
  | nil => intro i; rfl
  | cons out outs ih =>
    intro i
    simp only [expectedCalls]
    split
    · next err herr => simp [reportedErrors, ih (i + 1), List.filterMap_cons, herr]
    · next herr => simp [reportedErrors, ih (i + 1), List.filterMap_cons, herr]

/-- C20: for every dispatcher and record, with `outs` the outcomes of `Write` on
the adapters in list order, `Dispatch` makes exactly the calls `Write` on
adapter 0, 1, ... in list order, whatever the earlier outcomes, each followed by
one `errorFunc(err)` exactly when that adapter's `Write` returned the non-nil
error `err`: the `Write` calls are the positions `0 .. n-1`, and the errors
passed to `errorFunc` are the errors of the failing adapters in adapter
order. -/
theorem C20_dispatch_writes_all_and_reports_errors (disp : dispatcher) (now : GoTime)
    (message : GoString) (level : LogLevel) (context : RuntimeContext)
    (outs : List WriteOutcome)
    (h : List.Forall₂ (fun w o => w.Write now message level context = some o)
      disp.writers outs) :
    disp.Dispatch now message level context = some (expectedCalls 0 outs) ∧
    writePositions (expectedCalls 0 outs) = List.range disp.writers.length ∧
    reportedErrors (expectedCalls 0 outs) = outs.filterMap (fun out => out.err) := by
  refine ⟨dispatchLoop_expected now message level context _ _ h 0, ?_,
    reportedErrors_expectedCalls outs 0⟩
  rw [writePositions_expectedCalls, h.length_eq, List.range_eq_range']

/-- C20 on a dispatcher with a failing adapter followed by a working one. -/
theorem C20_dispatch_writes_all_and_reports_errors_witness :
    dispatcher.Dispatch { writers := [failingAdapter, workingAdapter] } sampleTime (lit "hello")
        LvInfo sampleContext =
      some [DispatchCall.write 0, DispatchCall.errorFunc (lit "disk full"),
        DispatchCall.write 1] ∧
    writePositions (expectedCalls 0
        [{ err := some (lit "disk full"), sinkCalls := [SinkCall.write (lit "hello")],
           runtimeErrors := [] },
         { err := none, sinkCalls := [SinkCall.write (lit "hello")], runtimeErrors := [] }]) =
      List.range 2 ∧
    reportedErrors (expectedCalls 0
        [{ err := some (lit "disk full"), sinkCalls := [SinkCall.write (lit "hello")],
           runtimeErrors := [] },
         { err := none, sinkCalls := [SinkCall.write (lit "hello")], runtimeErrors := [] }]) =
      [lit "disk full"] :=
  C20_dispatch_writes_all_and_reports_errors { writers := [failingAdapter, workingAdapter] }
    sampleTime (lit "hello") LvInfo sampleContext
    [{ err := some (lit "disk full"), sinkCalls := [SinkCall.write (lit "hello")],
       runtimeErrors := [] },
     { err := none, sinkCalls := [SinkCall.write (lit "hello")], runtimeErrors := [] }]
    (List.Forall₂.cons rfl (List.Forall₂.cons rfl List.Forall₂.nil))

/-! ## Closing the dispatcher -/

/-- The text of `errMsg` without its last comma is the failure messages joined
by commas. -/
theorem errMsg_without_last_comma : ∀ (failures : List GoString),
    ((failures.map (fun e => e ++ lit ",")).flatten).take
        ((failures.map (fun e => e ++ lit ",")).flatten.length - 1) =
      List.intercalate (lit ",") failures := by
  intro failures
  induction failures with
  | nil => rfl
  | cons a rest ih =>
    cases rest with
    | nil =>
      simp [List.intercalate, lit]
    | cons b rest =>
      have hpos : 0 < ((b :: rest).map (fun e => e ++ lit ",")).flatten.length := by
        simp [lit]
      have hlen : ((a :: b :: rest).map (fun e => e ++ lit ",")).flatten.length - 1 =
          (a ++ lit ",").length +
            (((b :: rest).map (fun e => e ++ lit ",")).flatten.length - 1) := by
        simp only [List.map_cons, List.flatten_cons, List.length_append] at hpos ⊢
        omega
      rw [hlen]
      simp only [List.map_cons, List.flatten_cons] at ih ⊢
      rw [List.take_append, ih]
      simp [List.intercalate, List.intersperse]

/-- The loop of `dispatcher.Close` when every adapter's `Close` returns: every
adapter is closed, in order, and the message of every failure is added. -/
theorem closeWriters_spec (ws : List formattedWriter)
    (outs : List (formattedWriter × Option GoString))
    (h : List.Forall₂ (fun w o => w.Close = .ok o) ws outs) :
    ∀ (i : Nat) (errMsg : GoString) (called : List Nat),
      closeWriters i ws errMsg called =
        .ok (outs.map Prod.fst,
          errMsg ++ ((outs.filterMap Prod.snd).map (fun e => e ++ lit ",")).flatten,
          called ++ List.range' i ws.length) := by
  induction h with
  | nil => intro i errMsg called; simp [closeWriters]
  | @cons w o ws outs hw _ ih =>
    intro i errMsg called
    obtain ⟨w1, err⟩ := o
    simp only [closeWriters, hw]
    rw [ih]
    cases err with
    | none => simp [List.range'_succ]
    | some e => simp [List.range'_succ, List.filterMap_cons]

/-- An adapter holds no sink after its `Close` has returned. -/
theorem formattedWriter_Close_writer (w : formattedWriter)
    (o : formattedWriter × Option GoString) (h : w.Close = .ok o) : o.1.writer = none := by
  unfold formattedWriter.Close at h
  split at h
  · split at h
    · cases h; rfl
    · cases h
  · next hnone => cases h; exact hnone

theorem closed_writers_hold_no_sink (ws : List formattedWriter)
    (outs : List (formattedWriter × Option GoString))
    (h : List.Forall₂ (fun w o => w.Close = .ok o) ws outs) :
    ∀ o ∈ outs, o.1.writer = none := by
  induction h with
  | nil => intro o ho; cases ho
  | cons hw _ ih =>
    intro o ho
    rcases List.mem_cons.mp ho with rfl | ho
    · exact formattedWriter_Close_writer _ _ hw
    · exact ih o ho

/-- C21: when `outs` are the results of `Close` on the adapters in list order
(each returns, with an error or nil), `dispatcher.Close` calls `Close` on every
adapter, in list order, also after an earlier one has failed, and leaves every
adapter without its sink; it returns nil when no adapter's `Close` failed and
only then, and otherwise the one error `some writer closed error: ` followed by
the messages of the failing adapters in adapter order, joined by `,`. -/
theorem C21_dispatcher_close_closes_all (disp : dispatcher)
    (outs : List (formattedWriter × Option GoString))
    (h : List.Forall₂ (fun w o => w.Close = .ok o) disp.writers outs) :
    disp.Close =
      .ok ({ writers := outs.map Prod.fst },
        (if outs.filterMap Prod.snd = [] then none
        else
          some (lit "some writer closed error: " ++
            List.intercalate (lit ",") (outs.filterMap Prod.snd))),
        List.range disp.writers.length) ∧
    (outs.filterMap Prod.snd = [] ↔ ∀ o ∈ outs, o.2 = none) ∧
    (∀ o ∈ outs, o.1.writer = none) := by
  refine ⟨?_, ?_, closed_writers_hold_no_sink _ _ h⟩
  · unfold dispatcher.Close
    rw [closeWriters_spec disp.writers outs h 0 [] []]
    simp only [List.nil_append, List.range_eq_range']
    by_cases hf : outs.filterMap Prod.snd = []
    · simp [hf]
    · have hne : ((outs.filterMap Prod.snd).map (fun e => e ++ lit ",")).flatten ≠ [] := by
        cases hfm : outs.filterMap Prod.snd with
        | nil => exact absurd hfm hf
        | cons a rest => simp [lit]
      rw [if_pos hne, if_neg hf, errMsg_without_last_comma]
  · exact List.filterMap_eq_nil_iff

/-- C21 on a dispatcher of three adapters of which the first and the third
fail to close, with `disk full` and `busy`. -/
theorem C21_dispatcher_close_closes_all_witness :
    dispatcher.Close
        { writers := [closeFailingAdapter (lit "disk full"), workingAdapter,
                      closeFailingAdapter (lit "busy")] } =
      .ok ({ writers :=
              [{ closeFailingAdapter (lit "disk full") with writer := none },
               { workingAdapter with writer := none },
               { closeFailingAdapter (lit "busy") with writer := none }] },
        some (lit "some writer closed error: disk full,busy"),
        [0, 1, 2]) :=
  (C21_dispatcher_close_closes_all
    { writers := [closeFailingAdapter (lit "disk full"), workingAdapter,
                  closeFailingAdapter (lit "busy")] }
    [({ closeFailingAdapter (lit "disk full") with writer := none }, some (lit "disk full")),
     ({ workingAdapter with writer := none }, none),
     ({ closeFailingAdapter (lit "busy") with writer := none }, some (lit "busy"))]
    (List.Forall₂.cons rfl (List.Forall₂.cons rfl (List.Forall₂.cons rfl List.Forall₂.nil)))).1

/-! ## Names that share the prefix only -/

/-- C22: for the writer built by `newFileWriter("app###.log", 100, false)` the
loop of `getStorageFileName` reads the number 12 from the listed names `app12`
(no suffix) and `app+12.log` (a sign). In a directory that lists only `app12`,
of 10 bytes, the first `Write` resumes `/w/app12` at number 12; with only
`app+12.log` it resumes `/w/app+12.log` at number 12; and with `app12` and
`app003.log`, each at the cap, it starts `/w/app013.log`, number 13. -/
theorem C22_names_sharing_the_prefix_are_chosen :
    ∃ fw, newFileWriter (lit "app###.log") 100 false = .ok fw ∧
      candidateNumber fw (lit "app12") = some 12 ∧
      candidateNumber fw (lit "app+12.log") = some 12 ∧
      (fw.Write
        { sampleFileSystem with
          getDirFilePaths := fun _ => ([lit "app12"], none), Stat := fun _ => .info 10 }
        (lit "hello")).1.innerWriter = .file (lit "/w/app12") ∧
      (fw.Write
        { sampleFileSystem with
          getDirFilePaths := fun _ => ([lit "app12"], none), Stat := fun _ => .info 10 }
        (lit "hello")).1.currentCountNumber = 12 ∧
      (fw.Write
        { sampleFileSystem with
          getDirFilePaths := fun _ => ([lit "app+12.log"], none), Stat := fun _ => .info 10 }
        (lit "hello")).1.innerWriter = .file (lit "/w/app+12.log") ∧
      (fw.Write
        { sampleFileSystem with
          getDirFilePaths := fun _ => ([lit "app+12.log"], none), Stat := fun _ => .info 10 }
        (lit "hello")).1.currentCountNumber = 12 ∧
      (fw.Write
        { sampleFileSystem with
          getDirFilePaths := fun _ => ([lit "app12", lit "app003.log"], none),
          Stat := fun _ => .info 100 }
        (lit "hello")).1.innerWriter = .file (lit "/w/app013.log") ∧
      (fw.Write
        { sampleFileSystem with
          getDirFilePaths := fun _ => ([lit "app12", lit "app003.log"], none),
          Stat := fun _ => .info 100 }
        (lit "hello")).1.currentCountNumber = 13 :=
  ⟨_, rfl, rfl, rfl, rfl, rfl, rfl, rfl, rfl, rfl⟩

/-! ## The guard on the allowed tags -/

/-- C23, as stated, fails: under the allowed list of the rule file writer the
template `%date(%levels)` has an unescaped `%` at index 6 whose letter run
`levels` is not in the list, and it compiles: the text between the parentheses
is the parameter of `date` and is not scanned. -/
theorem C23_counterexample_marker_inside_parameter :
    (lit "%date(%levels)")[6]? = some 37 ∧
    letterRun asciiLetters ((lit "%date(%levels)").drop 7) = lit "levels" ∧
    lit "levels" ∉ [lit "date", lit "level", lit "LV", lit "lv"] ∧
    newFormatter asciiLetters (lit "%date(%levels)")
        [lit "date", lit "level", lit "LV", lit "lv"] =
      .ok { fmtStringOriginal := lit "%date(%levels)", fmtString := lit "%v",
            allowedTags := [lit "date", lit "level", lit "LV", lit "lv"],
            tagFuncs := [TagFunc.dateTimeClosure (lit "%levels")] } := by
  decide

/-- C23, amended: with a non-empty allowed list, when a template `p` compiles,
`p` followed by `%`, a byte other than `%` and more text does not compile if the
maximal letter run after that `%` is not itself a member of the list, whatever
prefixes of the run are allowed tags, and neither does `p` followed by a last
`%`: `%levels` is an error under the list
`date`, `level`, `LV`, `lv`, although without a list it compiles and resolves
`level`. -/
theorem C23_unlisted_letter_run_rejected (L : Nat → Bool) (p : GoString) (A : List GoString)
    (f : formatter) (hA : A ≠ []) (hp : newFormatter L p A = .ok f) :
    (∀ c rest, c ≠ 37 → letterRun L (c :: rest) ∉ A →
      (newFormatter L (p ++ 37 :: c :: rest) A).isError = true) ∧
    (newFormatter L (p ++ [37]) A).isError = true ∧
    (newFormatter asciiLetters (lit "%levels")
      [lit "date", lit "level", lit "LV", lit "lv"]).isError = true ∧
    newFormatter asciiLetters (lit "%levels") [] =
      .ok { fmtStringOriginal := lit "%levels", fmtString := lit "%vs", allowedTags := [],
            tagFuncs := [TagFunc.tagLevel] } := by
  refine ⟨?_, newFormatter_marker_error L p [] A f hp (Or.inl rfl), by decide, by decide⟩
  intro c rest hc hrun
  apply newFormatter_marker_error L p (c :: rest) A f hp
  refine Or.inr ⟨c, rest, rfl, hc, ?_⟩
  apply extractTagFunc_unallowed
  · exact hA
  · rw [extractLetterSequence_eq_letterRun]
    have hdrop : (p ++ 37 :: c :: rest).drop (p.length + 1) = c :: rest := by
      rw [List.drop_append]
      rfl
    simp only [hdrop]
    exact hrun

/-- C23 after the compiled template `app-`, on the rest `levels.log`, under the
list of the rule file writer. -/
theorem C23_unlisted_letter_run_rejected_witness :
    [lit "date", lit "level", lit "LV", lit "lv"] ≠ [] ∧
    newFormatter asciiLetters (lit "app-") [lit "date", lit "level", lit "LV", lit "lv"] =
      .ok { fmtStringOriginal := lit "app-", fmtString := lit "app-",
            allowedTags := [lit "date", lit "level", lit "LV", lit "lv"], tagFuncs := [] } ∧
    (newFormatter asciiLetters (lit "app-" ++ 37 :: 108 :: lit "evels.log")
      [lit "date", lit "level", lit "LV", lit "lv"]).isError = true :=
  ⟨by decide, by decide,
    (C23_unlisted_letter_run_rejected asciiLetters (lit "app-")
      [lit "date", lit "level", lit "LV", lit "lv"]
      { fmtStringOriginal := lit "app-", fmtString := lit "app-",
        allowedTags := [lit "date", lit "level", lit "LV", lit "lv"], tagFuncs := [] }
      (by decide) (by decide)).1 108 (lit "evels.log") (by decide) (by decide)⟩

end Vlog
